/-
Verification of the core algorithms of the apple-music-downloader repository
against its specification.

The Go sources are shallowly embedded: each Lean definition below translates
one Go function (file and function named in its doc comment).  Go machine
integers are modelled as `Int` (no arithmetic here approaches 2^63), Go maps
are modelled as association lists in insertion order (Go map iteration order
is unspecified, but every map-iteration in the translated code is
order-independent, which the comments note where it matters), and Go string
case mapping is modelled on ASCII (all case-mapped strings in the translated
code paths are ASCII).
-/
import Mathlib

set_option maxHeartbeats 1000000

/-! ## Go string primitives (strings / unicode / regexp packages) -/

/-- Model of Go `unicode.IsSpace`: the Unicode White_Space property. -/
def goIsSpace (c : Char) : Bool :=
  (0x9 ≤ c.toNat && c.toNat ≤ 0xd) || c.toNat = 0x20 || c.toNat = 0x85 ||
  c.toNat = 0xa0 || c.toNat = 0x1680 || (0x2000 ≤ c.toNat && c.toNat ≤ 0x200a) ||
  c.toNat = 0x2028 || c.toNat = 0x2029 || c.toNat = 0x202f || c.toNat = 0x205f ||
  c.toNat = 0x3000

/-- Model of Go `strings.TrimSpace` on the character list. -/
def goTrimSpaceList (l : List Char) : List Char :=
  ((l.dropWhile goIsSpace).reverse.dropWhile goIsSpace).reverse

/-- Model of Go `strings.TrimSpace`. -/
def goTrimSpace (s : String) : String :=
  ⟨goTrimSpaceList s.data⟩

/-- ASCII lower-casing of one character (Go applies full Unicode case mapping;
all strings case-mapped by the translated code are ASCII). -/
def goLowerChar (c : Char) : Char :=
  if 65 ≤ c.toNat && c.toNat ≤ 90 then Char.ofNat (c.toNat + 32) else c

/-- ASCII upper-casing of one character. -/
def goUpperChar (c : Char) : Char :=
  if 97 ≤ c.toNat && c.toNat ≤ 122 then Char.ofNat (c.toNat - 32) else c

/-- Model of Go `strings.ToLower` (ASCII fragment). -/
def goToLower (s : String) : String :=
  ⟨s.data.map goLowerChar⟩

/-- Model of Go `strings.ToUpper` (ASCII fragment). -/
def goToUpper (s : String) : String :=
  ⟨s.data.map goUpperChar⟩

/-- Containment of one character list in another, checked at every suffix. -/
def listContainsSub (sub : List Char) : List Char → Bool
  | [] => sub.isEmpty
  | c :: rest => sub.isPrefixOf (c :: rest) || listContainsSub sub rest

/-- Model of Go `strings.Contains`. -/
def goContains (s sub : String) : Bool :=
  listContainsSub sub.data s.data

/-- Model of Go `strings.HasPrefix`. -/
def goStartsWith (s pat : String) : Bool :=
  pat.data.isPrefixOf s.data

/-- Model of Go `strings.HasSuffix`. -/
def goEndsWith (s pat : String) : Bool :=
  pat.data.isSuffixOf s.data

/-- Helper for `goFields`: split a character list at white space,
accumulating the current field in reverse. -/
def goFieldsAux : List Char → List Char → List (List Char)
  | [], acc => if acc.isEmpty then [] else [acc.reverse]
  | c :: rest, acc =>
    if goIsSpace c then
      if acc.isEmpty then goFieldsAux rest []
      else acc.reverse :: goFieldsAux rest []
    else goFieldsAux rest (c :: acc)

/-- Model of Go `strings.Fields`: the maximal white-space-free substrings. -/
def goFields (s : String) : List String :=
  (goFieldsAux s.data []).map (fun l => ⟨l⟩)

/-- The character class `[A-Za-z0-9]` of the `nonAlnum` regexp in
`utils/playlistdedupe/dedupe.go`. -/
def isGoAlnum (c : Char) : Bool :=
  (48 ≤ c.toNat && c.toNat ≤ 57) || (65 ≤ c.toNat && c.toNat ≤ 90) ||
  (97 ≤ c.toNat && c.toNat ≤ 122)

/-! ## utils/playlistdedupe/dedupe.go: normalisation helpers -/

/-- Translation of `normalizeISRC` (dedupe.go): trim, and if non-empty, drop
every character outside `[A-Za-z0-9]` (the `nonAlnum` regexp replacement)
and upper-case the rest. -/
def normalizeISRC (value : String) : String :=
  let v := goTrimSpace value
  if v = "" then "" else goToUpper ⟨v.data.filter isGoAlnum⟩

/-- Translation of `normalizeText` (dedupe.go): lower-case, trim, and
collapse internal white space runs to single spaces via Fields + Join. -/
def normalizeText (value : String) : String :=
  let trimmed := goTrimSpace (goToLower value)
  if trimmed = "" then "" else String.intercalate " " (goFields trimmed)

/-- Translation of `looksLikeEPName`, identical in main.go and dedupe.go. -/
def looksLikeEPName (lowerName : String) : Bool :=
  goContains lowerName " ep" || goEndsWith lowerName " ep" ||
  goContains lowerName "- ep" || goContains lowerName "(ep)" ||
  goContains lowerName "[ep]"

/-! ## main.go: release classification and the Atmos metadata prefix -/

/-- Translation of `detectReleaseType` (main.go). -/
def detectReleaseType (name : String) (trackCount : Int) (isSingle : Bool) : String :=
  let lower := goToLower name
  if isSingle || goContains lower "single" then "Singles"
  else if looksLikeEPName lower then "EPs"
  else if trackCount > 0 then
    if trackCount ≤ 3 then "Singles"
    else if trackCount ≤ 6 then "EPs"
    else "Albums"
  else "Albums"

/-- The literal `atmosMetadataPrefix` constant of main.go: U+1F133 then a space. -/
def atmosPrefixLit : String := "🄳 "

/-- Translation of `withAtmosMetadataPrefix` (main.go). -/
def withAtmosMetadataPrefix (value : String) (apply : Bool) : String :=
  let clean := goTrimSpace value
  if clean = "" then ""
  else if !apply then clean
  else if goStartsWith clean atmosPrefixLit then clean
  else atmosPrefixLit ++ clean

/-! ## utils/ampapi data model (the fields consumed by the deduper)

`TrackRespData.albumsData` flattens the Go access path
`track.Relationships.Albums.Data`; the intermediate singleton structs carry
no other consumed fields. -/

/-- Album attributes consumed by `releaseRankForTrack`. -/
structure AlbumAttr where
  name : String
  trackCount : Int
  isSingle : Bool
deriving DecidableEq, Repr, Inhabited

/-- One entry of `Relationships.Albums.Data`. -/
structure AlbumData where
  id : String
  attributes : AlbumAttr
deriving DecidableEq, Repr, Inhabited

/-- Track attributes consumed by the deduper. -/
structure TrackAttr where
  name : String
  artistName : String
  isrc : String
  durationInMillis : Int
  contentRating : String
deriving DecidableEq, Repr, Inhabited

/-- The fields of `ampapi.TrackRespData` consumed by the deduper. -/
structure TrackRespData where
  id : String
  type : String
  attributes : TrackAttr
  albumsData : List AlbumData
deriving DecidableEq, Repr, Inhabited

/-! ## utils/playlistdedupe/dedupe.go: DedupeTracks -/

/-- The release-rank constants of dedupe.go. -/
def releaseRankUnknown : Int := 0

/-- Release rank of a single. -/
def releaseRankSingle : Int := 1

/-- Release rank of an EP. -/
def releaseRankEP : Int := 2

/-- Release rank of an album. -/
def releaseRankAlbum : Int := 3

/-- The `defaultDurationToleranceMS` constant of dedupe.go. -/
def defaultDurationToleranceMS : Int := 2000

/-- Translation of `releaseRankForTrack` (dedupe.go).  The Go nil-pointer
guard cannot fire (the function is only called on slice elements), so only
the empty-albums guard remains. -/
def releaseRankForTrack (track : TrackRespData) : Int :=
  match track.albumsData with
  | [] => releaseRankUnknown
  | album :: _ =>
    let name := goToLower (goTrimSpace album.attributes.name)
    if album.attributes.isSingle || goContains name "single" then releaseRankSingle
    else if looksLikeEPName name then releaseRankEP
    else if album.attributes.trackCount > 0 then
      if album.attributes.trackCount ≤ 3 then releaseRankSingle
      else if album.attributes.trackCount ≤ 6 then releaseRankEP
      else releaseRankAlbum
    else releaseRankUnknown

/-- Translation of `abs` (dedupe.go). -/
def goAbs (v : Int) : Int :=
  if v < 0 then -v else v

/-- Translation of the `Options` struct of dedupe.go. -/
structure DedupeOptions where
  enabled : Bool
  durationToleranceMS : Int
deriving DecidableEq, Repr

/-- Translation of the `Result` struct of dedupe.go.  The Go map
`DroppedToKept map[int]int` is modelled as an association list in insertion
order; the translated code never inserts the same key twice, so `List.lookup`
agrees with the Go map lookup. -/
structure DedupeResult where
  tracks : List TrackRespData
  keptIndexes : List Nat
  removedCount : Int
  droppedToKept : List (Nat × Nat)
deriving DecidableEq, Repr

/-- Translation of `betterCandidate` (dedupe.go), over the precomputed
release-rank slice. -/
def betterCandidate (releaseRanks : List Int) (left right : Nat) : Bool :=
  if releaseRanks.getD left 0 ≠ releaseRanks.getD right 0 then
    decide (releaseRanks.getD left 0 > releaseRanks.getD right 0)
  else decide (left < right)

/-- The winner scan shared by both stages of `DedupeTracks`:
`winner := members[0]; for idx in members[1:] { if betterCandidate(idx,
winner) { winner = idx } }`. -/
def pickWinner (releaseRanks : List Int) (winner : Nat) : List Nat → Nat
  | [] => winner
  | idx :: rest =>
    pickWinner releaseRanks (if betterCandidate releaseRanks idx winner then idx else winner) rest

/-- The winner of a member list (the `winner := members[0]` scan), with a
dummy value on the empty list, which both callers exclude. -/
def groupWinner (releaseRanks : List Int) (members : List Nat) : Nat :=
  match members with
  | [] => 0
  | m :: rest => pickWinner releaseRanks m rest

/-- One Go map insertion `groups[key] = append(groups[key], x)`, on the
association-list model: extend the existing entry, else append a new one. -/
def insertGroup {κ α : Type} [DecidableEq κ] (k : κ) (x : α) :
    List (κ × List α) → List (κ × List α)
  | [] => [(k, [x])]
  | (k2, xs) :: rest =>
    if k2 = k then (k2, xs ++ [x]) :: rest else (k2, xs) :: insertGroup k x rest

/-- The grouping loops of `DedupeTracks` (`for i := range tracks { ...
groups[key] = append(groups[key], i) }`), generic over the key extractor;
`none` models the `continue` guards. -/
def buildGroupsAux {κ α : Type} [DecidableEq κ] (keyOf : α → Option κ) :
    List α → List (κ × List α) → List (κ × List α)
  | [], gs => gs
  | x :: rest, gs =>
    buildGroupsAux keyOf rest
      (match keyOf x with
       | none => gs
       | some k => insertGroup k x gs)

/-- Grouping from the empty map. -/
def buildGroups {κ α : Type} [DecidableEq κ] (keyOf : α → Option κ) (l : List α) :
    List (κ × List α) :=
  buildGroupsAux keyOf l []

/-- The normalised track type `strings.ToLower(strings.TrimSpace(track.Type))`
used in both grouping keys of `DedupeTracks`. -/
def trackTypeNorm (track : TrackRespData) : String :=
  goToLower (goTrimSpace track.type)

/-- The track at index `i` (Go slice indexing; all accesses are in bounds). -/
def trackAt (tracks : List TrackRespData) (i : Nat) : TrackRespData :=
  tracks.getD i default

/-- The stage-1 grouping key of `DedupeTracks`: `none` for an empty
normalised ISRC (the `continue`), otherwise the Go map key string
`type + "|" + isrc`. -/
def isrcKeyOf (tracks : List TrackRespData) (i : Nat) : Option String :=
  let isrc := normalizeISRC (trackAt tracks i).attributes.isrc
  if isrc = "" then none
  else some (trackTypeNorm (trackAt tracks i) ++ "|" ++ isrc)

/-- The per-group body of stage 1 of `DedupeTracks`: for a group of size at
least 2, pick the winner and map every other member to it. -/
def groupDrops (releaseRanks : List Int) (members : List Nat) : List (Nat × Nat) :=
  if members.length < 2 then []
  else
    (members.filter (fun idx => idx ≠ groupWinner releaseRanks members)).map
      (fun idx => (idx, groupWinner releaseRanks members))

/-- Stage 1 of `DedupeTracks`: ISRC grouping and its dropped→winner map.
The Go `for _, members := range isrcGroups` iterates in unspecified map
order; the groups have pairwise disjoint member sets, so the resulting map
does not depend on that order, and the model fixes insertion order. -/
def stage1Drops (tracks : List TrackRespData) (releaseRanks : List Int) :
    List (Nat × Nat) :=
  (buildGroups (isrcKeyOf tracks) (List.range tracks.length)).foldl
    (fun acc g => acc ++ groupDrops releaseRanks g.2) []

/-- Translation of the `fallbackKey` struct of dedupe.go. -/
structure FallbackKey where
  trackType : String
  contentRating : String
  artist : String
  title : String
deriving DecidableEq, Repr

/-- The stage-2 grouping key of `DedupeTracks`: `none` models each
`continue` guard (still has an ISRC, non-positive duration, empty
normalised artist or title). -/
def fallbackKeyOf (tracks : List TrackRespData) (i : Nat) : Option FallbackKey :=
  let t := trackAt tracks i
  if normalizeISRC t.attributes.isrc ≠ "" then none
  else if t.attributes.durationInMillis ≤ 0 then none
  else
    let artist := normalizeText t.attributes.artistName
    let title := normalizeText t.attributes.name
    if artist = "" || title = "" then none
    else
      some ⟨trackTypeNorm t, goToLower (goTrimSpace t.attributes.contentRating),
            artist, title⟩

/-- The duration of the track at index `i` (the `durationEntry.duration`
field; the entry structs of the Go code are modelled by their `idx` field,
the duration being recoverable from the tracks slice). -/
def trackDur (tracks : List TrackRespData) (i : Nat) : Int :=
  (trackAt tracks i).attributes.durationInMillis

/-- The `sort.Slice` comparator of stage 2 as a total preorder (duration
ascending, index ascending on ties); `mergeSort` with this relation yields
the unique sorted permutation the Go sort produces, the comparator being a
strict total order on distinct indexes. -/
def durLe (tracks : List TrackRespData) (i j : Nat) : Bool :=
  if trackDur tracks i = trackDur tracks j then decide (i ≤ j)
  else decide (trackDur tracks i ≤ trackDur tracks j)

/-- The cluster-extension test of stage 2:
`abs(entry.duration - last.duration) <= tolerance`. -/
def closeEnough (tracks : List TrackRespData) (tolerance : Int) (entry last : Nat) : Bool :=
  decide (goAbs (trackDur tracks entry - trackDur tracks last) ≤ tolerance)

/-- Translation of the `flushCluster` closure of `DedupeTracks`: clusters of
size at least 2 map every non-winner member to the winner unless it is
already in the dropped map (the "Keep ISRC winner decisions authoritative"
guard). -/
def flushClusterDrops (releaseRanks : List Int) (cluster : List Nat)
    (dropped : List (Nat × Nat)) : List (Nat × Nat) :=
  if cluster.length < 2 then dropped
  else
    cluster.foldl
      (fun d idx =>
        if idx = groupWinner releaseRanks cluster then d
        else if (d.lookup idx).isSome then d
        else d ++ [(idx, groupWinner releaseRanks cluster)]) dropped

/-- The sorted-entry walk of stage 2 of `DedupeTracks`: extend the current
cluster while the duration gap to its last member stays within tolerance,
flush it (into the dropped map) on a larger gap, and flush the final
cluster at the end. -/
def stage2Walk (releaseRanks : List Int) (close : Nat → Nat → Bool) :
    List Nat → List Nat → List (Nat × Nat) → List (Nat × Nat)
  | [], cluster, dropped => flushClusterDrops releaseRanks cluster dropped
  | e :: rest, cluster, dropped =>
    match cluster.getLast? with
    | none => stage2Walk releaseRanks close rest [e] dropped
    | some last =>
      if close e last then stage2Walk releaseRanks close rest (cluster ++ [e]) dropped
      else stage2Walk releaseRanks close rest [e] (flushClusterDrops releaseRanks cluster dropped)

/-- Stage 2 of `DedupeTracks`: fallback grouping, duration sort and cluster
walk, threaded over the dropped map produced by stage 1.  As in stage 1 the
Go map iteration order is unspecified but immaterial: the fallback groups
have pairwise disjoint member sets disjoint from the stage-1 dropped keys. -/
def stage2Drops (tracks : List TrackRespData) (releaseRanks : List Int)
    (tolerance : Int) (dropped1 : List (Nat × Nat)) : List (Nat × Nat) :=
  (buildGroups (fallbackKeyOf tracks) (List.range tracks.length)).foldl
    (fun acc g =>
      if g.2.length < 2 then acc
      else
        stage2Walk releaseRanks (closeEnough tracks tolerance)
          (g.2.mergeSort (durLe tracks)) [] acc) dropped1

/-- The winner array of `DedupeTracks` (`winnerByIndex`), recovered from the
dropped map: the Go code writes `winnerByIndex[idx] = winner` exactly when it
inserts `droppedToKept[idx] = winner`. -/
def winnerByIndex (dropped : List (Nat × Nat)) (i : Nat) : Nat :=
  (dropped.lookup i).getD i

/-- The tolerance defaulting of `DedupeTracks`: non-positive options fall
back to `defaultDurationToleranceMS`. -/
def effectiveTolerance (opts : DedupeOptions) : Int :=
  if opts.durationToleranceMS ≤ 0 then defaultDurationToleranceMS
  else opts.durationToleranceMS

/-- The `keepAll` closure of `DedupeTracks`. -/
def keepAllResult (tracks : List TrackRespData) : DedupeResult :=
  { tracks := tracks
    keptIndexes := List.range tracks.length
    removedCount := 0
    droppedToKept := [] }

/-- The dropped→winner map of both stages of `DedupeTracks`. -/
def dedupeDrops (tracks : List TrackRespData) (tolerance : Int) : List (Nat × Nat) :=
  let releaseRanks := tracks.map releaseRankForTrack
  stage2Drops tracks releaseRanks tolerance (stage1Drops tracks releaseRanks)

/-- Translation of `DedupeTracks` (dedupe.go).  The final `sort.Ints` on the
kept indexes is modelled by `mergeSort`; the kept indexes are collected in
ascending order already, as in the Go code. -/
def DedupeTracks (tracks : List TrackRespData) (opts : DedupeOptions) : DedupeResult :=
  if tracks.length = 0 then
    { tracks := [], keptIndexes := [], removedCount := 0, droppedToKept := [] }
  else if !opts.enabled || tracks.length = 1 then keepAllResult tracks
  else
    let tolerance := effectiveTolerance opts
    let dropped := dedupeDrops tracks tolerance
    let keptIndexes :=
      ((List.range tracks.length).filter
        (fun i => winnerByIndex dropped i = i)).mergeSort (fun a b => decide (a ≤ b))
    { tracks := keptIndexes.map (trackAt tracks)
      keptIndexes := keptIndexes
      removedCount := (tracks.length : Int) - keptIndexes.length
      droppedToKept := dropped }


/-- The cluster decomposition computed by the stage-2 walk: the list of
clusters the walk flushes, in order (the drops-free counterpart of
`stage2Walk`, used to state its effect). -/
def gowalkClusters {α : Type} (close : α → α → Bool) : List α → List α → List (List α)
  | [], cluster => [cluster]
  | e :: rest, cluster =>
    match cluster.getLast? with
    | none => gowalkClusters close rest [e]
    | some last =>
      if close e last then gowalkClusters close rest (cluster ++ [e])
      else cluster :: gowalkClusters close rest [e]

/-- The dropped→winner pairs one fallback group contributes: sort its
members by duration, walk them into clusters, and flush each cluster. -/
def fallbackGroupDrops (tracks : List TrackRespData) (releaseRanks : List Int)
    (tolerance : Int) (members : List Nat) : List (Nat × Nat) :=
  ((gowalkClusters (closeEnough tracks tolerance) (members.mergeSort (durLe tracks)) []).map
    (groupDrops releaseRanks)).flatten

/-- The dropped→winner pairs stage 2 appends after the stage-1 map. -/
def stage2Extra (tracks : List TrackRespData) (releaseRanks : List Int)
    (tolerance : Int) : List (Nat × Nat) :=
  ((buildGroups (fallbackKeyOf tracks) (List.range tracks.length)).map
    (fun g => if g.2.length < 2 then []
              else fallbackGroupDrops tracks releaseRanks tolerance g.2)).flatten

/-- The member set of one fallback group: the indexes of the tracks whose
fallback key is `k`, in input order. -/
def fallbackGroup (tracks : List TrackRespData) (k : FallbackKey) : List Nat :=
  (List.range tracks.length).filter (fun j => fallbackKeyOf tracks j = some k)

/-- One fallback group sorted by duration ascending, index ascending on
ties (the `sort.Slice` of stage 2). -/
def fallbackSorted (tracks : List TrackRespData) (k : FallbackKey) : List Nat :=
  (fallbackGroup tracks k).mergeSort (durLe tracks)

/-- The cluster decomposition of one sorted fallback group. -/
def fallbackClusters (tracks : List TrackRespData) (tolerance : Int) (k : FallbackKey) :
    List (List Nat) :=
  gowalkClusters (closeEnough tracks tolerance) (fallbackSorted tracks k) []

/-! ## main.go: metadata tag resolution -/

/-- The `"m4a"` entry of `knownMetadataTagIDsByContainer` (main.go). -/
def knownMetadataTagIDsM4a : List String :=
  ["title", "title_sort", "artist", "artist_sort", "album", "album_sort",
   "album_artist", "album_artist_sort", "composer", "composer_sort", "genre",
   "track_number", "track_total", "disc_number", "disc_total", "release_date",
   "release_type", "isrc", "upc", "label", "publisher", "copyright", "advisory",
   "itunes_album_id", "itunes_artist_id", "album_version", "lyrics", "cover",
   "performer"]

/-- The `"flac"` entry of `knownMetadataTagIDsByContainer` (main.go). -/
def knownMetadataTagIDsFlac : List String :=
  ["title", "title_sort", "artist", "artist_sort", "album", "album_sort",
   "album_artist", "album_artist_sort", "composer", "composer_sort", "genre",
   "track_number", "track_total", "disc_number", "disc_total", "release_date",
   "original_date", "release_type", "isrc", "upc", "label", "publisher",
   "copyright", "advisory", "album_version", "lyrics", "cover", "performer",
   "loudness"]

/-- Translation of `normalizeMetadataContainer` (main.go). -/
def normalizeMetadataContainer (container : String) : String :=
  let normalized := goToLower (goTrimSpace container)
  if normalized = "flac" then "flac" else "m4a"

/-- Translation of `metadataTagOrderForContainer` (main.go): the Go map
`knownMetadataTagIDsByContainer` holds exactly the keys `"m4a"` and `"flac"`,
and `normalizeMetadataContainer` returns one of the two, so the map lookup is
a two-way branch. -/
def metadataTagOrderForContainer (container : String) : List String :=
  if normalizeMetadataContainer container = "flac" then knownMetadataTagIDsFlac
  else knownMetadataTagIDsM4a

/-- Translation of `defaultMetadataTagList` (main.go); the Go function returns
a fresh copy of the order slice. -/
def defaultMetadataTagList (container : String) : List String :=
  metadataTagOrderForContainer container

/-- Translation of the Go loop `for idx, tag := range order { if tag == t
{ idxI = idx } }` starting from `idxI = len(order)` inside the
`sort.SliceStable` comparator of `normalizeKnownMetadataTagsForContainer`:
the accumulator keeps the index of the last match, defaulting to the length. -/
def goLastIndexOfAux (tag : String) : List String → Nat → Nat → Nat
  | [], _, acc => acc
  | t :: rest, i, acc =>
    goLastIndexOfAux tag rest (i + 1) (if t = tag then i else acc)

/-- The canonical index of a tag in an order list (see `goLastIndexOfAux`). -/
def goLastIndexOf (order : List String) (tag : String) : Nat :=
  goLastIndexOfAux tag order 0 order.length

/-- Translation of the filtering loop of `normalizeKnownMetadataTagsForContainer`
(main.go).  `order.contains tag` is the lookup in `tagSet`, the membership map
`buildKnownMetadataTagSet` builds from the same order list; `seen` is the Go
`seen` map, kept as the list of tags inserted so far. -/
def normalizeEntriesAux (order : List String) : List String → List String → List String → List String
  | [], _, ordered => ordered
  | raw :: rest, seen, ordered =>
    let tag := goToLower (goTrimSpace raw)
    if tag = "" then normalizeEntriesAux order rest seen ordered
    else if order.contains tag = false then normalizeEntriesAux order rest seen ordered
    else if seen.contains tag then normalizeEntriesAux order rest seen ordered
    else normalizeEntriesAux order rest (tag :: seen) (ordered ++ [tag])

/-- Translation of `normalizeKnownMetadataTagsForContainer` (main.go): filter
and deduplicate the entries, then `sort.SliceStable` by canonical index
(a stable sort by `≤` on the comparator's key, which is how a stable sort by
a strict `<` behaves). -/
def normalizeKnownMetadataTagsForContainer (entries : List String) (container : String) : List String :=
  let order := metadataTagOrderForContainer container
  let ordered := normalizeEntriesAux order entries [] []
  ordered.mergeSort (fun a b => decide (goLastIndexOf order a ≤ goLastIndexOf order b))

/-- The configuration and process environment `resolveMetadataTagsEnabledForContainer`
reads: the two optional config lists (`nil` slice = `none`) and the two
environment variables (`os.LookupEnv` miss = `none`). -/
structure MetadataConfig where
  metadataTagsM4a : Option (List String)
  metadataTagsFlac : Option (List String)
  envMetadataTagsM4a : Option String
  envMetadataTagsFlac : Option String
  deriving Repr

/-- Translation of `metadataTagsForContainer` (main.go): the switch on the
lower-cased trimmed container, returning the config list and its presence. -/
def metadataTagsForContainer (cfg : MetadataConfig) (container : String) : Option (List String) :=
  if goToLower (goTrimSpace container) = "flac" then cfg.metadataTagsFlac
  else cfg.metadataTagsM4a

/-- Translation of `envKeyForContainer` (main.go) composed with the
environment lookup: the switch selects which variable is read. -/
def envValueForContainer (cfg : MetadataConfig) (container : String) : Option String :=
  if goToLower (goTrimSpace container) = "flac" then cfg.envMetadataTagsFlac
  else cfg.envMetadataTagsM4a

/-- Translation of `strings.Split(s, ",")` for the single-character comma
separator. -/
def splitOnCommaAux : List Char → List Char → List String
  | [], acc => [⟨acc.reverse⟩]
  | c :: rest, acc =>
    if c = ',' then String.mk acc.reverse :: splitOnCommaAux rest []
    else splitOnCommaAux rest (c :: acc)

/-- `strings.Split(s, ",")` (main.go uses it on the environment value). -/
def goSplitComma (s : String) : List String :=
  splitOnCommaAux s.data []

/-- Translation of `resolveMetadataTagsEnabledForContainer` (main.go).  The Go
function returns the map `{tag: true}` over the normalized list; membership in
that map is membership in the list, so the enabled set is returned as the
normalized list itself (its order is the iteration-independent fact the
callers rely on). -/
def resolveMetadataTagsEnabledForContainer (cfg : MetadataConfig) (container : String) : List String :=
  let active :=
    match envValueForContainer cfg container with
    | some envTags => if goTrimSpace envTags = "" then [] else goSplitComma envTags
    | none =>
      match metadataTagsForContainer cfg container with
      | some configTags => configTags
      | none => defaultMetadataTagList container
  normalizeKnownMetadataTagsForContainer active container

/-! ## main.go: ATMOS variant selection in extractMedia -/

/-- A master-playlist variant as used by the selection loop of `extractMedia`
(main.go): codec string, the `AUDIO` attribute, the variant URI and the
average bandwidth the list is sorted by. -/
structure HlsVariant where
  codecs : String
  audio : String
  uri : String
  averageBandwidth : Nat
  deriving DecidableEq, Repr, Inhabited

/-- Digit run of `strconv.Atoi`: all characters must be decimal digits. -/
def digitsToNatAux : List Char → Nat → Option Nat
  | [], acc => some acc
  | c :: rest, acc =>
    if '0' ≤ c ∧ c ≤ '9' then digitsToNatAux rest (acc * 10 + (c.toNat - '0'.toNat))
    else none

/-- Translation of `strconv.Atoi` (error modelled as `none`): an optional
sign followed by at least one digit, nothing else. -/
def goAtoi (s : String) : Option Int :=
  match s.data with
  | [] => none
  | '+' :: rest =>
    if rest = [] then none else (digitsToNatAux rest 0).map Int.ofNat
  | '-' :: rest =>
    if rest = [] then none else (digitsToNatAux rest 0).map (fun n => -(n : Int))
  | l => (digitsToNatAux l 0).map Int.ofNat

/-- Translation of `strings.Split(s, sep)` for a single-character separator. -/
def splitOnCharAux (sep : Char) : List Char → List Char → List String
  | [], acc => [⟨acc.reverse⟩]
  | c :: rest, acc =>
    if c = sep then String.mk acc.reverse :: splitOnCharAux sep rest []
    else splitOnCharAux sep rest (c :: acc)

/-- `strings.Split(s, sep)` for a one-character separator. -/
def goSplitOnChar (sep : Char) (s : String) : List String :=
  splitOnCharAux sep s.data []

/-- `split[len(split)-1]` for `split := strings.Split(v.Audio, "-")`:
`strings.Split` never returns an empty slice, so the default is dead. -/
def variantLastToken (v : HlsVariant) : String :=
  (goSplitOnChar '-' v.audio).getLastD ""

/-- The guard `variant.Codecs == "ec-3" && strings.Contains(variant.Audio,
"atmos")` of the ATMOS branch of `extractMedia` (main.go). -/
def isEc3Atmos (v : HlsVariant) : Bool :=
  v.codecs == "ec-3" && goContains v.audio "atmos"

/-- The condition under which the ATMOS-mode loop of `extractMedia` stops at
a variant instead of moving on: an ec-3 atmos variant whose trailing token
fails to parse or parses to at most the cap, or any ac-3 variant. -/
def atmosStop (atmosMax : Int) (v : HlsVariant) : Bool :=
  (isEc3Atmos v && ((goAtoi (variantLastToken v)).isNone ||
    decide ((goAtoi (variantLastToken v)).getD 0 ≤ atmosMax))) || v.codecs == "ac-3"

/-- Translation of the `dl_atmos` arm of the selection loop of `extractMedia`
(main.go, lines 5300-5340), iterating the variants in the order produced by
the preceding bandwidth-descending sort.  `Except.error ()` is the
`strconv.Atoi` error returned from the loop; `Except.ok none` is the fallen
through loop, which the caller turns into the `no codec found` error;
`Except.ok (some (v, q))` is a `break` with `streamUrl` resolved against
variant `v` and `Quality = q`. -/
def atmosSelect (atmosMax : Int) : List HlsVariant → Except Unit (Option (HlsVariant × String))
  | [] => Except.ok none
  | v :: rest =>
    if isEc3Atmos v then
      match goAtoi (variantLastToken v) with
      | none => Except.error ()
      | some n =>
        if n ≤ atmosMax then Except.ok (some (v, variantLastToken v ++ " Kbps"))
        else atmosSelect atmosMax rest
    else if v.codecs == "ac-3" then
      Except.ok (some (v, variantLastToken v ++ " Kbps"))
    else atmosSelect atmosMax rest

/-! ## main.go: Go filepath primitives (slash-separated paths) -/

/-- One step of the lexical simplification of `path/filepath.Clean`: push a
segment onto the (reversed) output stack, resolving `..` against it. -/
def cleanPush (rooted : Bool) (acc : List String) (seg : String) : List String :=
  if seg = ".." then
    match acc with
    | [] => if rooted then [] else [".."]
    | top :: restAcc => if top = ".." then seg :: acc else restAcc
  else seg :: acc

/-- Translation of `filepath.Clean` for the slash separator: empty path is
`.`, repeated separators and `.` elements vanish, `..` consumes the previous
element (and vanishes against the root). -/
def goFilepathClean (path : String) : String :=
  if path = "" then "."
  else
    let rooted := goStartsWith path "/"
    let segs := (goSplitOnChar '/' path).filter (fun s => ¬(s = "" ∨ s = "."))
    let out := (segs.foldl (cleanPush rooted) []).reverse
    if rooted then "/" ++ String.intercalate "/" out
    else if out = [] then "." else String.intercalate "/" out

/-- Translation of `filepath.Join` for two elements: empty elements are
dropped and the result is cleaned, the all-empty join being empty. -/
def goFilepathJoin (a b : String) : String :=
  if a = "" ∧ b = "" then ""
  else if a = "" then goFilepathClean b
  else if b = "" then goFilepathClean a
  else goFilepathClean (a ++ "/" ++ b)

/-- Translation of `filepath.Base`: last element after trailing separators
are removed, `.` for the empty path, `/` for an all-separator path. -/
def goFilepathBase (path : String) : String :=
  if path = "" then "."
  else
    let stripped : String := ⟨(path.data.reverse.dropWhile (fun c => c = '/')).reverse⟩
    if stripped = "" then "/"
    else (goSplitOnChar '/' stripped).getLastD stripped

/-- Scan of `filepath.Ext` from the end of the path: stop at the first `.`
(returning it with everything after) or at a separator (returning ""). -/
def goFilepathExtAux : List Char → List Char → String
  | [], _ => ""
  | c :: rest, acc =>
    if c = '/' then ""
    else if c = '.' then ⟨'.' :: acc⟩
    else goFilepathExtAux rest (c :: acc)

/-- Translation of `filepath.Ext`. -/
def goFilepathExt (path : String) : String :=
  goFilepathExtAux path.data.reverse []

/-- Translation of `strings.TrimSuffix`. -/
def goTrimSuffix (s suffix : String) : String :=
  if goEndsWith s suffix then ⟨s.data.take (s.data.length - suffix.data.length)⟩
  else s

/-- Drop the common leading segments of two segment lists. -/
def stripCommonSegs : List String → List String → List String × List String
  | a :: as, b :: bs =>
    if a = b then stripCommonSegs as bs else (a :: as, b :: bs)
  | as, bs => (as, bs)

/-- Translation of `filepath.Rel` for the slash separator (`none` is the Go
error): clean both paths, require equal rootedness, drop the common prefix;
the walk fails when the remaining base starts with `..` (in a cleaned path
`..` only occurs leading), otherwise it climbs with one `..` per remaining
base segment. -/
def goFilepathRel (basepath targpath : String) : Option String :=
  let base := goFilepathClean basepath
  let targ := goFilepathClean targpath
  if base = targ then some "."
  else if goStartsWith base "/" ≠ goStartsWith targ "/" then none
  else
    let baseSegs := if base = "." then []
      else (goSplitOnChar '/' base).filter (fun s => s ≠ "")
    let targSegs := if targ = "." then []
      else (goSplitOnChar '/' targ).filter (fun s => s ≠ "")
    let rests := stripCommonSegs baseSegs targSegs
    if rests.1.contains ".." then none
    else
      let out := List.replicate rests.1.length ".." ++ rests.2
      if out = [] then some "." else some (String.intercalate "/" out)

/-! ## main.go: the ripTrack pipeline -/

/-- The slice of the global `Config` that `ripTrack` and its helpers read. -/
structure RipConfig where
  getM3u8Mode : String
  getM3u8FromDevice : Bool
  songFileFormat : String
  atmosMax : Int
  aacType : String
  convertAfterDownload : Bool
  convertFormat : String
  convertKeepOriginal : Bool
  alacSaveFolder : String
  aacSaveFolder : String

/-- The global download-mode flags. -/
structure RipModes where
  dl_atmos : Bool
  dl_aac : Bool
  dl_lyrics_only : Bool
  dl_covers_only : Bool

/-- Translation of `fallbackAacSaveDir` (main.go): relocate a save directory
under `AacSaveFolder`, keeping the path relative to `AlacSaveFolder` when the
directory lies beneath it and falling back to the base name otherwise.
(`filepath.Clean` never returns "", so the `sourceRoot ≠ ""` guard of the
source always holds.) -/
def fallbackAacSaveDir (cfg : RipConfig) (original : String) : String :=
  let targetRoot := goTrimSpace cfg.aacSaveFolder
  if targetRoot = "" then original
  else
    let originalClean := goFilepathClean original
    let sourceRoot := goFilepathClean (goTrimSpace cfg.alacSaveFolder)
    if sourceRoot ≠ "" then
      match goFilepathRel sourceRoot originalClean with
      | some rel =>
        if rel ≠ ".." ∧ ¬goStartsWith rel "../" then
          if rel = "." then targetRoot else goFilepathJoin targetRoot rel
        else goFilepathJoin targetRoot (goFilepathBase originalClean)
      | none => goFilepathJoin targetRoot (goFilepathBase originalClean)
    else goFilepathJoin targetRoot (goFilepathBase originalClean)

/-- Result of `os.Stat` on one path, as consumed by `fileExists` (main.go):
a regular file, a directory, a missing path, or any other stat error. -/
inductive StatResult where
  | file
  | dir
  | notExist
  | statError
  deriving DecidableEq, Repr

/-- The character class of the `forbiddenNames` regexp (main.go). -/
def isForbiddenNameChar (c : Char) : Bool :=
  c = '/' || c = '\\' || c = '<' || c = '>' || c = ':' || c = '"' ||
  c = '|' || c = '?' || c = '*'

/-- `forbiddenNames.ReplaceAllString(name, "_")` (main.go): every character
of the class is replaced by an underscore. -/
def sanitizeForbidden (s : String) : String :=
  ⟨s.data.map (fun c => if isForbiddenNameChar c then '_' else c)⟩

/-- One history line of the JSON history stream (main.go): a completed
download, an unavailable track with its reason, or an ALAC repair performed
by the conversion hook. -/
inductive HistoryEvent where
  | download
  | unavailable (reason : String)
  | repair
  deriving DecidableEq, Repr

/-- Translation of `shouldEmitHistory` (main.go). -/
def shouldEmitHistory (modes : RipModes) : Bool :=
  !modes.dl_lyrics_only && !modes.dl_covers_only

/-- `emitHistoryEntry` / `emitUnavailableEntry` (main.go) as event lists:
one entry when history is enabled, none otherwise. -/
def emitIf (modes : RipModes) (e : HistoryEvent) : List HistoryEvent :=
  if shouldEmitHistory modes then [e] else []

/-- The mutable fields of `task.Track` that `ripTrack` reads or writes. -/
structure RipTrack where
  id : String
  taskNum : Nat
  preID : String
  trackType : String
  webM3u8 : String
  m3u8 : String
  deviceM3u8 : String
  codec : String
  saveDir : String
  saveName : String
  savePath : String
  coverPath : String
  quality : String
  audioTraits : List String

/-- The environment `ripTrack` interacts with: the stop signal, the
filesystem, the subprocesses and the network calls.  Each field is the
observed result of the corresponding call; `buildSongName`, a pure
formatting function, is represented by its result `songName`. -/
structure RipEnv where
  stopRequested : Bool
  mp4decryptFound : Bool
  mvDownloadOk : Bool
  hasAtmosVariantResult : Option Bool
  mkdirOk : Bool
  checkM3u8Result : String
  extractQualityResult : Option String
  songName : String
  stat : String → StatResult
  runv3Error : Option String
  extractUrlResult : Option String
  prefetchKeyDetected : Option Bool
  deviceM3u8 : String
  extractUrlDeviceResult : Option String
  runv2FirstOk : Bool
  runv2RetryableAndWrapperOk : Bool
  runv2SecondOk : Bool
  embedCover : Bool
  ensureCoverResult : Option String
  mp4boxOk : Bool
  writeTagsOk : Bool
  repairEvents : List HistoryEvent

/-- The observable outcome of one `ripTrack` call: the return value, the
counter increments, the task numbers appended to `okDict[track.PreID]`, the
history entries emitted in order, whether the track audio was fetched
(`runv2`/`runv3` invoked), and the final track state. -/
structure RipOutcome where
  ret : Bool
  total : Nat
  success : Nat
  errors : Nat
  unavailable : Nat
  okAppend : List Nat
  events : List HistoryEvent
  fetched : Bool
  track : RipTrack

/-- The `Quality` computation of `ripTrack` (main.go): only when the song
file format mentions `Quality`; Atmos renders `AtmosMax - 2000`, aac-lc is
fixed at 256, anything else asks the manifest (whose failure aborts the
track). -/
def ripQuality (cfg : RipConfig) (modes : RipModes) (env : RipEnv)
    (needDlAacLc : Bool) : Option String :=
  if goContains cfg.songFileFormat "Quality" then
    if modes.dl_atmos then some (toString (cfg.atmosMax - 2000) ++ "Kbps")
    else if needDlAacLc then some "256Kbps"
    else env.extractQualityResult
  else some ""

/-- The `considerConverted` condition of `ripTrack` (main.go). -/
def considerConverted (cfg : RipConfig) : Prop :=
  cfg.convertAfterDownload = true ∧ cfg.convertFormat ≠ "" ∧
  goToLower cfg.convertFormat ≠ "copy" ∧ cfg.convertKeepOriginal = false

instance (cfg : RipConfig) : Decidable (considerConverted cfg) := by
  unfold considerConverted
  infer_instance

/-- The post-transcode target path of `ripTrack` (main.go). -/
def convertedPathFor (cfg : RipConfig) (trackPath : String) : String :=
  goTrimSuffix trackPath (goFilepathExt trackPath) ++ "." ++ goToLower cfg.convertFormat

/-- The tail of `ripTrack` after a successful audio download (main.go): the
lyrics phase only reads and writes lyric files (every error in it is printed
and swallowed), so it leaves the modelled state unchanged; the cover phase
may fill an empty cover path; `MP4Box` failure is an error, `writeMP4Tags`
failure counts unavailable, `convertIfNeeded` never fails the track and
contributes only repair history entries, and then the track succeeds. -/
def ripTrackPost (modes : RipModes) (env : RipEnv) (track : RipTrack)
    (trackPath : String) (events0 : List HistoryEvent) : RipOutcome :=
  let track1 :=
    if env.embedCover = true ∧ track.coverPath = "" then
      match env.ensureCoverResult with
      | some p => { track with coverPath := p }
      | none => track
    else track
  if env.mp4boxOk = false then
    ⟨false, 1, 0, 1, 0, [], events0, true, track1⟩
  else
    let track2 := { track1 with savePath := trackPath }
    if env.writeTagsOk = false then
      ⟨false, 1, 0, 0, 1, [], events0, true, track2⟩
    else
      ⟨true, 1, 1, 0, 0, [track2.taskNum],
        events0 ++ env.repairEvents ++ emitIf modes HistoryEvent.download, true, track2⟩

/-- The body of `ripTrack` (main.go) once the music-video branch and the
Atmos preflight are behind and the aac-lc/lossless-fallback flags are
settled: codec switch, fallback relocation and mkdir, device-m3u8 check,
quality, save name, the already-downloaded short circuit, then the aac-lc
(`runv3`) or default (`runv2`) download and the post-processing tail. -/
def ripTrackBody (cfg : RipConfig) (modes : RipModes) (env : RipEnv)
    (track0 : RipTrack) (mediaUserToken : String)
    (needDlAacLc usingLosslessFallback : Bool)
    (events0 : List HistoryEvent) : RipOutcome :=
  let track1 := if needDlAacLc = true then { track0 with codec := "AAC" } else track0
  let track2 :=
    if usingLosslessFallback = true then
      { track1 with saveDir := fallbackAacSaveDir cfg track1.saveDir, coverPath := "" }
    else track1
  if usingLosslessFallback = true ∧ env.mkdirOk = false then
    ⟨false, 1, 0, 1, 0, [], events0, false, track2⟩
  else
    let needCheck := cfg.getM3u8Mode == "all" ||
      (cfg.getM3u8Mode == "hires" && track2.audioTraits.contains "hi-res-lossless")
    let track3 :=
      if needCheck = true ∧ needDlAacLc = false ∧ goEndsWith env.checkM3u8Result ".m3u8" then
        { track2 with deviceM3u8 := env.checkM3u8Result, m3u8 := env.checkM3u8Result }
      else track2
    match ripQuality cfg modes env needDlAacLc with
    | none => ⟨false, 1, 0, 1, 0, [], events0, false, track3⟩
    | some quality =>
      let track4 := { track3 with quality := quality }
      let filename := sanitizeForbidden env.songName ++ ".m4a"
      let track5 := { track4 with saveName := filename }
      let trackPath := goFilepathJoin track5.saveDir filename
      if env.stat trackPath = StatResult.file then
        ⟨true, 1, 1, 0, 0, [track5.taskNum],
          events0 ++ emitIf modes HistoryEvent.download, false, track5⟩
      else if considerConverted cfg ∧
          env.stat (convertedPathFor cfg trackPath) = StatResult.file then
        ⟨true, 1, 1, 0, 0, [track5.taskNum],
          events0 ++ emitIf modes HistoryEvent.download, false, track5⟩
      else if needDlAacLc = true then
        if mediaUserToken.utf8ByteSize ≤ 50 then
          if usingLosslessFallback = true then
            ⟨false, 1, 0, 0, 1, [], events0, false, track5⟩
          else ⟨false, 1, 0, 1, 0, [], events0, false, track5⟩
        else
          match env.runv3Error with
          | some msg =>
            if msg = "Unavailable" then ⟨false, 1, 0, 0, 1, [], events0, true, track5⟩
            else if usingLosslessFallback = true then
              ⟨false, 1, 0, 0, 1, [], events0, true, track5⟩
            else ⟨false, 1, 0, 1, 0, [], events0, true, track5⟩
          | none => ripTrackPost modes env track5 trackPath events0
      else
        match env.extractUrlResult with
        | none => ⟨false, 1, 0, 0, 1, [], events0, false, track5⟩
        | some _ =>
          let track6 :=
            if cfg.getM3u8FromDevice = true ∧ env.prefetchKeyDetected = some true ∧
                goEndsWith env.deviceM3u8 ".m3u8" then
              { track5 with deviceM3u8 := env.deviceM3u8, m3u8 := env.deviceM3u8 }
            else track5
          if cfg.getM3u8FromDevice = true ∧ env.prefetchKeyDetected = some true ∧
              goEndsWith env.deviceM3u8 ".m3u8" ∧ env.extractUrlDeviceResult = none then
            ⟨false, 1, 0, 0, 1, [], events0, false, track6⟩
          else if env.runv2FirstOk ||
              (env.runv2RetryableAndWrapperOk && env.runv2SecondOk) then
            ripTrackPost modes env track6 trackPath events0
          else ⟨false, 1, 0, 1, 0, [], events0, true, track6⟩

/-- Translation of `ripTrack` (main.go): the stop check, the music-video
branch, the Atmos preflight, the aac-lc flag and the lossless-to-AAC
fallback decision, then `ripTrackBody`.  (The playlist album-info prefetch
touches only fields outside the modelled state.) -/
def ripTrack (cfg : RipConfig) (modes : RipModes) (env : RipEnv)
    (track : RipTrack) (mediaUserToken : String) : RipOutcome :=
  if env.stopRequested = true then ⟨false, 0, 0, 0, 0, [], [], false, track⟩
  else if track.trackType = "music-videos" then
    if mediaUserToken.utf8ByteSize ≤ 50 then ⟨true, 1, 1, 0, 0, [], [], false, track⟩
    else if env.mp4decryptFound = false then ⟨true, 1, 1, 0, 0, [], [], false, track⟩
    else if env.mvDownloadOk = true then ⟨true, 1, 1, 0, 0, [], [], true, track⟩
    else ⟨false, 1, 0, 1, 0, [], [], true, track⟩
  else if modes.dl_atmos = true ∧ track.webM3u8 = "" then
    ⟨false, 1, 0, 0, 1, [], emitIf modes (HistoryEvent.unavailable "atmos_unavailable"),
      false, track⟩
  else if modes.dl_atmos = true ∧ env.hasAtmosVariantResult = none then
    ⟨false, 1, 0, 0, 1, [],
      emitIf modes (HistoryEvent.unavailable "atmos_availability_check_failed"),
      false, track⟩
  else if modes.dl_atmos = true ∧ env.hasAtmosVariantResult = some false then
    ⟨false, 1, 0, 0, 1, [], emitIf modes (HistoryEvent.unavailable "atmos_unavailable"),
      false, track⟩
  else
    if track.webM3u8 = "" ∧ (modes.dl_aac && (cfg.aacType == "aac-lc")) = false then
      if modes.dl_atmos = true then
        ⟨false, 1, 0, 0, 1, [],
          emitIf modes (HistoryEvent.unavailable "atmos_unavailable"), false, track⟩
      else
        ripTrackBody cfg modes env track mediaUserToken true true
          (emitIf modes (HistoryEvent.unavailable "lossless_unavailable"))
    else
      ripTrackBody cfg modes env track mediaUserToken
        (modes.dl_aac && (cfg.aacType == "aac-lc")) false []

/-! ## MARKER-END-DEFS (later definitions are inserted above this line) -/

/-! ## Generic lemmas: association lists, grouping, flattening -/

theorem lookup_append_of_some {α β : Type} [BEq α] {k : α} {l1 l2 : List (α × β)} {v : β}
    (h : l1.lookup k = some v) : (l1 ++ l2).lookup k = some v := by
  induction l1 with
  | nil => simp [List.lookup] at h
  | cons p rest ih =>
    obtain ⟨a, b⟩ := p
    rw [List.cons_append, List.lookup_cons]
    rw [List.lookup_cons] at h
    cases h2 : (k == a) with
    | true => simpa [h2] using h
    | false =>
      simp only [h2] at h ⊢
      exact ih h

theorem lookup_append_of_none {α β : Type} [BEq α] {k : α} {l1 l2 : List (α × β)}
    (h : l1.lookup k = none) : (l1 ++ l2).lookup k = l2.lookup k := by
  induction l1 with
  | nil => simp
  | cons p rest ih =>
    obtain ⟨a, b⟩ := p
    rw [List.cons_append, List.lookup_cons]
    rw [List.lookup_cons] at h
    cases h2 : (k == a) with
    | true => simp [h2] at h
    | false =>
      simp only [h2] at h ⊢
      exact ih h

theorem lookup_eq_none_of_fst {α β : Type} [BEq α] [LawfulBEq α] {k : α} {l : List (α × β)}
    (h : ∀ p ∈ l, p.1 ≠ k) : l.lookup k = none := by
  induction l with
  | nil => simp
  | cons p rest ih =>
    obtain ⟨a, b⟩ := p
    rw [List.lookup_cons]
    have ha : a ≠ k := h (a, b) (by simp)
    have h2 : (k == a) = false := by
      simp only [beq_eq_false_iff_ne, ne_eq]
      exact fun hk => ha hk.symm
    simp only [h2]
    exact ih (fun q hq => h q (by simp [hq]))

theorem lookup_insertGroup {κ α : Type} [DecidableEq κ] (k k2 : κ) (x : α)
    (gs : List (κ × List α)) :
    (insertGroup k x gs).lookup k2 =
      if k2 = k then some (((gs.lookup k).getD []) ++ [x]) else gs.lookup k2 := by
  induction gs with
  | nil =>
    by_cases h : k2 = k
    · subst h
      simp [insertGroup, List.lookup_cons]
    · have hb : (k2 == k) = false := by simpa using h
      simp [insertGroup, List.lookup_cons, hb, h]
  | cons p rest ih =>
    obtain ⟨k3, xs⟩ := p
    by_cases h3 : k3 = k
    · subst h3
      by_cases h : k2 = k3
      · subst h
        simp [insertGroup, List.lookup_cons]
      · have hb : (k2 == k3) = false := by simpa using h
        simp [insertGroup, List.lookup_cons, hb, h]
    · by_cases h : k2 = k3
      · have hne : ¬k2 = k := fun he => h3 (h ▸ he)
        have hb : (k2 == k3) = true := by simpa using h
        simp only [insertGroup, if_neg h3, List.lookup_cons, hb, if_neg hne]
      · have hb : (k2 == k3) = false := by simpa using h
        simp only [insertGroup, if_neg h3, List.lookup_cons, hb]
        rw [ih]
        by_cases h4 : k2 = k
        · subst h4
          simp [List.lookup_cons, hb]
        · simp [h4]

theorem lookup_buildGroupsAux {κ α : Type} [DecidableEq κ] (keyOf : α → Option κ)
    (l : List α) (gs : List (κ × List α)) (k : κ) :
    ((buildGroupsAux keyOf l gs).lookup k).getD [] =
      ((gs.lookup k).getD []) ++ l.filter (fun x => keyOf x = some k) := by
  induction l generalizing gs with
  | nil => simp [buildGroupsAux]
  | cons x rest ih =>
    simp only [buildGroupsAux]
    cases hx : keyOf x with
    | none =>
      rw [ih]
      have : (decide (keyOf x = some k)) = false := by simp [hx]
      simp [List.filter_cons, this]
    | some k2 =>
      rw [ih]
      by_cases hk : k2 = k
      · subst hk
        rw [lookup_insertGroup]
        have : (decide (keyOf x = some k2)) = true := by simp [hx]
        simp [List.filter_cons, this]
      · rw [lookup_insertGroup]
        have hd : (decide (keyOf x = some k)) = false := by simp [hx, hk]
        rw [if_neg (fun he => hk he.symm)]
        simp [List.filter_cons, hd]

theorem lookup_buildGroupsAux_isSome {κ α : Type} [DecidableEq κ] (keyOf : α → Option κ)
    (l : List α) (gs : List (κ × List α)) (k : κ) :
    ((buildGroupsAux keyOf l gs).lookup k).isSome =
      ((gs.lookup k).isSome || l.any (fun x => decide (keyOf x = some k))) := by
  induction l generalizing gs with
  | nil => simp [buildGroupsAux]
  | cons x rest ih =>
    simp only [buildGroupsAux, List.any_cons]
    cases hx : keyOf x with
    | none =>
      rw [ih]
      have : (decide (keyOf x = some k)) = false := by simp [hx]
      simp [this]
    | some k2 =>
      rw [ih]
      by_cases hk : k2 = k
      · subst hk
        rw [lookup_insertGroup]
        have : (decide (keyOf x = some k2)) = true := by simp [hx]
        simp [this]
      · rw [lookup_insertGroup]
        have hd : (decide (keyOf x = some k)) = false := by simp [hx, hk]
        rw [if_neg (fun he => hk he.symm)]
        simp [hd, hk]

theorem lookup_buildGroups {κ α : Type} [DecidableEq κ] (keyOf : α → Option κ)
    (l : List α) (k : κ) :
    ((buildGroups keyOf l).lookup k).getD [] = l.filter (fun x => keyOf x = some k) := by
  simpa [buildGroups] using lookup_buildGroupsAux keyOf l [] k

theorem lookup_buildGroups_isSome {κ α : Type} [DecidableEq κ] (keyOf : α → Option κ)
    (l : List α) (k : κ) :
    ((buildGroups keyOf l).lookup k).isSome = l.any (fun x => decide (keyOf x = some k)) := by
  simpa [buildGroups] using lookup_buildGroupsAux_isSome keyOf l [] k

theorem keys_insertGroup {κ α : Type} [DecidableEq κ] (k : κ) (x : α)
    (gs : List (κ × List α)) :
    (insertGroup k x gs).map Prod.fst =
      if k ∈ gs.map Prod.fst then gs.map Prod.fst else gs.map Prod.fst ++ [k] := by
  induction gs with
  | nil => simp [insertGroup]
  | cons p rest ih =>
    obtain ⟨k3, xs⟩ := p
    simp only [insertGroup]
    by_cases h3 : k3 = k
    · subst h3
      simp
    · rw [if_neg h3, List.map_cons, ih, List.map_cons]
      by_cases h : k ∈ rest.map Prod.fst
      · simp only [if_pos h]
        rw [if_pos]
        simp [h]
      · simp only [if_neg h]
        rw [if_neg]
        · simp
        · simp only [List.mem_cons]
          rintro (h1 | h2)
          · exact h3 h1.symm
          · exact h h2

theorem keys_buildGroupsAux_nodup {κ α : Type} [DecidableEq κ] (keyOf : α → Option κ)
    (l : List α) (gs : List (κ × List α)) (h : (gs.map Prod.fst).Nodup) :
    ((buildGroupsAux keyOf l gs).map Prod.fst).Nodup := by
  induction l generalizing gs with
  | nil => simpa [buildGroupsAux]
  | cons x rest ih =>
    simp only [buildGroupsAux]
    cases hx : keyOf x with
    | none => exact ih gs h
    | some k =>
      apply ih
      rw [keys_insertGroup]
      by_cases hk : k ∈ gs.map Prod.fst
      · simpa [hk]
      · rw [if_neg hk]
        simpa [List.nodup_append, hk]

theorem lookup_of_mem_of_nodupKeys {κ α : Type} [DecidableEq κ]
    {gs : List (κ × List α)} {k : κ} {ms : List α}
    (hmem : (k, ms) ∈ gs) (hnd : (gs.map Prod.fst).Nodup) : gs.lookup k = some ms := by
  induction gs with
  | nil => simp at hmem
  | cons p rest ih =>
    obtain ⟨k0, ms0⟩ := p
    rw [List.lookup_cons]
    rcases List.mem_cons.mp hmem with h | h
    · have h1 : k = k0 := congrArg Prod.fst h
      have h2 : ms = ms0 := congrArg Prod.snd h
      subst h1
      subst h2
      simp
    · rw [List.map_cons] at hnd
      have hk0 : k ≠ k0 := by
        intro he
        subst he
        have hmem2 : k ∈ rest.map Prod.fst := List.mem_map.mpr ⟨(k, ms), h, rfl⟩
        exact (List.nodup_cons.mp hnd).1 hmem2
      have hb : (k == k0) = false := by simpa using hk0
      simp only [hb]
      exact ih h (List.nodup_cons.mp hnd).2

theorem mem_buildGroups_eq_filter {κ α : Type} [DecidableEq κ] {keyOf : α → Option κ}
    {l : List α} {k : κ} {ms : List α} (h : (k, ms) ∈ buildGroups keyOf l) :
    ms = l.filter (fun x => keyOf x = some k) := by
  have hnd : ((buildGroups keyOf l).map Prod.fst).Nodup :=
    keys_buildGroupsAux_nodup keyOf l [] (by simp)
  have hlk := lookup_of_mem_of_nodupKeys h hnd
  have h2 := lookup_buildGroups keyOf l k
  rw [hlk] at h2
  simpa using h2

/-! ## Lemmas: the winner scan -/

theorem betterCandidate_iff (releaseRanks : List Int) (i j : Nat) :
    betterCandidate releaseRanks i j = true ↔
      (releaseRanks.getD i 0 > releaseRanks.getD j 0 ∨
        (releaseRanks.getD i 0 = releaseRanks.getD j 0 ∧ i < j)) := by
  unfold betterCandidate
  split_ifs with h
  · simp only [decide_eq_true_eq]
    omega
  · simp only [decide_eq_true_eq]
    omega

theorem betterCandidate_false_iff (releaseRanks : List Int) (i j : Nat) :
    betterCandidate releaseRanks i j = false ↔
      (releaseRanks.getD i 0 < releaseRanks.getD j 0 ∨
        (releaseRanks.getD i 0 = releaseRanks.getD j 0 ∧ j ≤ i)) := by
  have h := betterCandidate_iff releaseRanks i j
  cases hb : betterCandidate releaseRanks i j with
  | true =>
    rw [hb] at h
    have h3 := h.mp rfl
    constructor
    · intro hx
      exact absurd hx (by simp)
    · intro hx
      exfalso
      omega
  | false =>
    rw [hb] at h
    constructor
    · intro hx
      have h2 : ¬(releaseRanks.getD i 0 > releaseRanks.getD j 0 ∨
          (releaseRanks.getD i 0 = releaseRanks.getD j 0 ∧ i < j)) := by
        intro hy
        exact absurd (h.mpr hy) (by simp)
      omega
    · intro hx
      rfl

theorem betterCandidate_irrefl (releaseRanks : List Int) (i : Nat) :
    betterCandidate releaseRanks i i = false := by
  rw [betterCandidate_false_iff]
  omega

theorem betterCandidate_negtrans {releaseRanks : List Int} {i j k : Nat}
    (h1 : betterCandidate releaseRanks i j = false)
    (h2 : betterCandidate releaseRanks j k = false) :
    betterCandidate releaseRanks i k = false := by
  rw [betterCandidate_false_iff] at h1 h2 ⊢
  omega

theorem betterCandidate_asymm {releaseRanks : List Int} {i j : Nat}
    (h : betterCandidate releaseRanks i j = true) :
    betterCandidate releaseRanks j i = false := by
  rw [betterCandidate_iff] at h
  rw [betterCandidate_false_iff]
  omega

theorem pickWinner_mem (releaseRanks : List Int) (m : Nat) (rest : List Nat) :
    pickWinner releaseRanks m rest ∈ m :: rest := by
  induction rest generalizing m with
  | nil => simp [pickWinner]
  | cons i rest2 ih =>
    simp only [pickWinner]
    by_cases hb : betterCandidate releaseRanks i m = true
    · rw [if_pos hb]
      rcases List.mem_cons.mp (ih i) with h | h
      · rw [h]
        simp
      · simp [h]
    · rw [if_neg hb]
      rcases List.mem_cons.mp (ih m) with h | h
      · rw [h]
        simp
      · simp [h]

theorem pickWinner_not_better (releaseRanks : List Int) (m : Nat) (rest : List Nat) :
    ∀ j ∈ m :: rest, betterCandidate releaseRanks j (pickWinner releaseRanks m rest) = false := by
  induction rest generalizing m with
  | nil =>
    intro j hj
    simp only [List.mem_cons, List.not_mem_nil, or_false] at hj
    subst hj
    simp [pickWinner, betterCandidate_irrefl]
  | cons i rest2 ih =>
    intro j hj
    simp only [pickWinner]
    by_cases hb : betterCandidate releaseRanks i m = true
    · rw [if_pos hb]
      rcases List.mem_cons.mp hj with hjm | hj2
    -- j = m: use asymmetry through the new leader i
      · subst hjm
        have hji : betterCandidate releaseRanks j i = false := betterCandidate_asymm hb
        exact betterCandidate_negtrans hji (ih i i (by simp))
      · rcases List.mem_cons.mp hj2 with hji | hjr
        · subst hji
          exact ih j j (by simp)
        · exact ih i j (by simp [hjr])
    · rw [if_neg hb]
      have hb2 : betterCandidate releaseRanks i m = false := by
        cases h2 : betterCandidate releaseRanks i m with
        | true => exact absurd h2 hb
        | false => rfl
      rcases List.mem_cons.mp hj with hjm | hj2
      · subst hjm
        exact ih j j (by simp)
      · rcases List.mem_cons.mp hj2 with hji | hjr
        · subst hji
          exact betterCandidate_negtrans hb2 (ih m m (by simp))
        · exact ih m j (by simp [hjr])

theorem groupWinner_mem {releaseRanks : List Int} {members : List Nat}
    (h : members ≠ []) : groupWinner releaseRanks members ∈ members := by
  cases members with
  | nil => exact absurd rfl h
  | cons m rest => exact pickWinner_mem releaseRanks m rest

theorem groupWinner_not_better (releaseRanks : List Int) (members : List Nat) :
    ∀ j ∈ members, betterCandidate releaseRanks j (groupWinner releaseRanks members) = false := by
  cases members with
  | nil =>
    intro j hj
    simp at hj
  | cons m rest => exact pickWinner_not_better releaseRanks m rest

theorem groupWinner_optimal {releaseRanks : List Int} {members : List Nat} {j : Nat}
    (hj : j ∈ members) (hne : j ≠ groupWinner releaseRanks members) :
    releaseRanks.getD j 0 < releaseRanks.getD (groupWinner releaseRanks members) 0 ∨
      (releaseRanks.getD j 0 = releaseRanks.getD (groupWinner releaseRanks members) 0 ∧
        groupWinner releaseRanks members < j) := by
  have h := groupWinner_not_better releaseRanks members j hj
  rw [betterCandidate_false_iff] at h
  omega

/-! ## Lemmas: stage-1 drops -/

theorem lookup_map_const_pairs (w : Nat) (l : List Nat) (i : Nat) :
    (l.map (fun x => (x, w))).lookup i = if i ∈ l then some w else none := by
  induction l with
  | nil => simp
  | cons x rest ih =>
    simp only [List.map_cons, List.lookup_cons]
    by_cases h : i = x
    · subst h
      simp
    · have hb : (i == x) = false := by simpa using h
      simp [hb, ih, h]

theorem lookup_groupDrops (releaseRanks : List Int) (members : List Nat) (i : Nat) :
    (groupDrops releaseRanks members).lookup i =
      if 2 ≤ members.length ∧ i ∈ members ∧ i ≠ groupWinner releaseRanks members then
        some (groupWinner releaseRanks members)
      else none := by
  unfold groupDrops
  by_cases hlen : members.length < 2
  · rw [if_pos hlen, if_neg (fun hc => by omega)]
    simp
  · rw [if_neg hlen, lookup_map_const_pairs]
    by_cases hc : i ∈ members ∧ i ≠ groupWinner releaseRanks members
    · have hmem : i ∈ members.filter (fun idx => idx ≠ groupWinner releaseRanks members) :=
        List.mem_filter.mpr ⟨hc.1, by simpa using hc.2⟩
      rw [if_pos hmem, if_pos ⟨by omega, hc.1, hc.2⟩]
    · have hmem : i ∉ members.filter (fun idx => idx ≠ groupWinner releaseRanks members) := by
        intro hm
        have h2 := List.mem_filter.mp hm
        exact hc ⟨h2.1, by simpa using h2.2⟩
      rw [if_neg hmem, if_neg (fun h => hc ⟨h.2.1, h.2.2⟩)]

theorem lookup_groupDrops_of_not_mem {releaseRanks : List Int} {members : List Nat} {i : Nat}
    (h : i ∉ members) : (groupDrops releaseRanks members).lookup i = none := by
  rw [lookup_groupDrops, if_neg (fun hc => h hc.2.1)]

theorem lookup_flatten_none {i : Nat} {ls : List (List (Nat × Nat))}
    (h : ∀ l ∈ ls, l.lookup i = none) : ls.flatten.lookup i = none := by
  induction ls with
  | nil => simp
  | cons l rest ih =>
    rw [List.flatten_cons, lookup_append_of_none (h l (by simp))]
    exact ih (fun l2 hl2 => h l2 (by simp [hl2]))

theorem foldl_append_flatten {α β : Type} (f : α → List β) (l : List α) (init : List β) :
    l.foldl (fun acc x => acc ++ f x) init = init ++ (l.map f).flatten := by
  induction l generalizing init with
  | nil => simp
  | cons x rest ih =>
    simp only [List.foldl_cons, List.map_cons, List.flatten_cons]
    rw [ih, List.append_assoc]

theorem lookup_flatten_groups {κ : Type} [DecidableEq κ]
    (releaseRanks : List Int) (keyOf : Nat → Option κ) (n : Nat)
    (gs : List (κ × List Nat))
    (hfil : ∀ p ∈ gs, p.2 = (List.range n).filter (fun j => keyOf j = some p.1))
    (hnd : (gs.map Prod.fst).Nodup)
    (i : Nat) (k : κ) (hk : keyOf i = some k) :
    ((gs.map (fun g => groupDrops releaseRanks g.2)).flatten).lookup i =
      (match gs.lookup k with
       | some ms => (groupDrops releaseRanks ms).lookup i
       | none => none) := by
  induction gs with
  | nil => simp
  | cons g rest ih =>
    obtain ⟨k0, ms0⟩ := g
    have hms0 : ms0 = (List.range n).filter (fun j => keyOf j = some k0) :=
      hfil (k0, ms0) (by simp)
    rw [List.map_cons, List.flatten_cons, List.lookup_cons]
    rw [List.map_cons] at hnd
    by_cases hk0 : k = k0
    · subst hk0
      have hbeq : (k == k) = true := by simp
      simp only [hbeq]
      cases hgd : (groupDrops releaseRanks ms0).lookup i with
      | some v => rw [lookup_append_of_some hgd]
      | none =>
        rw [lookup_append_of_none hgd]
        apply lookup_flatten_none
        intro dl hdl
        obtain ⟨g1, hg1, rfl⟩ := List.mem_map.mp hdl
        obtain ⟨k1, ms1⟩ := g1
        have hms1 : ms1 = (List.range n).filter (fun j => keyOf j = some k1) :=
          hfil (k1, ms1) (by simp [hg1])
        have hk1 : k1 ≠ k := by
          intro he
          subst he
          exact (List.nodup_cons.mp hnd).1 (List.mem_map.mpr ⟨(k1, ms1), hg1, rfl⟩)
        apply lookup_groupDrops_of_not_mem
        intro hmem
        rw [hms1] at hmem
        have := (List.mem_filter.mp hmem).2
        simp only [decide_eq_true_eq] at this
        rw [hk] at this
        exact hk1 (Option.some.inj this).symm
    · have hbeq : (k == k0) = false := by simpa using hk0
      simp only [hbeq]
      have hnot : i ∉ ms0 := by
        intro hmem
        rw [hms0] at hmem
        have := (List.mem_filter.mp hmem).2
        simp only [decide_eq_true_eq] at this
        rw [hk] at this
        exact hk0 (Option.some.inj this)
      rw [lookup_append_of_none (lookup_groupDrops_of_not_mem hnot)]
      exact ih (fun p hp => hfil p (by simp [hp])) (List.nodup_cons.mp hnd).2

theorem isrcKeyOf_none_of_ge {tracks : List TrackRespData} {i : Nat}
    (hlt : tracks.length ≤ i) : isrcKeyOf tracks i = none := by
  unfold isrcKeyOf trackAt
  rw [List.getD_eq_default _ _ hlt]
  decide

theorem isrcKeyOf_some_lt {tracks : List TrackRespData} {i : Nat} {k : String}
    (h : isrcKeyOf tracks i = some k) : i < tracks.length := by
  by_contra hlt
  push_neg at hlt
  rw [isrcKeyOf_none_of_ge hlt] at h
  exact absurd h (by simp)

theorem stage1Drops_lookup (tracks : List TrackRespData) (releaseRanks : List Int) (i : Nat) :
    (stage1Drops tracks releaseRanks).lookup i =
      match isrcKeyOf tracks i with
      | none => none
      | some k =>
        if i ≠ groupWinner releaseRanks ((List.range tracks.length).filter
              (fun j => isrcKeyOf tracks j = some k)) ∧
            2 ≤ ((List.range tracks.length).filter
              (fun j => isrcKeyOf tracks j = some k)).length then
          some (groupWinner releaseRanks ((List.range tracks.length).filter
            (fun j => isrcKeyOf tracks j = some k)))
        else none := by
  unfold stage1Drops
  rw [foldl_append_flatten (fun g => groupDrops releaseRanks g.2)
      (buildGroups (isrcKeyOf tracks) (List.range tracks.length)) []]
  rw [List.nil_append]
  cases hk : isrcKeyOf tracks i with
  | none =>
    apply lookup_flatten_none
    intro dl hdl
    obtain ⟨g1, hg1, rfl⟩ := List.mem_map.mp hdl
    obtain ⟨k1, ms1⟩ := g1
    have hms1 := mem_buildGroups_eq_filter hg1
    apply lookup_groupDrops_of_not_mem
    intro hmem
    rw [hms1] at hmem
    have h2 := (List.mem_filter.mp hmem).2
    simp only [decide_eq_true_eq] at h2
    rw [hk] at h2
    exact absurd h2 (by simp)
  | some k =>
    have hlt := isrcKeyOf_some_lt hk
    have hfil : ∀ p ∈ buildGroups (isrcKeyOf tracks) (List.range tracks.length),
        p.2 = (List.range tracks.length).filter (fun j => isrcKeyOf tracks j = some p.1) :=
      fun p hp => mem_buildGroups_eq_filter hp
    have hnd : ((buildGroups (isrcKeyOf tracks) (List.range tracks.length)).map Prod.fst).Nodup :=
      keys_buildGroupsAux_nodup (isrcKeyOf tracks) (List.range tracks.length) [] (by simp)
    rw [lookup_flatten_groups releaseRanks (isrcKeyOf tracks) tracks.length _ hfil hnd i k hk]
    have hiG : i ∈ (List.range tracks.length).filter (fun j => isrcKeyOf tracks j = some k) :=
      List.mem_filter.mpr ⟨List.mem_range.mpr hlt, by simp [hk]⟩
    have hsome : ((buildGroups (isrcKeyOf tracks) (List.range tracks.length)).lookup k).isSome := by
      rw [lookup_buildGroups_isSome]
      exact List.any_eq_true.mpr ⟨i, List.mem_range.mpr hlt, by simp [hk]⟩
    have hgetD := lookup_buildGroups (isrcKeyOf tracks) (List.range tracks.length) k
    cases hlk : (buildGroups (isrcKeyOf tracks) (List.range tracks.length)).lookup k with
    | none =>
      rw [hlk] at hsome
      simp at hsome
    | some ms =>
      rw [hlk] at hgetD
      simp only [Option.getD_some] at hgetD
      subst hgetD
      dsimp only
      rw [lookup_groupDrops]
      by_cases h2 : 2 ≤ ((List.range tracks.length).filter
            (fun j => isrcKeyOf tracks j = some k)).length ∧
          i ≠ groupWinner releaseRanks ((List.range tracks.length).filter
            (fun j => isrcKeyOf tracks j = some k))
      · rw [if_pos ⟨h2.1, hiG, h2.2⟩, if_pos ⟨h2.2, h2.1⟩]
      · rw [if_neg (fun hc => h2 ⟨hc.1, hc.2.2⟩), if_neg (fun hc => h2 ⟨hc.2, hc.1⟩)]

/-! ## Lemmas: stage-2 drops -/

theorem fallbackKeyOf_none_of_ge {tracks : List TrackRespData} {i : Nat}
    (hlt : tracks.length ≤ i) : fallbackKeyOf tracks i = none := by
  unfold fallbackKeyOf trackAt
  rw [List.getD_eq_default _ _ hlt]
  decide

theorem fallbackKeyOf_some_lt {tracks : List TrackRespData} {i : Nat} {k : FallbackKey}
    (h : fallbackKeyOf tracks i = some k) : i < tracks.length := by
  by_contra hlt
  push_neg at hlt
  rw [fallbackKeyOf_none_of_ge hlt] at h
  exact absurd h (by simp)

theorem isrcKeyOf_none_of_fallback {tracks : List TrackRespData} {i : Nat} {k : FallbackKey}
    (h : fallbackKeyOf tracks i = some k) : isrcKeyOf tracks i = none := by
  unfold fallbackKeyOf at h
  unfold isrcKeyOf
  by_cases hi : normalizeISRC (trackAt tracks i).attributes.isrc = ""
  · simp [hi]
  · rw [if_pos (by simpa using hi)] at h
    exact absurd h (by simp)

theorem fallbackKeyOf_none_of_isrc {tracks : List TrackRespData} {i : Nat} {k : String}
    (h : isrcKeyOf tracks i = some k) : fallbackKeyOf tracks i = none := by
  unfold isrcKeyOf at h
  unfold fallbackKeyOf
  by_cases hi : normalizeISRC (trackAt tracks i).attributes.isrc = ""
  · rw [if_pos hi] at h
    exact absurd h (by simp)
  · rw [if_pos (by simpa using hi)]

theorem mem_groupDrops_fst {releaseRanks : List Int} {members : List Nat} {p : Nat × Nat}
    (h : p ∈ groupDrops releaseRanks members) :
    p.1 ∈ members ∧ p.1 ≠ p.2 ∧ p.2 = groupWinner releaseRanks members := by
  unfold groupDrops at h
  by_cases hlen : members.length < 2
  · rw [if_pos hlen] at h
    simp at h
  · rw [if_neg hlen] at h
    obtain ⟨idx, hidx, rfl⟩ := List.mem_map.mp h
    have h2 := List.mem_filter.mp hidx
    refine ⟨h2.1, ?_, rfl⟩
    simpa using h2.2

theorem gowalk_flatten {α : Type} (close : α → α → Bool) (entries cluster : List α) :
    (gowalkClusters close entries cluster).flatten = cluster ++ entries := by
  induction entries generalizing cluster with
  | nil => simp [gowalkClusters]
  | cons e rest ih =>
    simp only [gowalkClusters]
    cases hc : cluster.getLast? with
    | none =>
      rw [List.getLast?_eq_none_iff.mp hc]
      simpa using ih [e]
    | some last =>
      dsimp only
      by_cases hclose : close e last = true
      · rw [if_pos hclose, ih (cluster ++ [e])]
        simp
      · rw [if_neg hclose]
        rw [List.flatten_cons, ih [e]]
        simp

theorem mem_of_mem_cluster {α : Type} {close : α → α → Bool} {entries cluster : List α}
    {C : List α} (hC : C ∈ gowalkClusters close entries cluster) {x : α} (hx : x ∈ C) :
    x ∈ cluster ++ entries := by
  rw [← gowalk_flatten close entries cluster]
  exact List.mem_flatten.mpr ⟨C, hC, hx⟩

theorem lookup_fallbackGroupDrops_of_not_mem {tracks : List TrackRespData}
    {releaseRanks : List Int} {tolerance : Int} {members : List Nat} {x : Nat}
    (h : x ∉ members) :
    (fallbackGroupDrops tracks releaseRanks tolerance members).lookup x = none := by
  unfold fallbackGroupDrops
  apply lookup_flatten_none
  intro dl hdl
  obtain ⟨C, hC, rfl⟩ := List.mem_map.mp hdl
  apply lookup_groupDrops_of_not_mem
  intro hmem
  have h2 := mem_of_mem_cluster hC hmem
  rw [List.nil_append] at h2
  exact h ((List.mergeSort_perm members (durLe tracks)).mem_iff.mp h2)

theorem foldl_guarded_append (w : Nat) (l : List Nat) (d : List (Nat × Nat)) :
    ∃ e, l.foldl (fun d idx => if idx = w then d
      else if (d.lookup idx).isSome then d else d ++ [(idx, w)]) d = d ++ e := by
  induction l generalizing d with
  | nil => exact ⟨[], by simp⟩
  | cons x rest ih =>
    simp only [List.foldl_cons]
    by_cases h1 : x = w
    · rw [if_pos h1]
      exact ih d
    · rw [if_neg h1]
      by_cases h2 : (d.lookup x).isSome
      · rw [if_pos h2]
        exact ih d
      · rw [if_neg h2]
        obtain ⟨e, he⟩ := ih (d ++ [(x, w)])
        rw [he, List.append_assoc]
        exact ⟨(x, w) :: e, rfl⟩

theorem flushClusterDrops_append_only (releaseRanks : List Int) (cluster : List Nat)
    (dropped : List (Nat × Nat)) :
    ∃ e, flushClusterDrops releaseRanks cluster dropped = dropped ++ e := by
  unfold flushClusterDrops
  by_cases hlen : cluster.length < 2
  · exact ⟨[], by simp [hlen]⟩
  · rw [if_neg hlen]
    exact foldl_guarded_append (groupWinner releaseRanks cluster) cluster dropped

theorem foldl_guarded_eq (w : Nat) (l : List Nat) (d : List (Nat × Nat))
    (hnd : l.Nodup) (hfresh : ∀ x ∈ l, x ≠ w → d.lookup x = none) :
    l.foldl (fun d idx => if idx = w then d
      else if (d.lookup idx).isSome then d else d ++ [(idx, w)]) d
      = d ++ (l.filter (fun idx => idx ≠ w)).map (fun idx => (idx, w)) := by
  induction l generalizing d with
  | nil => simp
  | cons x rest ih =>
    simp only [List.foldl_cons, List.filter_cons]
    by_cases h1 : x = w
    · rw [if_pos h1]
      have hdec : (decide (x ≠ w)) = false := by simp [h1]
      simp only [hdec, Bool.false_eq_true, if_false]
      exact ih d (List.nodup_cons.mp hnd).2 (fun y hy hyw => hfresh y (by simp [hy]) hyw)
    · rw [if_neg h1]
      have hlx : d.lookup x = none := hfresh x (by simp) h1
      rw [hlx]
      simp only [Option.isSome_none, Bool.false_eq_true, if_false]
      have hdec : (decide (x ≠ w)) = true := by simp [h1]
      simp only [hdec, if_true, List.map_cons]
      rw [ih (d ++ [(x, w)]) (List.nodup_cons.mp hnd).2 ?fresh2]
      · rw [List.append_assoc]
        rfl
      case fresh2 =>
        intro y hy hyw
        have hyx : y ≠ x := by
          intro he
          subst he
          exact (List.nodup_cons.mp hnd).1 hy
        rw [lookup_append_of_none (hfresh y (by simp [hy]) hyw)]
        rw [List.lookup_cons]
        have : (y == x) = false := by simpa using hyx
        simp [this]

theorem flushClusterDrops_eq (releaseRanks : List Int) (cluster : List Nat)
    (d : List (Nat × Nat)) (hnd : cluster.Nodup)
    (hfresh : ∀ x ∈ cluster, d.lookup x = none) :
    flushClusterDrops releaseRanks cluster d = d ++ groupDrops releaseRanks cluster := by
  unfold flushClusterDrops groupDrops
  by_cases hlen : cluster.length < 2
  · simp [hlen]
  · rw [if_neg hlen, if_neg hlen]
    exact foldl_guarded_eq (groupWinner releaseRanks cluster) cluster d hnd
      (fun x hx _ => hfresh x hx)

theorem stage2Walk_eq (releaseRanks : List Int) (close : Nat → Nat → Bool)
    (entries cluster : List Nat) (d : List (Nat × Nat))
    (hnd : (cluster ++ entries).Nodup)
    (hfresh : ∀ x ∈ cluster ++ entries, d.lookup x = none) :
    stage2Walk releaseRanks close entries cluster d =
      d ++ ((gowalkClusters close entries cluster).map (groupDrops releaseRanks)).flatten := by
  induction entries generalizing cluster d with
  | nil =>
    simp only [stage2Walk, gowalkClusters, List.map_cons, List.map_nil, List.flatten_cons,
      List.flatten_nil, List.append_nil]
    exact flushClusterDrops_eq _ _ _ (by simpa using hnd) (fun x hx => hfresh x (by simpa using hx))
  | cons e rest ih =>
    simp only [stage2Walk, gowalkClusters]
    cases hc : cluster.getLast? with
    | none =>
      dsimp only
      have hcl : cluster = [] := List.getLast?_eq_none_iff.mp hc
      subst hcl
      exact ih [e] d (by simpa using hnd) (fun x hx => hfresh x (by simpa using hx))
    | some last =>
      dsimp only
      by_cases hclose : close e last = true
      · rw [if_pos hclose, if_pos hclose]
        have hnd2 : ((cluster ++ [e]) ++ rest).Nodup := by
          rw [List.append_assoc]
          simpa using hnd
        have hfresh2 : ∀ x ∈ (cluster ++ [e]) ++ rest, d.lookup x = none := by
          intro x hx
          apply hfresh
          rw [List.append_assoc] at hx
          simpa using hx
        exact ih (cluster ++ [e]) d hnd2 hfresh2
      · rw [if_neg hclose, if_neg hclose]
        have hndc : cluster.Nodup := (List.nodup_append.mp hnd).1
        have hflush := flushClusterDrops_eq releaseRanks cluster d hndc
          (fun x hx => hfresh x (by simp [hx]))
        rw [hflush]
        have hnd2 : ([e] ++ rest).Nodup := by
          have := (List.nodup_append.mp hnd).2.1
          simpa using this
        have hdisj : ∀ x ∈ e :: rest, x ∉ cluster := by
          intro x hx hxc
          exact (List.nodup_append.mp hnd).2.2 hxc hx
        have hfresh2 : ∀ x ∈ [e] ++ rest, (d ++ groupDrops releaseRanks cluster).lookup x = none := by
          intro x hx
          rw [List.singleton_append] at hx
          rw [lookup_append_of_none (hfresh x (by simp [hx]))]
          exact lookup_groupDrops_of_not_mem (hdisj x hx)
        rw [ih [e] (d ++ groupDrops releaseRanks cluster) hnd2 hfresh2]
        rw [List.map_cons, List.flatten_cons, List.append_assoc]

theorem stage2_foldl_eq (tracks : List TrackRespData) (releaseRanks : List Int) (tol : Int)
    (gs : List (FallbackKey × List Nat)) (d : List (Nat × Nat))
    (hfil : ∀ p ∈ gs, p.2 = (List.range tracks.length).filter
      (fun j => fallbackKeyOf tracks j = some p.1))
    (hnd : (gs.map Prod.fst).Nodup)
    (hfresh : ∀ p ∈ gs, ∀ x ∈ p.2, d.lookup x = none) :
    gs.foldl (fun acc g => if g.2.length < 2 then acc
        else stage2Walk releaseRanks (closeEnough tracks tol)
          (g.2.mergeSort (durLe tracks)) [] acc) d
      = d ++ (gs.map (fun g => if g.2.length < 2 then []
          else fallbackGroupDrops tracks releaseRanks tol g.2)).flatten := by
  induction gs generalizing d with
  | nil => simp
  | cons g rest ih =>
    obtain ⟨kg, ms⟩ := g
    rw [List.map_cons] at hnd
    simp only [List.foldl_cons, List.map_cons, List.flatten_cons]
    by_cases hlen : ms.length < 2
    · simp only [if_pos hlen, List.nil_append]
      exact ih d (fun p hp => hfil p (by simp [hp])) (List.nodup_cons.mp hnd).2
        (fun p hp x hx => hfresh p (by simp [hp]) x hx)
    · simp only [if_neg hlen]
      have hfilms : ms = (List.range tracks.length).filter
          (fun j => fallbackKeyOf tracks j = some kg) := by
        simpa using hfil (kg, ms) (by simp)
      have hmsnd : ms.Nodup := by
        rw [hfilms]
        exact (List.nodup_range tracks.length).filter _
      have hsortnd : (([] : List Nat) ++ ms.mergeSort (durLe tracks)).Nodup := by
        rw [List.nil_append]
        exact (List.mergeSort_perm ms (durLe tracks)).nodup_iff.mpr hmsnd
      have hsortfresh : ∀ x ∈ ([] : List Nat) ++ ms.mergeSort (durLe tracks),
          d.lookup x = none := by
        intro x hx
        rw [List.nil_append] at hx
        exact hfresh (kg, ms) (by simp) x
          ((List.mergeSort_perm ms (durLe tracks)).mem_iff.mp hx)
      rw [stage2Walk_eq releaseRanks (closeEnough tracks tol) (ms.mergeSort (durLe tracks))
        [] d hsortnd hsortfresh]
      have hfgd : ((gowalkClusters (closeEnough tracks tol) (ms.mergeSort (durLe tracks))
          []).map (groupDrops releaseRanks)).flatten
          = fallbackGroupDrops tracks releaseRanks tol ms := rfl
      rw [hfgd]
      rw [ih (d ++ fallbackGroupDrops tracks releaseRanks tol ms)
        (fun p hp => hfil p (by simp [hp])) (List.nodup_cons.mp hnd).2 ?fresh2]
      · rw [List.append_assoc]
      case fresh2 =>
        intro p hp x hx
        rw [lookup_append_of_none (hfresh p (by simp [hp]) x hx)]
        apply lookup_fallbackGroupDrops_of_not_mem
        intro hxms
        have hxkey : fallbackKeyOf tracks x = some p.1 := by
          have := (List.mem_filter.mp ((hfil p (by simp [hp])) ▸ hx)).2
          simpa using this
        have hxkg : fallbackKeyOf tracks x = some kg := by
          have := (List.mem_filter.mp (hfilms ▸ hxms)).2
          simpa using this
        have : p.1 = kg := by
          rw [hxkey] at hxkg
          exact Option.some.inj hxkg
        exact (List.nodup_cons.mp hnd).1
          (this ▸ List.mem_map.mpr ⟨p, hp, rfl⟩)

theorem stage2Drops_eq (tracks : List TrackRespData) (releaseRanks : List Int) (tol : Int)
    (dropped1 : List (Nat × Nat))
    (hfresh : ∀ j kf, fallbackKeyOf tracks j = some kf → dropped1.lookup j = none) :
    stage2Drops tracks releaseRanks tol dropped1 =
      dropped1 ++ stage2Extra tracks releaseRanks tol := by
  unfold stage2Drops stage2Extra
  apply stage2_foldl_eq
  · intro p hp
    exact mem_buildGroups_eq_filter hp
  · exact keys_buildGroupsAux_nodup (fallbackKeyOf tracks) (List.range tracks.length) [] (by simp)
  · intro p hp x hx
    have hfil := mem_buildGroups_eq_filter hp
    have hxkey : fallbackKeyOf tracks x = some p.1 := by
      have := (List.mem_filter.mp (hfil ▸ hx)).2
      simpa using this
    exact hfresh x p.1 hxkey

theorem lookup_flatten_groups_F {κ : Type} [DecidableEq κ]
    (keyOf : Nat → Option κ) (n : Nat) (F : κ × List Nat → List (Nat × Nat))
    (gs : List (κ × List Nat))
    (hF : ∀ p ∈ gs, ∀ x, x ∉ p.2 → (F p).lookup x = none)
    (hfil : ∀ p ∈ gs, p.2 = (List.range n).filter (fun j => keyOf j = some p.1))
    (hnd : (gs.map Prod.fst).Nodup)
    (i : Nat) (k : κ) (hk : keyOf i = some k) :
    ((gs.map F).flatten).lookup i =
      (match gs.lookup k with
       | some ms => (F (k, ms)).lookup i
       | none => none) := by
  induction gs with
  | nil => simp
  | cons g rest ih =>
    obtain ⟨k0, ms0⟩ := g
    have hms0 : ms0 = (List.range n).filter (fun j => keyOf j = some k0) := by
      simpa using hfil (k0, ms0) (by simp)
    rw [List.map_cons, List.flatten_cons, List.lookup_cons]
    rw [List.map_cons] at hnd
    by_cases hk0 : k = k0
    · subst hk0
      have hbeq : (k == k) = true := by simp
      simp only [hbeq]
      cases hgd : (F (k, ms0)).lookup i with
      | some v => rw [lookup_append_of_some hgd]
      | none =>
        rw [lookup_append_of_none hgd]
        apply lookup_flatten_none
        intro dl hdl
        obtain ⟨g1, hg1, rfl⟩ := List.mem_map.mp hdl
        obtain ⟨k1, ms1⟩ := g1
        have hms1 : ms1 = (List.range n).filter (fun j => keyOf j = some k1) := by
          simpa using hfil (k1, ms1) (by simp [hg1])
        apply hF (k1, ms1) (by simp [hg1])
        intro hmem
        have h2 := (List.mem_filter.mp (hms1 ▸ hmem)).2
        simp only [decide_eq_true_eq] at h2
        rw [hk] at h2
        have hk1 : k1 = k := (Option.some.inj h2).symm
        subst hk1
        exact (List.nodup_cons.mp hnd).1 (List.mem_map.mpr ⟨(k1, ms1), hg1, rfl⟩)
    · have hbeq : (k == k0) = false := by simpa using hk0
      simp only [hbeq]
      have hnot : i ∉ ms0 := by
        intro hmem
        have h2 := (List.mem_filter.mp (hms0 ▸ hmem)).2
        simp only [decide_eq_true_eq] at h2
        rw [hk] at h2
        exact hk0 (Option.some.inj h2)
      rw [lookup_append_of_none (hF (k0, ms0) (by simp) i hnot)]
      exact ih (fun p hp => hF p (by simp [hp])) (fun p hp => hfil p (by simp [hp]))
        (List.nodup_cons.mp hnd).2

theorem lookup_stage2Extra_of_none {tracks : List TrackRespData} {releaseRanks : List Int}
    {tol : Int} {i : Nat} (hk : fallbackKeyOf tracks i = none) :
    (stage2Extra tracks releaseRanks tol).lookup i = none := by
  unfold stage2Extra
  apply lookup_flatten_none
  intro dl hdl
  obtain ⟨g1, hg1, rfl⟩ := List.mem_map.mp hdl
  obtain ⟨k1, ms1⟩ := g1
  have hms1 : ms1 = (List.range tracks.length).filter
      (fun j => fallbackKeyOf tracks j = some k1) := by
    simpa using mem_buildGroups_eq_filter hg1
  have hnot : i ∉ ms1 := by
    intro hmem
    have h2 := (List.mem_filter.mp (hms1 ▸ hmem)).2
    simp only [decide_eq_true_eq] at h2
    rw [hk] at h2
    exact absurd h2 (by simp)
  by_cases hlen : ms1.length < 2
  · simp [hlen]
  · simp only [if_neg hlen]
    exact lookup_fallbackGroupDrops_of_not_mem hnot

theorem lookup_stage2Extra_of_some {tracks : List TrackRespData} {releaseRanks : List Int}
    {tol : Int} {i : Nat} {k : FallbackKey} (hk : fallbackKeyOf tracks i = some k) :
    (stage2Extra tracks releaseRanks tol).lookup i =
      (if 2 ≤ ((List.range tracks.length).filter
            (fun j => fallbackKeyOf tracks j = some k)).length then
        (fallbackGroupDrops tracks releaseRanks tol ((List.range tracks.length).filter
          (fun j => fallbackKeyOf tracks j = some k))).lookup i
      else none) := by
  have hlt := fallbackKeyOf_some_lt hk
  unfold stage2Extra
  rw [lookup_flatten_groups_F (fallbackKeyOf tracks) tracks.length _ _ ?hF
    (fun p hp => mem_buildGroups_eq_filter hp)
    (keys_buildGroupsAux_nodup (fallbackKeyOf tracks) (List.range tracks.length) [] (by simp))
    i k hk]
  case hF =>
    intro p hp x hx
    by_cases hlen : p.2.length < 2
    · simp [hlen]
    · simp only [if_neg hlen]
      exact lookup_fallbackGroupDrops_of_not_mem hx
  have hiG : i ∈ (List.range tracks.length).filter
      (fun j => fallbackKeyOf tracks j = some k) :=
    List.mem_filter.mpr ⟨List.mem_range.mpr hlt, by simp [hk]⟩
  have hsome : ((buildGroups (fallbackKeyOf tracks) (List.range tracks.length)).lookup k).isSome := by
    rw [lookup_buildGroups_isSome]
    exact List.any_eq_true.mpr ⟨i, List.mem_range.mpr hlt, by simp [hk]⟩
  have hgetD := lookup_buildGroups (fallbackKeyOf tracks) (List.range tracks.length) k
  cases hlk : (buildGroups (fallbackKeyOf tracks) (List.range tracks.length)).lookup k with
  | none =>
    rw [hlk] at hsome
    simp at hsome
  | some ms =>
    rw [hlk] at hgetD
    simp only [Option.getD_some] at hgetD
    subst hgetD
    dsimp only
    by_cases hlen : ((List.range tracks.length).filter
        (fun j => fallbackKeyOf tracks j = some k)).length < 2
    · rw [if_pos hlen, if_neg (by omega)]
      simp
    · rw [if_neg hlen, if_pos (by omega)]

theorem lookup_some_mem {α β : Type} [BEq α] [LawfulBEq α] {l : List (α × β)} {a : α} {b : β}
    (h : l.lookup a = some b) : (a, b) ∈ l := by
  induction l with
  | nil => simp at h
  | cons p rest ih =>
    obtain ⟨a0, b0⟩ := p
    rw [List.lookup_cons] at h
    cases hbeq : (a == a0) with
    | true =>
      rw [hbeq] at h
      have ha : a = a0 := by simpa using hbeq
      have hb : b = b0 := by
        subst ha
        exact (by simpa using h : b0 = b).symm
      subst ha
      subst hb
      simp
    | false =>
      rw [hbeq] at h
      exact List.mem_cons.mpr (Or.inr (ih h))

theorem dedupeDrops_lookup (tracks : List TrackRespData) (tol : Int) (i : Nat) :
    (dedupeDrops tracks tol).lookup i =
      match isrcKeyOf tracks i with
      | some k =>
        if i ≠ groupWinner (tracks.map releaseRankForTrack)
              ((List.range tracks.length).filter (fun j => isrcKeyOf tracks j = some k)) ∧
            2 ≤ ((List.range tracks.length).filter
              (fun j => isrcKeyOf tracks j = some k)).length then
          some (groupWinner (tracks.map releaseRankForTrack)
            ((List.range tracks.length).filter (fun j => isrcKeyOf tracks j = some k)))
        else none
      | none =>
        match fallbackKeyOf tracks i with
        | some kf =>
          if 2 ≤ ((List.range tracks.length).filter
                (fun j => fallbackKeyOf tracks j = some kf)).length then
            (fallbackGroupDrops tracks (tracks.map releaseRankForTrack) tol
              ((List.range tracks.length).filter
                (fun j => fallbackKeyOf tracks j = some kf))).lookup i
          else none
        | none => none := by
  unfold dedupeDrops
  have hfresh : ∀ j kf, fallbackKeyOf tracks j = some kf →
      (stage1Drops tracks (tracks.map releaseRankForTrack)).lookup j = none := by
    intro j kf hjk
    rw [stage1Drops_lookup, isrcKeyOf_none_of_fallback hjk]
  rw [stage2Drops_eq tracks (tracks.map releaseRankForTrack) tol _ hfresh]
  cases hik : isrcKeyOf tracks i with
  | some k =>
    have hd1 := stage1Drops_lookup tracks (tracks.map releaseRankForTrack) i
    rw [hik] at hd1
    dsimp only at hd1 ⊢
    by_cases hcond : i ≠ groupWinner (tracks.map releaseRankForTrack)
          ((List.range tracks.length).filter (fun j => isrcKeyOf tracks j = some k)) ∧
        2 ≤ ((List.range tracks.length).filter
          (fun j => isrcKeyOf tracks j = some k)).length
    · rw [if_pos hcond] at hd1
      rw [lookup_append_of_some hd1, if_pos hcond]
    · rw [if_neg hcond] at hd1
      rw [lookup_append_of_none hd1,
        lookup_stage2Extra_of_none (fallbackKeyOf_none_of_isrc hik), if_neg hcond]
  | none =>
    have hd1 := stage1Drops_lookup tracks (tracks.map releaseRankForTrack) i
    rw [hik] at hd1
    dsimp only at hd1
    cases hfk : fallbackKeyOf tracks i with
    | none =>
      rw [lookup_append_of_none hd1, lookup_stage2Extra_of_none hfk]
    | some kf =>
      rw [lookup_append_of_none hd1, lookup_stage2Extra_of_some hfk]

theorem mem_fallbackGroupDrops {tracks : List TrackRespData} {releaseRanks : List Int}
    {tol : Int} {members : List Nat} {p : Nat × Nat}
    (h : p ∈ fallbackGroupDrops tracks releaseRanks tol members) :
    ∃ C ∈ gowalkClusters (closeEnough tracks tol) (members.mergeSort (durLe tracks)) [],
      p ∈ groupDrops releaseRanks C := by
  unfold fallbackGroupDrops at h
  obtain ⟨dl, hdl, hp⟩ := List.mem_flatten.mp h
  obtain ⟨C, hC, rfl⟩ := List.mem_map.mp hdl
  exact ⟨C, hC, hp⟩

theorem dedupeDrops_lookup_ne {tracks : List TrackRespData} {tol : Int} {i w : Nat}
    (h : (dedupeDrops tracks tol).lookup i = some w) : i ≠ w := by
  rw [dedupeDrops_lookup] at h
  cases hik : isrcKeyOf tracks i with
  | some k =>
    rw [hik] at h
    dsimp only at h
    split_ifs at h with hc
    have hw := Option.some.inj h
    rw [← hw]
    exact hc.1
  | none =>
    rw [hik] at h
    dsimp only at h
    cases hfk : fallbackKeyOf tracks i with
    | none =>
      rw [hfk] at h
      exact absurd h (by simp)
    | some kf =>
      rw [hfk] at h
      dsimp only at h
      split_ifs at h with hc
      obtain ⟨C, hC, hp⟩ := mem_fallbackGroupDrops (lookup_some_mem h)
      exact (mem_groupDrops_fst hp).2.1

theorem winnerByIndex_eq_iff (tracks : List TrackRespData) (tol : Int) (i : Nat) :
    (winnerByIndex (dedupeDrops tracks tol) i = i) ↔
      (dedupeDrops tracks tol).lookup i = none := by
  unfold winnerByIndex
  cases hl : (dedupeDrops tracks tol).lookup i with
  | none => simp
  | some w =>
    simp only [Option.getD_some]
    constructor
    · intro he
      exact absurd he.symm (dedupeDrops_lookup_ne hl)
    · intro he
      exact absurd he (by simp)

/-- C1: for every input track list and options, the number of kept tracks
plus `RemovedCount` equals the input length, `KeptIndexes` is strictly
ascending, and the i-th element of the result's `Tracks` is the input track
at `KeptIndexes[i]` (input order preserved). -/
theorem dedupeTracks_partition_invariants (tracks : List TrackRespData) (opts : DedupeOptions) :
    ((DedupeTracks tracks opts).tracks.length : Int) + (DedupeTracks tracks opts).removedCount
        = tracks.length ∧
      (DedupeTracks tracks opts).keptIndexes.Pairwise (· < ·) ∧
      (DedupeTracks tracks opts).tracks.length = (DedupeTracks tracks opts).keptIndexes.length ∧
      ∀ i (hi : i < (DedupeTracks tracks opts).keptIndexes.length),
        (DedupeTracks tracks opts).tracks[i]? =
          tracks[(DedupeTracks tracks opts).keptIndexes[i]]? := by
  unfold DedupeTracks
  split
  · rename_i h0
    have he : tracks = [] := List.length_eq_zero.mp h0
    subst he
    refine ⟨by simp, by simp, by simp, ?_⟩
    intro i hi
    simp at hi
  · split
    · unfold keepAllResult
      refine ⟨by simp, List.pairwise_lt_range tracks.length, by simp, ?_⟩
      intro i hi
      simp only [List.length_range] at hi
      simp only [List.getElem_range]
    · dsimp only
      have hkept0 : ((List.range tracks.length).filter
          (fun i => winnerByIndex (dedupeDrops tracks (effectiveTolerance opts)) i = i)).Pairwise
            (· < ·) :=
        List.Pairwise.filter _ (List.pairwise_lt_range tracks.length)
      have hms : ((List.range tracks.length).filter
          (fun i => winnerByIndex (dedupeDrops tracks (effectiveTolerance opts)) i = i)).mergeSort
            (fun a b => decide (a ≤ b))
          = (List.range tracks.length).filter
            (fun i => winnerByIndex (dedupeDrops tracks (effectiveTolerance opts)) i = i) :=
        List.mergeSort_of_sorted
          (hkept0.imp (fun hab => by simpa using Nat.le_of_lt hab))
      rw [hms]
      refine ⟨?_, hkept0, by simp, ?_⟩
      · have hle := List.length_filter_le
          (fun i => winnerByIndex (dedupeDrops tracks (effectiveTolerance opts)) i = i)
          (List.range tracks.length)
        rw [List.length_range] at hle
        simp only [List.length_map]
        omega
      · intro i hi
        have hmem := List.getElem_mem hi
        have hlt : ((List.range tracks.length).filter
            (fun i => winnerByIndex (dedupeDrops tracks (effectiveTolerance opts)) i = i))[i]
              < tracks.length :=
          List.mem_range.mp (List.mem_filter.mp hmem).1
        rw [List.getElem?_map, List.getElem?_eq_getElem hi]
        simp only [Option.map_some']
        unfold trackAt
        rw [List.getD_eq_getElem?_getD, List.getElem?_eq_getElem hlt]
        simp

/-! ## C10: tolerance defaulting -/

/-- C10: on an enabled dedupe call over more than one track, a non-positive
`DurationToleranceMS` is replaced by the default 2000 ms before fallback
clustering: the run is identical to one with tolerance 2000, and the
effective tolerance is always positive. -/
theorem dedupeTracks_default_tolerance (tracks : List TrackRespData) (opts : DedupeOptions)
    (hen : opts.enabled = true) (hlen : 2 ≤ tracks.length)
    (h : opts.durationToleranceMS ≤ 0) :
    DedupeTracks tracks opts = DedupeTracks tracks ⟨opts.enabled, 2000⟩ ∧
      0 < effectiveTolerance opts := by
  constructor
  · unfold DedupeTracks
    have he : effectiveTolerance opts = effectiveTolerance ⟨opts.enabled, 2000⟩ := by
      unfold effectiveTolerance defaultDurationToleranceMS
      rw [if_pos h]
      norm_num
    rw [he]
  · unfold effectiveTolerance defaultDurationToleranceMS
    rw [if_pos h]
    norm_num

/-- Witness for C10 at a concrete input: tolerance 0 on two equal
tracks behaves as tolerance 2000 and the effective tolerance is positive. -/
theorem dedupeTracks_default_tolerance_witness :
    DedupeTracks [default, default] ⟨true, 0⟩ = DedupeTracks [default, default] ⟨true, 2000⟩ ∧
      0 < effectiveTolerance ⟨true, 0⟩ :=
  dedupeTracks_default_tolerance [default, default] ⟨true, 0⟩ rfl (by decide) (by decide)

/-! ## Lemmas: the stage-1 key string determines the (type, isrc) pair -/

theorem char_toNat_ofNat_of_lt {n : Nat} (h : n < 55296) : (Char.ofNat n).toNat = n := by
  rw [Char.ofNat, dif_pos (Or.inl h)]
  rfl

theorem goUpperChar_ne_bar {c : Char} (h : isGoAlnum c = true) :
    goUpperChar c ≠ '|' := by
  unfold goUpperChar
  unfold isGoAlnum at h
  simp only [Bool.or_eq_true, Bool.and_eq_true, decide_eq_true_eq] at h
  by_cases hl : 97 ≤ c.toNat ∧ c.toNat ≤ 122
  · rw [if_pos (by simpa using hl)]
    intro he
    have h2 : (Char.ofNat (c.toNat - 32)).toNat = c.toNat - 32 :=
      char_toNat_ofNat_of_lt (by omega)
    rw [he] at h2
    have : ('|').toNat = 124 := by decide
    omega
  · rw [if_neg (by simpa using hl)]
    intro he
    subst he
    have : ('|').toNat = 124 := by decide
    omega

theorem normalizeISRC_no_bar (v : String) : ∀ c ∈ (normalizeISRC v).data, c ≠ '|' := by
  unfold normalizeISRC
  by_cases h : goTrimSpace v = ""
  · rw [if_pos h]
    intro c hc
    simp at hc
  · rw [if_neg h]
    intro c hc
    unfold goToUpper at hc
    simp only [List.mem_map] at hc
    obtain ⟨a, ha, rfl⟩ := hc
    exact goUpperChar_ne_bar (List.mem_filter.mp ha).2

theorem append_bar_inj : ∀ (a b x y : List Char), '|' ∉ x → '|' ∉ y →
    a ++ '|' :: x = b ++ '|' :: y → a = b ∧ x = y := by
  intro a
  induction a with
  | nil =>
    intro b x y hx hy h
    cases b with
    | nil =>
      simp only [List.nil_append, List.cons.injEq] at h
      exact ⟨rfl, h.2⟩
    | cons b0 bs =>
      simp only [List.nil_append, List.cons_append, List.cons.injEq] at h
      exfalso
      apply hx
      rw [h.2]
      simp [← h.1]
  | cons a0 as ih =>
    intro b x y hx hy h
    cases b with
    | nil =>
      simp only [List.nil_append, List.cons_append, List.cons.injEq] at h
      exfalso
      apply hy
      rw [← h.2]
      simp [h.1]
    | cons b0 bs =>
      simp only [List.cons_append, List.cons.injEq] at h
      obtain ⟨h1, h2⟩ := h
      obtain ⟨h3, h4⟩ := ih bs x y hx hy h2
      exact ⟨by rw [h1, h3], h4⟩

theorem isrcKey_string_inj {t1 t2 i1 i2 : String}
    (h1 : ∀ c ∈ i1.data, c ≠ '|') (h2 : ∀ c ∈ i2.data, c ≠ '|')
    (h : t1 ++ "|" ++ i1 = t2 ++ "|" ++ i2) : t1 = t2 ∧ i1 = i2 := by
  have hd : t1.data ++ '|' :: i1.data = t2.data ++ '|' :: i2.data := by
    have := congrArg String.data h
    simpa [String.data_append] using this
  have hx : '|' ∉ i1.data := fun hm => h1 '|' hm rfl
  have hy : '|' ∉ i2.data := fun hm => h2 '|' hm rfl
  obtain ⟨ha, hb⟩ := append_bar_inj t1.data t2.data i1.data i2.data hx hy hd
  exact ⟨String.ext ha, String.ext hb⟩

theorem isrcKeyOf_eq_iff {tracks : List TrackRespData} {i j : Nat} {k : String}
    (hi : isrcKeyOf tracks i = some k) (hj : isrcKeyOf tracks j = some k) :
    trackTypeNorm (trackAt tracks i) = trackTypeNorm (trackAt tracks j) ∧
      normalizeISRC (trackAt tracks i).attributes.isrc =
        normalizeISRC (trackAt tracks j).attributes.isrc := by
  unfold isrcKeyOf at hi hj
  by_cases hii : normalizeISRC (trackAt tracks i).attributes.isrc = ""
  · rw [if_pos hii] at hi
    exact absurd hi (by simp)
  · rw [if_neg hii] at hi
    by_cases hjj : normalizeISRC (trackAt tracks j).attributes.isrc = ""
    · rw [if_pos hjj] at hj
      exact absurd hj (by simp)
    · rw [if_neg hjj] at hj
      have h := (Option.some.inj hi).trans (Option.some.inj hj).symm
      exact isrcKey_string_inj (normalizeISRC_no_bar _) (normalizeISRC_no_bar _) h

/-! ## Lemmas: the enabled-run result in terms of the drop map -/

theorem dedupeTracks_dropped_eq (tracks : List TrackRespData) (opts : DedupeOptions)
    (hen : opts.enabled = true) (hlen : 2 ≤ tracks.length) :
    (DedupeTracks tracks opts).droppedToKept =
      dedupeDrops tracks (effectiveTolerance opts) := by
  unfold DedupeTracks
  rw [if_neg (by omega), if_neg (by rw [hen]; simp; omega)]

theorem mem_keptIndexes_iff (tracks : List TrackRespData) (opts : DedupeOptions)
    (hen : opts.enabled = true) (hlen : 2 ≤ tracks.length) (i : Nat) :
    i ∈ (DedupeTracks tracks opts).keptIndexes ↔
      (i < tracks.length ∧
        (dedupeDrops tracks (effectiveTolerance opts)).lookup i = none) := by
  unfold DedupeTracks
  rw [if_neg (by omega), if_neg (by rw [hen]; simp; omega)]
  dsimp only
  have hkept0 : ((List.range tracks.length).filter
      (fun i => winnerByIndex (dedupeDrops tracks (effectiveTolerance opts)) i = i)).Pairwise
        (· < ·) :=
    List.Pairwise.filter _ (List.pairwise_lt_range tracks.length)
  rw [List.mergeSort_of_sorted (hkept0.imp (fun hab => by simpa using Nat.le_of_lt hab))]
  rw [List.mem_filter, List.mem_range]
  constructor
  · intro ⟨h1, h2⟩
    refine ⟨h1, ?_⟩
    rw [← winnerByIndex_eq_iff]
    simpa using h2
  · intro ⟨h1, h2⟩
    refine ⟨h1, ?_⟩
    simpa using (winnerByIndex_eq_iff tracks (effectiveTolerance opts) i).mpr h2

theorem ranks_getD (tracks : List TrackRespData) {j : Nat} (h : j < tracks.length) :
    (tracks.map releaseRankForTrack).getD j 0 = releaseRankForTrack (trackAt tracks j) := by
  unfold trackAt
  rw [List.getD_eq_getElem?_getD, List.getD_eq_getElem?_getD, List.getElem?_map,
    List.getElem?_eq_getElem h]
  simp

/-- C2: in the ISRC stage tracks are grouped by the pair (normalised track
type, normalised ISRC), empty ISRCs excluded (first conjunct: the Go string
key determines exactly that pair); in every group of size at least 2 the
winner — the member of highest release rank, earliest index on ties — is the
one member kept, and every other member maps to it in `DroppedToKept`
(second conjunct); and two tracks with equal ISRC but different track types
are both kept (third conjunct). -/
theorem dedupeTracks_isrc_stage (tracks : List TrackRespData) (opts : DedupeOptions)
    (hen : opts.enabled = true) (hlen : 2 ≤ tracks.length) :
    (∀ i j : Nat, normalizeISRC (trackAt tracks i).attributes.isrc ≠ "" →
      (isrcKeyOf tracks i = isrcKeyOf tracks j ↔
        (trackTypeNorm (trackAt tracks i) = trackTypeNorm (trackAt tracks j) ∧
          normalizeISRC (trackAt tracks i).attributes.isrc =
            normalizeISRC (trackAt tracks j).attributes.isrc))) ∧
    (∀ k : String,
      2 ≤ ((List.range tracks.length).filter (fun j => isrcKeyOf tracks j = some k)).length →
      ∃ w ∈ (List.range tracks.length).filter (fun j => isrcKeyOf tracks j = some k),
        w ∈ (DedupeTracks tracks opts).keptIndexes ∧
        ∀ j ∈ (List.range tracks.length).filter (fun j => isrcKeyOf tracks j = some k),
          j ≠ w →
            j ∉ (DedupeTracks tracks opts).keptIndexes ∧
            (DedupeTracks tracks opts).droppedToKept.lookup j = some w ∧
            (releaseRankForTrack (trackAt tracks j) < releaseRankForTrack (trackAt tracks w) ∨
              (releaseRankForTrack (trackAt tracks j) = releaseRankForTrack (trackAt tracks w) ∧
                w < j))) ∧
    (∀ t1 t2 : TrackRespData,
      normalizeISRC t1.attributes.isrc ≠ "" →
      normalizeISRC t1.attributes.isrc = normalizeISRC t2.attributes.isrc →
      trackTypeNorm t1 ≠ trackTypeNorm t2 →
      0 ∈ (DedupeTracks [t1, t2] opts).keptIndexes ∧
        1 ∈ (DedupeTracks [t1, t2] opts).keptIndexes) := by
  refine ⟨?_, ?_, ?_⟩
  · -- the string key determines the (type, isrc) pair
    intro i j hne
    constructor
    · intro h
      have hki : isrcKeyOf tracks i = some (trackTypeNorm (trackAt tracks i) ++ "|" ++
          normalizeISRC (trackAt tracks i).attributes.isrc) := by
        unfold isrcKeyOf
        rw [if_neg hne]
      have hkj : isrcKeyOf tracks j = some (trackTypeNorm (trackAt tracks i) ++ "|" ++
          normalizeISRC (trackAt tracks i).attributes.isrc) := by
        rw [← h]
        exact hki
      exact isrcKeyOf_eq_iff hki hkj
    · intro ⟨ht, hi⟩
      unfold isrcKeyOf
      rw [if_neg hne, if_neg (hi ▸ hne), ht, hi]
  · -- groups of size at least 2 keep exactly the winner
    intro k hk2
    have hGne : (List.range tracks.length).filter (fun j => isrcKeyOf tracks j = some k) ≠ [] := by
      intro he
      rw [he] at hk2
      simp at hk2
    have hwG := @groupWinner_mem (tracks.map releaseRankForTrack) _ hGne
    have hwlt : groupWinner (tracks.map releaseRankForTrack)
        ((List.range tracks.length).filter (fun j => isrcKeyOf tracks j = some k))
          < tracks.length :=
      List.mem_range.mp (List.mem_filter.mp hwG).1
    have hwkey : isrcKeyOf tracks (groupWinner (tracks.map releaseRankForTrack)
        ((List.range tracks.length).filter (fun j => isrcKeyOf tracks j = some k))) = some k := by
      simpa using (List.mem_filter.mp hwG).2
    refine ⟨_, hwG, ?_, ?_⟩
    · rw [mem_keptIndexes_iff tracks opts hen hlen]
      refine ⟨hwlt, ?_⟩
      rw [dedupeDrops_lookup, hwkey]
      dsimp only
      rw [if_neg (fun hc => hc.1 rfl)]
    · intro j hjG hjw
      have hjlt : j < tracks.length := List.mem_range.mp (List.mem_filter.mp hjG).1
      have hjkey : isrcKeyOf tracks j = some k := by
        simpa using (List.mem_filter.mp hjG).2
      have hlook : (dedupeDrops tracks (effectiveTolerance opts)).lookup j =
          some (groupWinner (tracks.map releaseRankForTrack)
            ((List.range tracks.length).filter (fun j => isrcKeyOf tracks j = some k))) := by
        rw [dedupeDrops_lookup, hjkey]
        dsimp only
        rw [if_pos ⟨hjw, hk2⟩]
      refine ⟨?_, ?_, ?_⟩
      · rw [mem_keptIndexes_iff tracks opts hen hlen]
        intro ⟨_, hnone⟩
        rw [hlook] at hnone
        exact absurd hnone (by simp)
      · rw [dedupeTracks_dropped_eq tracks opts hen hlen]
        exact hlook
      · have hopt := @groupWinner_optimal (tracks.map releaseRankForTrack) _ _ hjG hjw
        rw [ranks_getD tracks hjlt, ranks_getD tracks hwlt] at hopt
        exact hopt
  · -- equal ISRC, different track types: both kept
    intro t1 t2 hne heq hty
    have h2len : 2 ≤ ([t1, t2] : List TrackRespData).length := by simp
    have hk0 : isrcKeyOf [t1, t2] 0 =
        some (trackTypeNorm t1 ++ "|" ++ normalizeISRC t1.attributes.isrc) := by
      unfold isrcKeyOf
      rw [show trackAt [t1, t2] 0 = t1 from rfl, if_neg hne]
    have hne2 : normalizeISRC t2.attributes.isrc ≠ "" := heq ▸ hne
    have hk1 : isrcKeyOf [t1, t2] 1 =
        some (trackTypeNorm t2 ++ "|" ++ normalizeISRC t2.attributes.isrc) := by
      unfold isrcKeyOf
      rw [show trackAt [t1, t2] 1 = t2 from rfl, if_neg hne2]
    have hkk : trackTypeNorm t1 ++ "|" ++ normalizeISRC t1.attributes.isrc ≠
        trackTypeNorm t2 ++ "|" ++ normalizeISRC t2.attributes.isrc := by
      intro he
      exact hty (isrcKey_string_inj (normalizeISRC_no_bar _) (normalizeISRC_no_bar _) he).1
    have hG0 : (List.range ([t1, t2] : List TrackRespData).length).filter
        (fun j => isrcKeyOf [t1, t2] j =
          some (trackTypeNorm t1 ++ "|" ++ normalizeISRC t1.attributes.isrc)) = [0] := by
      rw [show List.range ([t1, t2] : List TrackRespData).length = [0, 1] from rfl]
      rw [List.filter_cons, List.filter_cons, List.filter_nil]
      rw [hk0, hk1]
      have hkkrev : ¬(trackTypeNorm t2 ++ "|" ++ normalizeISRC t2.attributes.isrc =
          trackTypeNorm t1 ++ "|" ++ normalizeISRC t1.attributes.isrc) := fun h => hkk h.symm
      simp [hkkrev]
    have hG1 : (List.range ([t1, t2] : List TrackRespData).length).filter
        (fun j => isrcKeyOf [t1, t2] j =
          some (trackTypeNorm t2 ++ "|" ++ normalizeISRC t2.attributes.isrc)) = [1] := by
      rw [show List.range ([t1, t2] : List TrackRespData).length = [0, 1] from rfl]
      rw [List.filter_cons, List.filter_cons, List.filter_nil]
      rw [hk0, hk1]
      simp [hkk]
    constructor
    · rw [mem_keptIndexes_iff [t1, t2] opts hen h2len]
      refine ⟨by simp, ?_⟩
      rw [dedupeDrops_lookup, hk0]
      dsimp only
      rw [if_neg (fun hc => by rw [hG0] at hc; exact absurd hc.2 (by decide))]
    · rw [mem_keptIndexes_iff [t1, t2] opts hen h2len]
      refine ⟨by simp, ?_⟩
      rw [dedupeDrops_lookup, hk1]
      dsimp only
      rw [if_neg (fun hc => by rw [hG1] at hc; exact absurd hc.2 (by decide))]

/-! ## Lemmas: cluster-level structure of stage 2 -/

theorem lookup_map_groupDrops_flatten (releaseRanks : List Int) (ls : List (List Nat))
    (hnd : ls.flatten.Nodup) {C : List Nat} (hC : C ∈ ls) {i : Nat} (hi : i ∈ C) :
    ((ls.map (groupDrops releaseRanks)).flatten).lookup i =
      (groupDrops releaseRanks C).lookup i := by
  induction ls with
  | nil => simp at hC
  | cons C1 rest ih =>
    rw [List.flatten_cons] at hnd
    rw [List.map_cons, List.flatten_cons]
    rcases List.mem_cons.mp hC with hCe | hCr
    · subst hCe
      cases hgd : (groupDrops releaseRanks C).lookup i with
      | some v => rw [lookup_append_of_some hgd]
      | none =>
        rw [lookup_append_of_none hgd]
        apply lookup_flatten_none
        intro dl hdl
        obtain ⟨C2, hC2, rfl⟩ := List.mem_map.mp hdl
        apply lookup_groupDrops_of_not_mem
        intro hmem
        exact (List.disjoint_of_nodup_append hnd) hi (List.mem_flatten.mpr ⟨C2, hC2, hmem⟩)
    · have hnot : i ∉ C1 := by
        intro hmem
        exact (List.disjoint_of_nodup_append hnd) hmem (List.mem_flatten.mpr ⟨C, hCr, hi⟩)
      rw [lookup_append_of_none (lookup_groupDrops_of_not_mem hnot)]
      exact ih (List.Nodup.of_append_right hnd) hCr

theorem durLe_trans (tracks : List TrackRespData) :
    ∀ (a b c : Nat), durLe tracks a b → durLe tracks b c → durLe tracks a c := by
  intro a b c h1 h2
  unfold durLe at h1 h2 ⊢
  split_ifs at h1 h2 ⊢ <;> simp_all <;> omega

theorem durLe_total (tracks : List TrackRespData) :
    ∀ (a b : Nat), durLe tracks a b || durLe tracks b a := by
  intro a b
  unfold durLe
  split_ifs with h1 h2 <;> simp_all <;> omega

theorem gowalk_chain_within {α : Type} (close : α → α → Bool) (entries cluster : List α)
    (hcl : cluster.Chain' (fun a b => close b a = true)) :
    ∀ C ∈ gowalkClusters close entries cluster, C.Chain' (fun a b => close b a = true) := by
  induction entries generalizing cluster with
  | nil =>
    intro C hC
    simp only [gowalkClusters, List.mem_cons, List.not_mem_nil, or_false] at hC
    subst hC
    exact hcl
  | cons e rest ih =>
    intro C hC
    simp only [gowalkClusters] at hC
    cases hlast : cluster.getLast? with
    | none =>
      rw [hlast] at hC
      exact ih [e] (by simp) C hC
    | some last =>
      rw [hlast] at hC
      dsimp only at hC
      by_cases hclose : close e last = true
      · rw [if_pos hclose] at hC
        refine ih (cluster ++ [e]) ?_ C hC
        rw [List.chain'_append]
        refine ⟨hcl, by simp, ?_⟩
        intro x hx y hy
        simp only [List.head?_cons, Option.mem_def, Option.some.injEq] at hy
        subst hy
        rw [hlast] at hx
        simp only [Option.mem_def, Option.some.injEq] at hx
        subst hx
        exact hclose
      · rw [if_neg hclose] at hC
        rcases List.mem_cons.mp hC with hCe | hCr
        · subst hCe
          exact hcl
        · exact ih [e] (by simp) C hCr

theorem gowalk_head {α : Type} (close : α → α → Bool) (entries cluster : List α)
    (hne : cluster ≠ []) :
    ∃ C rest2, gowalkClusters close entries cluster = C :: rest2 ∧ C.head? = cluster.head? := by
  induction entries generalizing cluster with
  | nil => exact ⟨cluster, [], rfl, rfl⟩
  | cons e rest ih =>
    simp only [gowalkClusters]
    cases hlast : cluster.getLast? with
    | none => exact absurd (List.getLast?_eq_none_iff.mp hlast) hne
    | some last =>
      dsimp only
      by_cases hclose : close e last = true
      · rw [if_pos hclose]
        obtain ⟨C, rest2, heq, hhead⟩ := ih (cluster ++ [e]) (by simp)
        refine ⟨C, rest2, heq, ?_⟩
        rw [hhead]
        cases cluster with
        | nil => exact absurd rfl hne
        | cons c0 cs => simp
      · rw [if_neg hclose]
        exact ⟨cluster, gowalkClusters close rest [e], rfl, rfl⟩

theorem gowalk_chain_between {α : Type} (close : α → α → Bool) (entries cluster : List α) :
    (gowalkClusters close entries cluster).Chain'
      (fun C D => ∀ a ∈ C.getLast?, ∀ b ∈ D.head?, close b a = false) := by
  induction entries generalizing cluster with
  | nil => simp [gowalkClusters]
  | cons e rest ih =>
    simp only [gowalkClusters]
    cases hlast : cluster.getLast? with
    | none => exact ih [e]
    | some last =>
      dsimp only
      by_cases hclose : close e last = true
      · rw [if_pos hclose]
        exact ih (cluster ++ [e])
      · rw [if_neg hclose]
        obtain ⟨C, rest2, heq, hhead⟩ := gowalk_head close rest [e] (by simp)
        rw [heq]
        refine List.chain'_cons.mpr ⟨?_, heq ▸ ih [e]⟩
        intro a ha b hb
        rw [hlast] at ha
        simp only [Option.mem_def, Option.some.injEq] at ha
        subst ha
        rw [hhead] at hb
        simp only [List.head?_cons, Option.mem_def, Option.some.injEq] at hb
        subst hb
        simpa using hclose

theorem dedupeDrops_decomp (tracks : List TrackRespData) (tol : Int) :
    dedupeDrops tracks tol =
      stage1Drops tracks (tracks.map releaseRankForTrack) ++
        stage2Extra tracks (tracks.map releaseRankForTrack) tol := by
  unfold dedupeDrops
  apply stage2Drops_eq
  intro j kf hjk
  rw [stage1Drops_lookup, isrcKeyOf_none_of_fallback hjk]

theorem goAbs_sub_comm (a b : Int) : goAbs (a - b) = goAbs (b - a) := by
  unfold goAbs
  split_ifs <;> omega

theorem nodup_of_mem_flatten_nodup {α : Type} {ls : List (List α)} {C : List α}
    (hC : C ∈ ls) (hnd : ls.flatten.Nodup) : C.Nodup := by
  induction ls with
  | nil => simp at hC
  | cons C1 rest ih =>
    rw [List.flatten_cons] at hnd
    rcases List.mem_cons.mp hC with hCe | hCr
    · subst hCe
      exact (List.nodup_append.mp hnd).1
    · exact ih hCr (List.Nodup.of_append_right hnd)

theorem dedupeDrops_lookup_in_cluster (tracks : List TrackRespData) (tol : Int)
    {k : FallbackKey} (hk2 : 2 ≤ (fallbackGroup tracks k).length)
    {C : List Nat} (hC : C ∈ fallbackClusters tracks tol k) {i : Nat} (hiC : i ∈ C) :
    (dedupeDrops tracks tol).lookup i =
      (groupDrops (tracks.map releaseRankForTrack) C).lookup i := by
  have hiS : i ∈ fallbackSorted tracks k := by
    have := mem_of_mem_cluster hC hiC
    simpa using this
  have hiG : i ∈ fallbackGroup tracks k := by
    unfold fallbackSorted at hiS
    exact List.mem_mergeSort.mp hiS
  have hikey : fallbackKeyOf tracks i = some k := by
    have := (List.mem_filter.mp hiG).2
    simpa using this
  have hilt : i < tracks.length := List.mem_range.mp (List.mem_filter.mp hiG).1
  have hndG : (fallbackGroup tracks k).Nodup :=
    List.Nodup.filter _ (List.nodup_range tracks.length)
  have hndS : (fallbackSorted tracks k).Nodup :=
    (List.mergeSort_perm (fallbackGroup tracks k) (durLe tracks)).nodup_iff.mpr hndG
  have hflat : (fallbackClusters tracks tol k).flatten = fallbackSorted tracks k := by
    unfold fallbackClusters
    rw [gowalk_flatten]
    simp
  rw [dedupeDrops_lookup, isrcKeyOf_none_of_fallback hikey]
  dsimp only
  rw [hikey]
  dsimp only
  have hk2f : 2 ≤ ((List.range tracks.length).filter
      (fun j => fallbackKeyOf tracks j = some k)).length := hk2
  rw [if_pos hk2f]
  have he : fallbackGroupDrops tracks (tracks.map releaseRankForTrack) tol
      ((List.range tracks.length).filter (fun j => fallbackKeyOf tracks j = some k)) =
      ((fallbackClusters tracks tol k).map
        (groupDrops (tracks.map releaseRankForTrack))).flatten := rfl
  rw [he]
  exact lookup_map_groupDrops_flatten _ _ (by rw [hflat]; exact hndS) hC hiC

/-- C3: in the fallback stage, ISRC-free tracks with positive duration and
non-empty normalised artist and title are grouped by (type, content rating,
artist, title); each group is sorted by duration ascending, index ascending
on ties (conjunct 1), the walk partitions the sorted group into clusters
whose consecutive members stay within tolerance and whose boundaries exceed
it (conjuncts 2-4); every cluster of size at least 2 keeps exactly its
winner (highest release rank, then smallest index) and maps the rest to it
(conjunct 5); a track dropped by the ISRC stage keeps its ISRC-stage winner
(conjunct 6); and two such tracks whose durations differ by more than the
tolerance are both kept (conjunct 7). -/
theorem dedupeTracks_fallback_stage (tracks : List TrackRespData) (opts : DedupeOptions)
    (hen : opts.enabled = true) (hlen : 2 ≤ tracks.length) :
    (∀ k : FallbackKey,
      (fallbackSorted tracks k).Perm (fallbackGroup tracks k) ∧
      (fallbackSorted tracks k).Pairwise (fun i j => durLe tracks i j = true) ∧
      (fallbackClusters tracks (effectiveTolerance opts) k).flatten = fallbackSorted tracks k ∧
      (∀ C ∈ fallbackClusters tracks (effectiveTolerance opts) k,
        C.Chain' (fun a b => closeEnough tracks (effectiveTolerance opts) b a = true)) ∧
      (fallbackClusters tracks (effectiveTolerance opts) k).Chain'
        (fun C D => ∀ a ∈ C.getLast?, ∀ b ∈ D.head?,
          closeEnough tracks (effectiveTolerance opts) b a = false)) ∧
    (∀ k : FallbackKey, 2 ≤ (fallbackGroup tracks k).length →
      ∀ C ∈ fallbackClusters tracks (effectiveTolerance opts) k, 2 ≤ C.length →
        ∃ w ∈ C, w ∈ (DedupeTracks tracks opts).keptIndexes ∧
          ∀ j ∈ C, j ≠ w →
            j ∉ (DedupeTracks tracks opts).keptIndexes ∧
            (DedupeTracks tracks opts).droppedToKept.lookup j = some w ∧
            (releaseRankForTrack (trackAt tracks j) < releaseRankForTrack (trackAt tracks w) ∨
              (releaseRankForTrack (trackAt tracks j) =
                  releaseRankForTrack (trackAt tracks w) ∧ w < j))) ∧
    (∀ j w0 : Nat,
      (stage1Drops tracks (tracks.map releaseRankForTrack)).lookup j = some w0 →
      (DedupeTracks tracks opts).droppedToKept.lookup j = some w0) ∧
    (∀ (t1 t2 : TrackRespData) (k : FallbackKey),
      fallbackKeyOf [t1, t2] 0 = some k → fallbackKeyOf [t1, t2] 1 = some k →
      effectiveTolerance opts < goAbs (trackDur [t1, t2] 0 - trackDur [t1, t2] 1) →
      0 ∈ (DedupeTracks [t1, t2] opts).keptIndexes ∧
        1 ∈ (DedupeTracks [t1, t2] opts).keptIndexes) := by
  refine ⟨?_, ?_, ?_, ?_⟩
  · -- sorting and cluster-walk structure
    intro k
    refine ⟨List.mergeSort_perm _ _,
      List.sorted_mergeSort (durLe_trans tracks) (durLe_total tracks) _, ?_, ?_, ?_⟩
    · unfold fallbackClusters
      rw [gowalk_flatten]
      simp
    · intro C hC
      exact gowalk_chain_within _ _ [] (by simp) C hC
    · exact gowalk_chain_between _ _ []
  · -- clusters of size at least 2 keep exactly the winner
    intro k hk2 C hC hC2
    have hCne : C ≠ [] := by
      intro he
      rw [he] at hC2
      simp at hC2
    have hwC := @groupWinner_mem (tracks.map releaseRankForTrack) _ hCne
    have hmemG : ∀ i ∈ C, i ∈ fallbackGroup tracks k := by
      intro i hi
      have h2 := mem_of_mem_cluster hC hi
      rw [List.nil_append] at h2
      unfold fallbackSorted at h2
      exact List.mem_mergeSort.mp h2
    have hltn : ∀ i ∈ C, i < tracks.length := by
      intro i hi
      exact List.mem_range.mp (List.mem_filter.mp (hmemG i hi)).1
    refine ⟨groupWinner (tracks.map releaseRankForTrack) C, hwC, ?_, ?_⟩
    · rw [mem_keptIndexes_iff tracks opts hen hlen]
      refine ⟨hltn _ hwC, ?_⟩
      rw [dedupeDrops_lookup_in_cluster tracks (effectiveTolerance opts) hk2 hC hwC]
      rw [lookup_groupDrops]
      rw [if_neg (fun hc => hc.2.2 rfl)]
    · intro j hjC hjw
      have hlook : (dedupeDrops tracks (effectiveTolerance opts)).lookup j =
          some (groupWinner (tracks.map releaseRankForTrack) C) := by
        rw [dedupeDrops_lookup_in_cluster tracks (effectiveTolerance opts) hk2 hC hjC]
        rw [lookup_groupDrops]
        rw [if_pos ⟨hC2, hjC, hjw⟩]
      refine ⟨?_, ?_, ?_⟩
      · rw [mem_keptIndexes_iff tracks opts hen hlen]
        intro ⟨_, hnone⟩
        rw [hlook] at hnone
        exact absurd hnone (by simp)
      · rw [dedupeTracks_dropped_eq tracks opts hen hlen]
        exact hlook
      · have hopt := @groupWinner_optimal (tracks.map releaseRankForTrack) _ _ hjC hjw
        rw [ranks_getD tracks (hltn j hjC), ranks_getD tracks (hltn _ hwC)] at hopt
        exact hopt
  · -- ISRC-stage decisions survive stage 2
    intro j w0 h
    rw [dedupeTracks_dropped_eq tracks opts hen hlen, dedupeDrops_decomp]
    exact lookup_append_of_some h
  · -- beyond tolerance: both kept
    intro t1 t2 k hfk0 hfk1 hgap
    have h2len : 2 ≤ ([t1, t2] : List TrackRespData).length := by simp
    have hG : fallbackGroup [t1, t2] k = [0, 1] := by
      unfold fallbackGroup
      rw [show List.range ([t1, t2] : List TrackRespData).length = [0, 1] from rfl]
      rw [List.filter_cons, List.filter_cons, List.filter_nil]
      simp [hfk0, hfk1]
    have hGlen : 2 ≤ ((List.range ([t1, t2] : List TrackRespData).length).filter
        (fun j => fallbackKeyOf [t1, t2] j = some k)).length := by
      have : ((List.range ([t1, t2] : List TrackRespData).length).filter
          (fun j => fallbackKeyOf [t1, t2] j = some k)) = fallbackGroup [t1, t2] k := rfl
      rw [this, hG]
      decide
    have hnone : ∀ i, i ∈ ([0, 1] : List Nat) →
        (dedupeDrops [t1, t2] (effectiveTolerance opts)).lookup i = none := by
      intro i hi01
      have hfki : fallbackKeyOf [t1, t2] i = some k := by
        rcases List.mem_cons.mp hi01 with h0 | h1
        · rw [h0]
          exact hfk0
        · have : i = 1 := by simpa using h1
          rw [this]
          exact hfk1
      rw [dedupeDrops_lookup, isrcKeyOf_none_of_fallback hfki]
      dsimp only
      rw [hfki]
      dsimp only
      rw [if_pos hGlen]
      apply lookup_flatten_none
      intro dl hdl
      obtain ⟨C, hCmem, rfl⟩ := List.mem_map.mp hdl
      have hCmem2 : C ∈ fallbackClusters [t1, t2] (effectiveTolerance opts) k := hCmem
      by_cases hCl : C.length < 2
      · unfold groupDrops
        rw [if_pos hCl]
        simp
      · exfalso
        have hndG : (fallbackGroup [t1, t2] k).Nodup := by
          rw [hG]
          decide
        have hndS : (fallbackSorted [t1, t2] k).Nodup :=
          (List.mergeSort_perm (fallbackGroup [t1, t2] k) (durLe [t1, t2])).nodup_iff.mpr hndG
        have hflat : (fallbackClusters [t1, t2] (effectiveTolerance opts) k).flatten =
            fallbackSorted [t1, t2] k := by
          unfold fallbackClusters
          rw [gowalk_flatten]
          simp
        have hndC : C.Nodup := nodup_of_mem_flatten_nodup hCmem2 (by rw [hflat]; exact hndS)
        rcases C with _ | ⟨c0, _ | ⟨c1, cs⟩⟩
        · exact hCl (by simp)
        · exact hCl (by simp)
        · have hchain := gowalk_chain_within _ _ [] (by simp) _ hCmem2
          have hclose : closeEnough [t1, t2] (effectiveTolerance opts) c1 c0 = true :=
            (List.chain'_cons.mp hchain).1
          have hmem01 : ∀ c ∈ c0 :: c1 :: cs, c ∈ ([0, 1] : List Nat) := by
            intro c hc
            have h2 := mem_of_mem_cluster hCmem2 hc
            rw [List.nil_append] at h2
            unfold fallbackSorted at h2
            have h3 := List.mem_mergeSort.mp h2
            rw [hG] at h3
            exact h3
          have hc0 : c0 ∈ ([0, 1] : List Nat) := hmem01 c0 (by simp)
          have hc1 : c1 ∈ ([0, 1] : List Nat) := hmem01 c1 (by simp)
          have hne01 : c0 ≠ c1 := by
            intro he
            have := List.nodup_cons.mp hndC
            exact this.1 (he ▸ List.mem_cons_self c1 cs)
          have hclose2 : goAbs (trackDur [t1, t2] c1 - trackDur [t1, t2] c0) ≤
              effectiveTolerance opts := by
            have := hclose
            unfold closeEnough at this
            simpa using this
          rcases List.mem_cons.mp hc0 with h00 | h01
          · have h11 : c1 = 1 := by
              rcases List.mem_cons.mp hc1 with h | h
              · exact absurd (h00 ▸ h) (by simpa using hne01.symm)
              · simpa using h
            rw [h00, h11] at hclose2
            rw [goAbs_sub_comm] at hclose2
            omega
          · have h01v : c0 = 1 := by simpa using h01
            have h10 : c1 = 0 := by
              rcases List.mem_cons.mp hc1 with h | h
              · exact h
              · exact absurd (h01v ▸ (by simpa using h : c1 = 1)) (by simpa using hne01.symm)
            rw [h01v, h10] at hclose2
            omega
    constructor
    · rw [mem_keptIndexes_iff [t1, t2] opts hen h2len]
      exact ⟨by simp, hnone 0 (by simp)⟩
    · rw [mem_keptIndexes_iff [t1, t2] opts hen h2len]
      exact ⟨by simp, hnone 1 (by simp)⟩

/-- Witness for C2 at a concrete input: same ISRC under two different track
types, both tracks kept. -/
theorem dedupeTracks_isrc_stage_witness :
    0 ∈ (DedupeTracks
        [⟨"song", "songs", ⟨"Pulse", "Artist", "USRC17607839", 200000, ""⟩, []⟩,
         ⟨"mv", "music-videos", ⟨"Pulse", "Artist", "USRC17607839", 200000, ""⟩, []⟩]
        ⟨true, 2000⟩).keptIndexes ∧
    1 ∈ (DedupeTracks
        [⟨"song", "songs", ⟨"Pulse", "Artist", "USRC17607839", 200000, ""⟩, []⟩,
         ⟨"mv", "music-videos", ⟨"Pulse", "Artist", "USRC17607839", 200000, ""⟩, []⟩]
        ⟨true, 2000⟩).keptIndexes :=
  (dedupeTracks_isrc_stage
    [⟨"song", "songs", ⟨"Pulse", "Artist", "USRC17607839", 200000, ""⟩, []⟩,
     ⟨"mv", "music-videos", ⟨"Pulse", "Artist", "USRC17607839", 200000, ""⟩, []⟩]
    ⟨true, 2000⟩ rfl (by decide)).2.2
    ⟨"song", "songs", ⟨"Pulse", "Artist", "USRC17607839", 200000, ""⟩, []⟩
    ⟨"mv", "music-videos", ⟨"Pulse", "Artist", "USRC17607839", 200000, ""⟩, []⟩
    (by decide) (by decide) (by decide)

/-- Witness for C3 at a concrete input: two ISRC-free tracks of the same
fallback key whose durations differ by 3500 ms against a 2000 ms tolerance
are both kept. -/
theorem dedupeTracks_fallback_stage_witness :
    0 ∈ (DedupeTracks
        [⟨"first", "songs", ⟨"Glow", "Artist", "", 200000, ""⟩, []⟩,
         ⟨"second", "songs", ⟨"Glow", "Artist", "", 203500, ""⟩, []⟩]
        ⟨true, 2000⟩).keptIndexes ∧
    1 ∈ (DedupeTracks
        [⟨"first", "songs", ⟨"Glow", "Artist", "", 200000, ""⟩, []⟩,
         ⟨"second", "songs", ⟨"Glow", "Artist", "", 203500, ""⟩, []⟩]
        ⟨true, 2000⟩).keptIndexes :=
  (dedupeTracks_fallback_stage
    [⟨"first", "songs", ⟨"Glow", "Artist", "", 200000, ""⟩, []⟩,
     ⟨"second", "songs", ⟨"Glow", "Artist", "", 203500, ""⟩, []⟩]
    ⟨true, 2000⟩ rfl (by decide)).2.2.2
    ⟨"first", "songs", ⟨"Glow", "Artist", "", 200000, ""⟩, []⟩
    ⟨"second", "songs", ⟨"Glow", "Artist", "", 203500, ""⟩, []⟩
    ⟨"songs", "", "artist", "glow"⟩
    (by decide) (by decide) (by decide)

/-! ## C9: the Atmos metadata prefix -/

theorem head_dropWhile_not {p : Char → Bool} : ∀ {l : List Char} {a : Char},
    (l.dropWhile p).head? = some a → p a = false := by
  intro l
  induction l with
  | nil =>
    intro a h
    simp at h
  | cons x xs ih =>
    intro a h
    rw [List.dropWhile_cons] at h
    by_cases hx : p x = true
    · rw [if_pos hx] at h
      exact ih h
    · rw [if_neg hx] at h
      simp only [List.head?_cons, Option.some.injEq] at h
      subst h
      simpa using hx

theorem getLast_suffix_eq {l₁ l₂ : List Char} (h : l₁ <:+ l₂) (hne : l₁ ≠ []) :
    l₁.getLast? = l₂.getLast? := by
  obtain ⟨pre, rfl⟩ := h
  rw [List.getLast?_append]
  cases hl : l₁.getLast? with
  | none => exact absurd (List.getLast?_eq_none_iff.mp hl) hne
  | some a => rfl

theorem trimList_head_not {l : List Char} {a : Char}
    (h : (goTrimSpaceList l).head? = some a) : goIsSpace a = false := by
  unfold goTrimSpaceList at h
  rw [← List.getLast?_reverse, List.reverse_reverse] at h
  have hsuf := List.dropWhile_suffix (l := (l.dropWhile goIsSpace).reverse) goIsSpace
  have hne : (l.dropWhile goIsSpace).reverse.dropWhile goIsSpace ≠ [] := by
    intro he
    rw [he] at h
    simp at h
  rw [getLast_suffix_eq hsuf hne, List.getLast?_reverse] at h
  exact head_dropWhile_not (l := l) h

theorem trimList_last_not {l : List Char} {a : Char}
    (h : (goTrimSpaceList l).getLast? = some a) : goIsSpace a = false := by
  unfold goTrimSpaceList at h
  rw [← List.head?_reverse, List.reverse_reverse] at h
  exact head_dropWhile_not h

theorem dropWhile_eq_self_of_head {p : Char → Bool} {l : List Char}
    (h : ∀ a, l.head? = some a → p a = false) : l.dropWhile p = l := by
  cases l with
  | nil => rfl
  | cons x xs =>
    rw [List.dropWhile_cons, if_neg]
    rw [h x rfl]
    simp

theorem trimList_eq_self {l : List Char}
    (hh : ∀ a, l.head? = some a → goIsSpace a = false)
    (hl : ∀ a, l.getLast? = some a → goIsSpace a = false) :
    goTrimSpaceList l = l := by
  unfold goTrimSpaceList
  rw [dropWhile_eq_self_of_head hh]
  rw [dropWhile_eq_self_of_head (fun a ha => hl a (by rwa [List.head?_reverse] at ha))]
  exact List.reverse_reverse l

theorem goTrimSpace_idem (s : String) : goTrimSpace (goTrimSpace s) = goTrimSpace s := by
  unfold goTrimSpace
  apply congrArg
  exact trimList_eq_self (fun a ha => trimList_head_not ha) (fun a ha => trimList_last_not ha)

/-- Counterexample for C9 as stated: with `apply = true` and the empty
value, the prefix "applies" and the value does not start with the prefix,
yet the result is the empty string, not the prefix followed by the trimmed
value. -/
theorem withAtmosMetadataPrefix_counterexample :
    withAtmosMetadataPrefix "" true = "" ∧
      goStartsWith "" atmosPrefixLit = false ∧
      withAtmosMetadataPrefix "" true ≠ atmosPrefixLit ++ goTrimSpace "" := by
  refine ⟨rfl, by decide, ?_⟩
  intro h
  have : ("" : String) = atmosPrefixLit ++ goTrimSpace "" := h
  revert this
  decide

/-- C9 (amended): applying the Atmos prefix is idempotent, and with
`apply = true` the result is the trimmed value when it is empty or already
starts with the literal prefix, and otherwise the prefix followed by the
trimmed value. -/
theorem withAtmosMetadataPrefix_idem :
    (∀ (value : String) (apply : Bool),
      withAtmosMetadataPrefix (withAtmosMetadataPrefix value apply) apply =
        withAtmosMetadataPrefix value apply) ∧
    (∀ value : String,
      withAtmosMetadataPrefix value true =
        if goTrimSpace value = "" then ""
        else if goStartsWith (goTrimSpace value) atmosPrefixLit then goTrimSpace value
        else atmosPrefixLit ++ goTrimSpace value) := by
  have hchar : ∀ v : String, goTrimSpace v ≠ "" →
      goTrimSpace (atmosPrefixLit ++ goTrimSpace v) = atmosPrefixLit ++ goTrimSpace v := by
    intro v hne
    apply String.ext
    show goTrimSpaceList (atmosPrefixLit ++ goTrimSpace v).data =
      (atmosPrefixLit ++ goTrimSpace v).data
    rw [String.data_append]
    apply trimList_eq_self
    · intro a ha
      have hd : atmosPrefixLit.data = ['🄳', ' '] := rfl
      rw [hd] at ha
      simp only [List.cons_append, List.head?_cons, Option.some.injEq] at ha
      subst ha
      decide
    · intro a ha
      rw [List.getLast?_append] at ha
      have hne2 : (goTrimSpace v).data ≠ [] := fun he => hne (String.ext (by simpa using he))
      cases hl : (goTrimSpace v).data.getLast? with
      | none => exact absurd (List.getLast?_eq_none_iff.mp hl) hne2
      | some b =>
        rw [hl] at ha
        simp at ha
        subst ha
        exact trimList_last_not hl
  have hempty : goTrimSpace ("" : String) = "" := by decide
  have hEq : ∀ (v : String) (ap : Bool),
      withAtmosMetadataPrefix v ap =
        if goTrimSpace v = "" then ""
        else if ap = false then goTrimSpace v
        else if goStartsWith (goTrimSpace v) atmosPrefixLit then goTrimSpace v
        else atmosPrefixLit ++ goTrimSpace v := by
    intro v ap
    unfold withAtmosMetadataPrefix
    cases ap <;> simp
  have hlitne : ∀ v : String, atmosPrefixLit ++ goTrimSpace v ≠ "" := by
    intro v he
    have h2 : (atmosPrefixLit ++ goTrimSpace v).data = [] := by
      rw [he]
    rw [String.data_append] at h2
    simp [atmosPrefixLit] at h2
  have hlitpre : ∀ v : String,
      goStartsWith (atmosPrefixLit ++ goTrimSpace v) atmosPrefixLit = true := by
    intro v
    unfold goStartsWith
    rw [String.data_append]
    exact List.isPrefixOf_iff_prefix.mpr (List.prefix_append _ _)
  constructor
  · intro value apply
    rw [hEq value apply]
    by_cases h0 : goTrimSpace value = ""
    · rw [if_pos h0, hEq, if_pos hempty]
    · rw [if_neg h0]
      by_cases hap : apply = false
      · rw [if_pos hap, hEq, goTrimSpace_idem, if_neg h0, if_pos hap]
      · rw [if_neg hap]
        by_cases hpre : goStartsWith (goTrimSpace value) atmosPrefixLit = true
        · rw [if_pos hpre, hEq, goTrimSpace_idem, if_neg h0, if_neg hap, if_pos hpre]
        · rw [if_neg hpre, hEq, hchar value h0, if_neg (hlitne value), if_neg hap,
            if_pos (hlitpre value)]
  · intro value
    rw [hEq value true]
    by_cases h0 : goTrimSpace value = ""
    · rw [if_pos h0, if_pos h0]
    · rw [if_neg h0, if_neg h0, if_neg (by simp : ¬(true = false))]

/-! ## C7: release classification -/

/-- Counterexample for C7 as stated: with `is_single = false`, no EP token
and 10 tracks the claim predicts `Albums`, but a name containing the word
"single" is classified `Singles`. -/
theorem detectReleaseType_counterexample :
    detectReleaseType "Single Minded" 10 false = "Singles" ∧
      looksLikeEPName (goToLower "Single Minded") = false ∧
      detectReleaseType "Single Minded" 10 false ≠ "Albums" := by
  refine ⟨by decide, by decide, ?_⟩
  intro h
  have h2 : detectReleaseType "Single Minded" 10 false = "Singles" := by decide
  rw [h2] at h
  revert h
  decide

/-- C7 (amended): classification returns Singles when `is_single` is set or
the lower-cased name contains "single"; otherwise EPs on an EP token;
otherwise by positive track count (at most 3 Singles, at most 6 EPs, above
that Albums) with Albums for non-positive counts; and the deduper's release
rank agrees with this classification of the first album's trimmed name
(Single 1, EP 2, Album 3), except that a missing album or a classification
that fell through to Albums on a non-positive track count ranks Unknown 0. -/
theorem detectReleaseType_spec :
    (∀ (name : String) (trackCount : Int) (isSingle : Bool),
      detectReleaseType name trackCount isSingle =
        if isSingle = true ∨ goContains (goToLower name) "single" = true then "Singles"
        else if looksLikeEPName (goToLower name) = true then "EPs"
        else if trackCount > 0 ∧ trackCount ≤ 3 then "Singles"
        else if trackCount > 0 ∧ trackCount ≤ 6 then "EPs"
        else "Albums") ∧
    (∀ track : TrackRespData, track.albumsData = [] →
      releaseRankForTrack track = releaseRankUnknown) ∧
    (∀ (track : TrackRespData) (album : AlbumData) (rest : List AlbumData),
      track.albumsData = album :: rest →
      releaseRankForTrack track =
        if detectReleaseType (goTrimSpace album.attributes.name)
            album.attributes.trackCount album.attributes.isSingle = "Singles" then
          releaseRankSingle
        else if detectReleaseType (goTrimSpace album.attributes.name)
            album.attributes.trackCount album.attributes.isSingle = "EPs" then
          releaseRankEP
        else if album.attributes.trackCount > 0 then releaseRankAlbum
        else releaseRankUnknown) := by
  refine ⟨?_, ?_, ?_⟩
  · intro name trackCount isSingle
    by_cases c1 : (isSingle || goContains (goToLower name) "single") = true
    · have c1p : isSingle = true ∨ goContains (goToLower name) "single" = true := by
        cases hs : isSingle with
        | true => exact Or.inl rfl
        | false =>
          refine Or.inr ?_
          rw [hs] at c1
          simpa using c1
      unfold detectReleaseType
      dsimp only
      rw [if_pos c1, if_pos c1p]
    · have c1p : ¬(isSingle = true ∨ goContains (goToLower name) "single" = true) := by
        intro hc
        apply c1
        rcases hc with hc | hc
        · rw [hc]
          rfl
        · rw [hc]
          simp
      unfold detectReleaseType
      dsimp only
      rw [if_neg c1, if_neg c1p]
      by_cases c2 : looksLikeEPName (goToLower name) = true
      · rw [if_pos c2, if_pos c2]
      · rw [if_neg c2, if_neg c2]
        by_cases c3 : trackCount > 0
        · rw [if_pos c3]
          by_cases c4 : trackCount ≤ 3
          · rw [if_pos c4,
              if_pos (show trackCount > 0 ∧ trackCount ≤ 3 from ⟨c3, c4⟩)]
          · rw [if_neg c4,
              if_neg (show ¬(trackCount > 0 ∧ trackCount ≤ 3) from fun hc => c4 hc.2)]
            by_cases c5 : trackCount ≤ 6
            · rw [if_pos c5,
                if_pos (show trackCount > 0 ∧ trackCount ≤ 6 from ⟨c3, c5⟩)]
            · rw [if_neg c5,
                if_neg (show ¬(trackCount > 0 ∧ trackCount ≤ 6) from fun hc => c5 hc.2)]
        · rw [if_neg c3,
            if_neg (show ¬(trackCount > 0 ∧ trackCount ≤ 3) from fun hc => c3 hc.1),
            if_neg (show ¬(trackCount > 0 ∧ trackCount ≤ 6) from fun hc => c3 hc.1)]
  · intro track h
    unfold releaseRankForTrack
    rw [h]
  · intro track album rest h
    unfold releaseRankForTrack
    rw [h]
    dsimp only
    by_cases c1 : (album.attributes.isSingle ||
        goContains (goToLower (goTrimSpace album.attributes.name)) "single") = true
    · have hd : detectReleaseType (goTrimSpace album.attributes.name)
          album.attributes.trackCount album.attributes.isSingle = "Singles" := by
        unfold detectReleaseType
        dsimp only
        rw [if_pos c1]
      rw [if_pos c1, hd, if_pos (show ("Singles" : String) = "Singles" from rfl)]
    · rw [if_neg c1]
      by_cases c2 : looksLikeEPName (goToLower (goTrimSpace album.attributes.name)) = true
      · have hd : detectReleaseType (goTrimSpace album.attributes.name)
            album.attributes.trackCount album.attributes.isSingle = "EPs" := by
          unfold detectReleaseType
          dsimp only
          rw [if_neg c1, if_pos c2]
        rw [if_pos c2, hd, if_neg (show ¬("EPs" : String) = "Singles" by decide),
          if_pos (show ("EPs" : String) = "EPs" from rfl)]
      · rw [if_neg c2]
        by_cases c3 : album.attributes.trackCount > 0
        · rw [if_pos c3]
          by_cases c4 : album.attributes.trackCount ≤ 3
          · have hd : detectReleaseType (goTrimSpace album.attributes.name)
                album.attributes.trackCount album.attributes.isSingle = "Singles" := by
              unfold detectReleaseType
              dsimp only
              rw [if_neg c1, if_neg c2, if_pos c3, if_pos c4]
            rw [if_pos c4, hd, if_pos (show ("Singles" : String) = "Singles" from rfl)]
          · rw [if_neg c4]
            by_cases c5 : album.attributes.trackCount ≤ 6
            · have hd : detectReleaseType (goTrimSpace album.attributes.name)
                  album.attributes.trackCount album.attributes.isSingle = "EPs" := by
                unfold detectReleaseType
                dsimp only
                rw [if_neg c1, if_neg c2, if_pos c3, if_neg c4, if_pos c5]
              rw [if_pos c5, hd, if_neg (show ¬("EPs" : String) = "Singles" by decide),
                if_pos (show ("EPs" : String) = "EPs" from rfl)]
            · have hd : detectReleaseType (goTrimSpace album.attributes.name)
                  album.attributes.trackCount album.attributes.isSingle = "Albums" := by
                unfold detectReleaseType
                dsimp only
                rw [if_neg c1, if_neg c2, if_pos c3, if_neg c4, if_neg c5]
              rw [if_neg c5, hd, if_neg (show ¬("Albums" : String) = "Singles" by decide),
                if_neg (show ¬("Albums" : String) = "EPs" by decide), if_pos c3]
        · have hd : detectReleaseType (goTrimSpace album.attributes.name)
              album.attributes.trackCount album.attributes.isSingle = "Albums" := by
            unfold detectReleaseType
            dsimp only
            rw [if_neg c1, if_neg c2, if_neg c3]
          rw [if_neg c3, hd, if_neg (show ¬("Albums" : String) = "Singles" by decide),
            if_neg (show ¬("Albums" : String) = "EPs" by decide), if_neg c3]

/-! ## C8: metadata tag resolution -/

theorem goLastIndexOfAux_of_not_mem {tag : String} :
    ∀ (l : List String) (i acc : Nat), tag ∉ l → goLastIndexOfAux tag l i acc = acc := by
  intro l
  induction l with
  | nil => intro i acc _; rfl
  | cons t rest ih =>
    intro i acc h
    unfold goLastIndexOfAux
    rw [if_neg (fun he => h (by rw [← he]; exact List.mem_cons_self t rest))]
    exact ih (i + 1) acc (fun hr => h (List.mem_cons_of_mem t hr))

theorem goLastIndexOfAux_of_mem {tag : String} :
    ∀ (l : List String), tag ∈ l →
      ∃ k, k < l.length ∧ l.get? k = some tag ∧
        ∀ i acc, goLastIndexOfAux tag l i acc = i + k := by
  intro l
  induction l with
  | nil => intro h; cases h
  | cons t rest ih =>
    intro h
    by_cases hr : tag ∈ rest
    · obtain ⟨k, hk, hget, haux⟩ := ih hr
      refine ⟨k + 1, by simpa using hk, by simpa using hget, ?_⟩
      intro i acc
      unfold goLastIndexOfAux
      rw [haux (i + 1)]
      omega
    · have ht : t = tag := by
        rcases List.mem_cons.mp h with he | he
        · exact he.symm
        · exact absurd he hr
      refine ⟨0, by simp, by simpa using ht, ?_⟩
      intro i acc
      unfold goLastIndexOfAux
      rw [if_pos ht, goLastIndexOfAux_of_not_mem rest (i + 1) i hr]
      omega

theorem goLastIndexOf_inj {order : List String} {a b : String}
    (ha : a ∈ order) (hb : b ∈ order)
    (h : goLastIndexOf order a = goLastIndexOf order b) : a = b := by
  obtain ⟨ka, _, hgeta, hauxa⟩ := goLastIndexOfAux_of_mem order ha
  obtain ⟨kb, _, hgetb, hauxb⟩ := goLastIndexOfAux_of_mem order hb
  unfold goLastIndexOf at h
  rw [hauxa 0, hauxb 0] at h
  have : ka = kb := by omega
  rw [this, hgetb] at hgeta
  exact (Option.some.inj hgeta).symm

theorem normalizeEntriesAux_inv (order : List String) :
    ∀ (entries seen ordered : List String),
      (∀ t, t ∈ seen ↔ t ∈ ordered) → ordered.Nodup →
      (∀ t ∈ ordered, order.contains t = true) →
      (normalizeEntriesAux order entries seen ordered).Nodup ∧
        (∀ t ∈ normalizeEntriesAux order entries seen ordered,
          order.contains t = true) := by
  intro entries
  induction entries with
  | nil => intro seen ordered _ hnd hmem; exact ⟨hnd, hmem⟩
  | cons raw rest ih =>
    intro seen ordered hseen hnd hmem
    unfold normalizeEntriesAux
    dsimp only
    by_cases h1 : goToLower (goTrimSpace raw) = ""
    · rw [if_pos h1]; exact ih seen ordered hseen hnd hmem
    · rw [if_neg h1]
      by_cases h2 : order.contains (goToLower (goTrimSpace raw)) = false
      · rw [if_pos h2]; exact ih seen ordered hseen hnd hmem
      · rw [if_neg h2]
        by_cases h3 : seen.contains (goToLower (goTrimSpace raw)) = true
        · rw [if_pos h3]; exact ih seen ordered hseen hnd hmem
        · rw [if_neg h3]
          have hnotseen : goToLower (goTrimSpace raw) ∉ seen := by
            intro hc
            exact h3 (by simpa using hc)
          have hnotord : goToLower (goTrimSpace raw) ∉ ordered :=
            fun hc => hnotseen ((hseen _).mpr hc)
          refine ih (goToLower (goTrimSpace raw) :: seen)
            (ordered ++ [goToLower (goTrimSpace raw)]) ?_ ?_ ?_
          · intro t
            simp only [List.mem_cons, List.mem_append, List.not_mem_nil, or_false]
            constructor
            · rintro (he | hs)
              · exact Or.inr he
              · exact Or.inl ((hseen t).mp hs)
            · rintro (ho | he)
              · exact Or.inr ((hseen t).mpr ho)
              · exact Or.inl he
          · simpa [List.nodup_append] using ⟨hnd, hnotord⟩
          · intro t ht
            rcases List.mem_append.mp ht with ho | he
            · exact hmem t ho
            · have : t = goToLower (goTrimSpace raw) := by simpa using he
              rw [this]
              simpa using h2

theorem idxLe_trans (order : List String) :
    ∀ (a b c : String),
      decide (goLastIndexOf order a ≤ goLastIndexOf order b) →
      decide (goLastIndexOf order b ≤ goLastIndexOf order c) →
      decide (goLastIndexOf order a ≤ goLastIndexOf order c) := by
  intro a b c h1 h2
  simp only [decide_eq_true_eq] at h1 h2 ⊢
  omega

theorem idxLe_total (order : List String) :
    ∀ (a b : String),
      decide (goLastIndexOf order a ≤ goLastIndexOf order b) ||
        decide (goLastIndexOf order b ≤ goLastIndexOf order a) := by
  intro a b
  simp only [Bool.or_eq_true, decide_eq_true_eq]
  omega



theorem normalizeKnown_props (entries : List String) (container : String) :
    (normalizeKnownMetadataTagsForContainer entries container).Nodup ∧
    (∀ t ∈ normalizeKnownMetadataTagsForContainer entries container,
      t ∈ metadataTagOrderForContainer container) ∧
    (normalizeKnownMetadataTagsForContainer entries container).Pairwise
      (fun a b => goLastIndexOf (metadataTagOrderForContainer container) a <
        goLastIndexOf (metadataTagOrderForContainer container) b) := by
  have hbase := normalizeEntriesAux_inv (metadataTagOrderForContainer container)
    entries [] [] (by simp) List.nodup_nil (by simp)
  have hnd : (normalizeKnownMetadataTagsForContainer entries container).Nodup := by
    unfold normalizeKnownMetadataTagsForContainer
    exact (List.mergeSort_perm _ _).nodup_iff.mpr hbase.1
  have hmem : ∀ t ∈ normalizeKnownMetadataTagsForContainer entries container,
      t ∈ metadataTagOrderForContainer container := by
    intro t ht
    have ht2 : t ∈ normalizeEntriesAux (metadataTagOrderForContainer container)
        entries [] [] := by
      unfold normalizeKnownMetadataTagsForContainer at ht
      exact List.mem_mergeSort.mp ht
    simpa using hbase.2 t ht2
  refine ⟨hnd, hmem, ?_⟩
  have hsorted : (normalizeKnownMetadataTagsForContainer entries container).Pairwise
      (fun a b => (decide (goLastIndexOf (metadataTagOrderForContainer container) a ≤
        goLastIndexOf (metadataTagOrderForContainer container) b)) = true) := by
    unfold normalizeKnownMetadataTagsForContainer
    exact List.sorted_mergeSort (idxLe_trans (metadataTagOrderForContainer container))
      (idxLe_total (metadataTagOrderForContainer container)) _
  have hne : (normalizeKnownMetadataTagsForContainer entries container).Pairwise
      (fun a b : String => a ≠ b) := hnd
  refine (hsorted.and hne).imp_of_mem ?_
  intro a b ha hb hab
  have hle : goLastIndexOf (metadataTagOrderForContainer container) a ≤
      goLastIndexOf (metadataTagOrderForContainer container) b := by
    simpa using hab.1
  rcases Nat.lt_or_ge (goLastIndexOf (metadataTagOrderForContainer container) a)
      (goLastIndexOf (metadataTagOrderForContainer container) b) with h | h
  · exact h
  · exact absurd (goLastIndexOf_inj (hmem a ha) (hmem b hb) (Nat.le_antisymm hle h))
      hab.2

theorem normalizeKnown_nil (container : String) :
    normalizeKnownMetadataTagsForContainer [] container = [] := by
  unfold normalizeKnownMetadataTagsForContainer
  dsimp only
  rw [show normalizeEntriesAux (metadataTagOrderForContainer container) [] [] [] = []
    from rfl]
  simp

theorem resolve_env_some (cfg : MetadataConfig) (container env : String)
    (henv : envValueForContainer cfg container = some env) :
    resolveMetadataTagsEnabledForContainer cfg container =
      if goTrimSpace env = "" then []
      else normalizeKnownMetadataTagsForContainer (goSplitComma env) container := by
  unfold resolveMetadataTagsEnabledForContainer
  dsimp only
  rw [henv]
  dsimp only
  by_cases h : goTrimSpace env = ""
  · rw [if_pos h, if_pos h, normalizeKnown_nil]
  · rw [if_neg h, if_neg h]

theorem resolve_env_none (cfg : MetadataConfig) (container : String)
    (henv : envValueForContainer cfg container = none) :
    resolveMetadataTagsEnabledForContainer cfg container =
      normalizeKnownMetadataTagsForContainer
        (match metadataTagsForContainer cfg container with
         | some configTags => configTags
         | none => defaultMetadataTagList container) container := by
  unfold resolveMetadataTagsEnabledForContainer
  dsimp only
  rw [henv]

theorem normalizeKnown_default_m4a :
    normalizeKnownMetadataTagsForContainer (defaultMetadataTagList "m4a") "m4a" =
      knownMetadataTagIDsM4a := by
  show (normalizeEntriesAux (metadataTagOrderForContainer "m4a")
      (defaultMetadataTagList "m4a") [] []).mergeSort
      (fun a b => decide (goLastIndexOf (metadataTagOrderForContainer "m4a") a ≤
        goLastIndexOf (metadataTagOrderForContainer "m4a") b)) = knownMetadataTagIDsM4a
  have h1 : normalizeEntriesAux (metadataTagOrderForContainer "m4a")
      (defaultMetadataTagList "m4a") [] [] = knownMetadataTagIDsM4a := by decide
  rw [h1]
  exact List.mergeSort_of_sorted (by decide)

theorem normalizeKnown_default_flac :
    normalizeKnownMetadataTagsForContainer (defaultMetadataTagList "flac") "flac" =
      knownMetadataTagIDsFlac := by
  show (normalizeEntriesAux (metadataTagOrderForContainer "flac")
      (defaultMetadataTagList "flac") [] []).mergeSort
      (fun a b => decide (goLastIndexOf (metadataTagOrderForContainer "flac") a ≤
        goLastIndexOf (metadataTagOrderForContainer "flac") b)) = knownMetadataTagIDsFlac
  have h1 : normalizeEntriesAux (metadataTagOrderForContainer "flac")
      (defaultMetadataTagList "flac") [] [] = knownMetadataTagIDsFlac := by decide
  rw [h1]
  exact List.mergeSort_of_sorted (by decide)

/-- C8: the enabled metadata tag list for a container is resolved from the
environment variable when set (an all-whitespace value disabling everything,
otherwise the comma-split value), else from the config list when present,
else from the default canonical list (which resolves to itself); and in every
case the result is duplicate-free, contains only canonical tag ids, and is in
canonical-list order (strictly ascending canonical index). -/
theorem resolveMetadataTags_resolution :
    (∀ (cfg : MetadataConfig) (container env : String),
      envValueForContainer cfg container = some env →
      (goTrimSpace env = "" →
        resolveMetadataTagsEnabledForContainer cfg container = []) ∧
      (goTrimSpace env ≠ "" →
        resolveMetadataTagsEnabledForContainer cfg container =
          normalizeKnownMetadataTagsForContainer (goSplitComma env) container)) ∧
    (∀ (cfg : MetadataConfig) (container : String) (l : List String),
      envValueForContainer cfg container = none →
      metadataTagsForContainer cfg container = some l →
      resolveMetadataTagsEnabledForContainer cfg container =
        normalizeKnownMetadataTagsForContainer l container) ∧
    (∀ (cfg : MetadataConfig),
      cfg.envMetadataTagsM4a = none → cfg.metadataTagsM4a = none →
      resolveMetadataTagsEnabledForContainer cfg "m4a" = knownMetadataTagIDsM4a) ∧
    (∀ (cfg : MetadataConfig),
      cfg.envMetadataTagsFlac = none → cfg.metadataTagsFlac = none →
      resolveMetadataTagsEnabledForContainer cfg "flac" = knownMetadataTagIDsFlac) ∧
    (∀ (cfg : MetadataConfig) (container t : String),
      t ∈ resolveMetadataTagsEnabledForContainer cfg container →
      t ∈ metadataTagOrderForContainer container) ∧
    (∀ (cfg : MetadataConfig) (container : String),
      (resolveMetadataTagsEnabledForContainer cfg container).Nodup) ∧
    (∀ (cfg : MetadataConfig) (container : String),
      (resolveMetadataTagsEnabledForContainer cfg container).Pairwise
        (fun a b => goLastIndexOf (metadataTagOrderForContainer container) a <
          goLastIndexOf (metadataTagOrderForContainer container) b)) := by
  have hresolve : ∀ (cfg : MetadataConfig) (container : String),
      ∃ active, resolveMetadataTagsEnabledForContainer cfg container =
        normalizeKnownMetadataTagsForContainer active container := by
    intro cfg container
    exact ⟨_, rfl⟩
  refine ⟨?_, ?_, ?_, ?_, ?_, ?_, ?_⟩
  · intro cfg container env henv
    rw [resolve_env_some cfg container env henv]
    constructor
    · intro h
      rw [if_pos h]
    · intro h
      rw [if_neg h]
  · intro cfg container l henv hcfg
    rw [resolve_env_none cfg container henv, hcfg]
  · intro cfg henv hcfg
    have h1 : envValueForContainer cfg "m4a" = none := by
      unfold envValueForContainer
      rw [if_neg (by decide)]
      exact henv
    have h2 : metadataTagsForContainer cfg "m4a" = none := by
      unfold metadataTagsForContainer
      rw [if_neg (by decide)]
      exact hcfg
    rw [resolve_env_none cfg "m4a" h1, h2]
    exact normalizeKnown_default_m4a
  · intro cfg henv hcfg
    have h1 : envValueForContainer cfg "flac" = none := by
      unfold envValueForContainer
      rw [if_pos (by decide)]
      exact henv
    have h2 : metadataTagsForContainer cfg "flac" = none := by
      unfold metadataTagsForContainer
      rw [if_pos (by decide)]
      exact hcfg
    rw [resolve_env_none cfg "flac" h1, h2]
    exact normalizeKnown_default_flac
  · intro cfg container t ht
    obtain ⟨active, hact⟩ := hresolve cfg container
    rw [hact] at ht
    exact (normalizeKnown_props active container).2.1 t ht
  · intro cfg container
    obtain ⟨active, hact⟩ := hresolve cfg container
    rw [hact]
    exact (normalizeKnown_props active container).1
  · intro cfg container
    obtain ⟨active, hact⟩ := hresolve cfg container
    rw [hact]
    exact (normalizeKnown_props active container).2.2

/-- C8 witness: concrete environments exercise the env-set, env-empty,
config and default resolution branches. -/
theorem resolveMetadataTags_resolution_witness :
    resolveMetadataTagsEnabledForContainer
        ⟨none, none, some "title,bogus, ARTIST ,title", none⟩ "m4a" =
      normalizeKnownMetadataTagsForContainer
        (goSplitComma "title,bogus, ARTIST ,title") "m4a" ∧
    resolveMetadataTagsEnabledForContainer ⟨none, none, none, some "  "⟩ "flac" = [] ∧
    resolveMetadataTagsEnabledForContainer ⟨some ["artist"], none, none, none⟩ "m4a" =
      normalizeKnownMetadataTagsForContainer ["artist"] "m4a" ∧
    resolveMetadataTagsEnabledForContainer ⟨none, none, none, none⟩ "m4a" =
      knownMetadataTagIDsM4a :=
  ⟨(resolveMetadataTags_resolution.1 ⟨none, none, some "title,bogus, ARTIST ,title", none⟩
      "m4a" "title,bogus, ARTIST ,title" (by decide)).2 (by decide),
   (resolveMetadataTags_resolution.1 ⟨none, none, none, some "  "⟩
      "flac" "  " (by decide)).1 (by decide),
   resolveMetadataTags_resolution.2.1 ⟨some ["artist"], none, none, none⟩
      "m4a" ["artist"] (by decide) (by decide),
   resolveMetadataTags_resolution.2.2.1 ⟨none, none, none, none⟩ rfl rfl⟩

/-- C7 witness: a concrete album with 10 tracks and a plain name classifies
as Albums and ranks 3, by the amended characterization. -/
theorem detectReleaseType_spec_witness :
    detectReleaseType "Echo" 10 false =
      (if (false : Bool) = true ∨ goContains (goToLower "Echo") "single" = true then "Singles"
       else if looksLikeEPName (goToLower "Echo") = true then "EPs"
       else if (10 : Int) > 0 ∧ (10 : Int) ≤ 3 then "Singles"
       else if (10 : Int) > 0 ∧ (10 : Int) ≤ 6 then "EPs"
       else "Albums") ∧
    releaseRankForTrack
        ⟨"t1", "songs", ⟨"Echo", "Artist", "X", 1000, ""⟩,
          [⟨"a1", ⟨" Echo ", 10, false⟩⟩]⟩ =
      (if detectReleaseType (goTrimSpace " Echo ") 10 false = "Singles" then
        releaseRankSingle
       else if detectReleaseType (goTrimSpace " Echo ") 10 false = "EPs" then
        releaseRankEP
       else if (10 : Int) > 0 then releaseRankAlbum
       else releaseRankUnknown) :=
  ⟨detectReleaseType_spec.1 "Echo" 10 false,
   detectReleaseType_spec.2.2
     ⟨"t1", "songs", ⟨"Echo", "Artist", "X", 1000, ""⟩, [⟨"a1", ⟨" Echo ", 10, false⟩⟩]⟩
     ⟨"a1", ⟨" Echo ", 10, false⟩⟩ [] rfl⟩

/-! ## C6: ATMOS variant selection -/

/-- Counterexample for C6 as stated: on a bandwidth-descending variant list
an ac-3 variant ahead of a qualifying ec-3 atmos variant wins, so the ac-3
fallback is not reserved for the case where no qualifying ec-3 variant
exists; and an ec-3 atmos variant with a non-numeric trailing token aborts
the selection with an error rather than being skipped. -/
theorem atmosSelect_counterexample :
    List.Pairwise (fun a b : HlsVariant => b.averageBandwidth ≤ a.averageBandwidth)
      [⟨"ac-3", "audio-ac3-640", "u1", 900000⟩,
       ⟨"ec-3", "audio-atmos-2768", "u2", 800000⟩] ∧
    isEc3Atmos ⟨"ec-3", "audio-atmos-2768", "u2", 800000⟩ = true ∧
    goAtoi (variantLastToken ⟨"ec-3", "audio-atmos-2768", "u2", 800000⟩) = some 2768 ∧
    atmosSelect 2768
      [⟨"ac-3", "audio-ac3-640", "u1", 900000⟩,
       ⟨"ec-3", "audio-atmos-2768", "u2", 800000⟩] =
      Except.ok (some (⟨"ac-3", "audio-ac3-640", "u1", 900000⟩, "640 Kbps")) ∧
    atmosSelect 2768 [⟨"ec-3", "audio-atmos-27a8", "u2", 800000⟩] =
      Except.error () := by
  refine ⟨by decide, by decide, by decide, by rfl, by rfl⟩

theorem atmosSelect_cons_ec3_err {v : HlsVariant} (atmosMax : Int) (rest : List HlsVariant)
    (h1 : isEc3Atmos v = true) (hp : goAtoi (variantLastToken v) = none) :
    atmosSelect atmosMax (v :: rest) = Except.error () := by
  unfold atmosSelect
  rw [if_pos h1, hp]

theorem atmosSelect_cons_ec3_hit {v : HlsVariant} (atmosMax : Int) (rest : List HlsVariant)
    {n : Int} (h1 : isEc3Atmos v = true) (hp : goAtoi (variantLastToken v) = some n)
    (h2 : n ≤ atmosMax) :
    atmosSelect atmosMax (v :: rest) =
      Except.ok (some (v, variantLastToken v ++ " Kbps")) := by
  unfold atmosSelect
  rw [if_pos h1, hp]
  dsimp only
  rw [if_pos h2]

theorem atmosSelect_cons_ec3_skip {v : HlsVariant} (atmosMax : Int) (rest : List HlsVariant)
    {n : Int} (h1 : isEc3Atmos v = true) (hp : goAtoi (variantLastToken v) = some n)
    (h2 : ¬n ≤ atmosMax) :
    atmosSelect atmosMax (v :: rest) = atmosSelect atmosMax rest := by
  conv_lhs => unfold atmosSelect
  rw [if_pos h1, hp]
  dsimp only
  rw [if_neg h2]

theorem atmosSelect_cons_ac3 {v : HlsVariant} (atmosMax : Int) (rest : List HlsVariant)
    (h1 : isEc3Atmos v = false) (h3 : v.codecs = "ac-3") :
    atmosSelect atmosMax (v :: rest) =
      Except.ok (some (v, variantLastToken v ++ " Kbps")) := by
  unfold atmosSelect
  rw [if_neg (by simp [h1]), if_pos (by simpa using h3)]

theorem atmosSelect_cons_other {v : HlsVariant} (atmosMax : Int) (rest : List HlsVariant)
    (h1 : isEc3Atmos v = false) (h3 : ¬v.codecs = "ac-3") :
    atmosSelect atmosMax (v :: rest) = atmosSelect atmosMax rest := by
  conv_lhs => unfold atmosSelect
  rw [if_neg (by simp [h1]), if_neg (fun hc => h3 (by simpa using hc))]

/-- C6 (amended): the ATMOS-mode loop stops at the first variant, in the
iterated (bandwidth-descending) order, that is either an ec-3 atmos variant
whose trailing token is unparseable or parses to at most AtmosMax, or an
ac-3 variant; an unparseable stop returns the parse error, an ec-3 stop
selects that variant with quality "<token> Kbps", an ac-3 stop falls back to
Dolby Audio with the same quality format, and with no stopping variant the
loop falls through to the no-codec error.  Consequently a selected variant
is a member of the list and is either a qualifying ec-3 atmos variant or an
ac-3 variant. -/
theorem atmosSelect_first_match :
    (∀ (atmosMax : Int) (l : List HlsVariant),
      atmosSelect atmosMax l =
        match l.find? (atmosStop atmosMax) with
        | none => Except.ok none
        | some v =>
          if isEc3Atmos v then
            match goAtoi (variantLastToken v) with
            | none => Except.error ()
            | some _ => Except.ok (some (v, variantLastToken v ++ " Kbps"))
          else Except.ok (some (v, variantLastToken v ++ " Kbps"))) ∧
    (∀ (atmosMax : Int) (l : List HlsVariant) (v : HlsVariant) (q : String),
      atmosSelect atmosMax l = Except.ok (some (v, q)) →
      v ∈ l ∧ q = variantLastToken v ++ " Kbps" ∧
        ((isEc3Atmos v = true ∧ (goAtoi (variantLastToken v)).getD 0 ≤ atmosMax) ∨
          (isEc3Atmos v = false ∧ v.codecs = "ac-3"))) := by
  have hmain : ∀ (atmosMax : Int) (l : List HlsVariant),
      atmosSelect atmosMax l =
        match l.find? (atmosStop atmosMax) with
        | none => Except.ok none
        | some v =>
          if isEc3Atmos v then
            match goAtoi (variantLastToken v) with
            | none => Except.error ()
            | some _ => Except.ok (some (v, variantLastToken v ++ " Kbps"))
          else Except.ok (some (v, variantLastToken v ++ " Kbps")) := by
    intro atmosMax l
    induction l with
    | nil => rfl
    | cons v rest ih =>
      by_cases h1 : isEc3Atmos v = true
      · cases hp : goAtoi (variantLastToken v) with
        | none =>
          have hstop : atmosStop atmosMax v = true := by
            unfold atmosStop
            rw [h1, hp]
            rfl
          rw [atmosSelect_cons_ec3_err atmosMax rest h1 hp,
            List.find?_cons_of_pos _ hstop]
          simp [h1, hp]
        | some n =>
          by_cases h2 : n ≤ atmosMax
          · have hstop : atmosStop atmosMax v = true := by
              unfold atmosStop
              rw [h1, hp]
              simp [h2]
            rw [atmosSelect_cons_ec3_hit atmosMax rest h1 hp h2,
              List.find?_cons_of_pos _ hstop]
            simp [h1, hp]
          · have hec : v.codecs = "ec-3" := by
              have h1c := h1
              unfold isEc3Atmos at h1c
              simp only [Bool.and_eq_true, beq_iff_eq] at h1c
              exact h1c.1
            have hstop : atmosStop atmosMax v = false := by
              unfold atmosStop
              rw [h1, hp, hec]
              simp [h2]
            rw [atmosSelect_cons_ec3_skip atmosMax rest h1 hp h2,
              List.find?_cons_of_neg _ (by simp [hstop])]
            exact ih
      · have h1f : isEc3Atmos v = false := Bool.eq_false_iff.mpr h1
        by_cases h3 : v.codecs = "ac-3"
        · have hstop : atmosStop atmosMax v = true := by
            unfold atmosStop
            rw [h1f, h3]
            rfl
          rw [atmosSelect_cons_ac3 atmosMax rest h1f h3,
            List.find?_cons_of_pos _ hstop]
          simp [h1f]
        · have hstop : atmosStop atmosMax v = false := by
            unfold atmosStop
            rw [h1f]
            simpa using h3
          rw [atmosSelect_cons_other atmosMax rest h1f h3,
            List.find?_cons_of_neg _ (by simp [hstop])]
          exact ih
  refine ⟨hmain, ?_⟩
  intro atmosMax l v q h
  rw [hmain atmosMax l] at h
  cases hf : l.find? (atmosStop atmosMax) with
  | none =>
    rw [hf] at h
    cases h
  | some w =>
    rw [hf] at h
    dsimp only at h
    have hw : atmosStop atmosMax w = true := List.find?_some hf
    have hwmem : w ∈ l := List.mem_of_find?_eq_some hf
    by_cases h1 : isEc3Atmos w = true
    · rw [if_pos h1] at h
      cases hp : goAtoi (variantLastToken w) with
      | none =>
        rw [hp] at h
        cases h
      | some n =>
        rw [hp] at h
        dsimp only at h
        have h2 := Option.some.inj (Except.ok.inj h)
        have hv : w = v := congrArg Prod.fst h2
        have hq : (variantLastToken w ++ " Kbps") = q := congrArg Prod.snd h2
        subst hv
        refine ⟨hwmem, hq.symm, Or.inl ⟨h1, ?_⟩⟩
        have hec : w.codecs = "ec-3" := by
          have h1c := h1
          unfold isEc3Atmos at h1c
          simp only [Bool.and_eq_true, beq_iff_eq] at h1c
          exact h1c.1
        unfold atmosStop at hw
        rw [h1, hp, hec] at hw
        have hw2 : n ≤ atmosMax ∨ ("ec-3" : String) = "ac-3" := by simpa using hw
        rcases hw2 with hw2 | hw2
        · rw [hp]
          simpa using hw2
        · exact absurd hw2 (by decide)
    · rw [if_neg h1] at h
      have h2 := Option.some.inj (Except.ok.inj h)
      have hv : w = v := congrArg Prod.fst h2
      have hq : (variantLastToken w ++ " Kbps") = q := congrArg Prod.snd h2
      subst hv
      refine ⟨hwmem, hq.symm, Or.inr ⟨Bool.eq_false_iff.mpr h1, ?_⟩⟩
      unfold atmosStop at hw
      rw [Bool.eq_false_iff.mpr h1] at hw
      simpa using hw

/-- C6 witness: a single qualifying ec-3 atmos variant is selected, and the
selection satisfies the membership and qualification facts. -/
theorem atmosSelect_first_match_witness :
    (⟨"ec-3", "audio-atmos-2448", "u2", 800000⟩ : HlsVariant) ∈
      [(⟨"ec-3", "audio-atmos-2448", "u2", 800000⟩ : HlsVariant)] ∧
    "2448 Kbps" = variantLastToken ⟨"ec-3", "audio-atmos-2448", "u2", 800000⟩ ++ " Kbps" ∧
    ((isEc3Atmos ⟨"ec-3", "audio-atmos-2448", "u2", 800000⟩ = true ∧
        (goAtoi (variantLastToken ⟨"ec-3", "audio-atmos-2448", "u2", 800000⟩)).getD 0 ≤ 2768) ∨
      (isEc3Atmos ⟨"ec-3", "audio-atmos-2448", "u2", 800000⟩ = false ∧
        (⟨"ec-3", "audio-atmos-2448", "u2", 800000⟩ : HlsVariant).codecs = "ac-3")) :=
  atmosSelect_first_match.2 2768
    [⟨"ec-3", "audio-atmos-2448", "u2", 800000⟩]
    ⟨"ec-3", "audio-atmos-2448", "u2", 800000⟩ "2448 Kbps" (by rfl)

/-! ## C4: already-downloaded short circuit -/

theorem ripTrackBody_skip (cfg : RipConfig) (modes : RipModes) (env : RipEnv)
    (track : RipTrack) (mediaUserToken : String) (needDlAacLc : Bool)
    (events0 : List HistoryEvent) (q : String)
    (hq : ripQuality cfg modes env needDlAacLc = some q)
    (hex : env.stat (goFilepathJoin track.saveDir
        (sanitizeForbidden env.songName ++ ".m4a")) = StatResult.file ∨
      (considerConverted cfg ∧
        env.stat (convertedPathFor cfg (goFilepathJoin track.saveDir
          (sanitizeForbidden env.songName ++ ".m4a"))) = StatResult.file)) :
    (ripTrackBody cfg modes env track mediaUserToken needDlAacLc false events0).ret = true ∧
    (ripTrackBody cfg modes env track mediaUserToken needDlAacLc false events0).total = 1 ∧
    (ripTrackBody cfg modes env track mediaUserToken needDlAacLc false events0).success = 1 ∧
    (ripTrackBody cfg modes env track mediaUserToken needDlAacLc false events0).errors = 0 ∧
    (ripTrackBody cfg modes env track mediaUserToken needDlAacLc false events0).unavailable = 0 ∧
    (ripTrackBody cfg modes env track mediaUserToken needDlAacLc false events0).okAppend =
      [track.taskNum] ∧
    (ripTrackBody cfg modes env track mediaUserToken needDlAacLc false events0).events =
      events0 ++ emitIf modes HistoryEvent.download ∧
    (ripTrackBody cfg modes env track mediaUserToken needDlAacLc false events0).fetched =
      false := by
  have hmain : ripTrackBody cfg modes env track mediaUserToken needDlAacLc false events0 =
      ripTrackBody cfg modes env track mediaUserToken needDlAacLc false events0 := rfl
  by_cases hn : needDlAacLc = true
  · subst hn
    by_cases h1 : env.stat (goFilepathJoin track.saveDir
        (sanitizeForbidden env.songName ++ ".m4a")) = StatResult.file
    · refine ⟨?_, ?_, ?_, ?_, ?_, ?_, ?_, ?_⟩ <;>
        · simp only [ripTrackBody, hq]
          simp [h1, apply_ite RipTrack.saveDir, apply_ite RipTrack.taskNum]
    · rcases hex with hex | hex
      · exact absurd hex h1
      · refine ⟨?_, ?_, ?_, ?_, ?_, ?_, ?_, ?_⟩ <;>
          · simp only [ripTrackBody, hq]
            simp [h1, hex.1, hex.2, apply_ite RipTrack.saveDir, apply_ite RipTrack.taskNum]
  · have hn' : needDlAacLc = false := by
      cases needDlAacLc
      · rfl
      · exact absurd rfl hn
    subst hn'
    by_cases h1 : env.stat (goFilepathJoin track.saveDir
        (sanitizeForbidden env.songName ++ ".m4a")) = StatResult.file
    · refine ⟨?_, ?_, ?_, ?_, ?_, ?_, ?_, ?_⟩ <;>
        · simp only [ripTrackBody, hq]
          simp [h1, apply_ite RipTrack.saveDir, apply_ite RipTrack.taskNum]
    · rcases hex with hex | hex
      · exact absurd hex h1
      · refine ⟨?_, ?_, ?_, ?_, ?_, ?_, ?_, ?_⟩ <;>
          · simp only [ripTrackBody, hq]
            simp [h1, hex.1, hex.2, apply_ite RipTrack.saveDir, apply_ite RipTrack.taskNum]

theorem ripTrack_routes_to_body (cfg : RipConfig) (modes : RipModes) (env : RipEnv)
    (track : RipTrack) (mediaUserToken : String)
    (h1 : env.stopRequested = false)
    (h2 : track.trackType ≠ "music-videos")
    (h3 : modes.dl_atmos = false ∨
      (track.webM3u8 ≠ "" ∧ env.hasAtmosVariantResult = some true))
    (h4 : ¬(track.webM3u8 = "" ∧ (modes.dl_aac && (cfg.aacType == "aac-lc")) = false)) :
    ripTrack cfg modes env track mediaUserToken =
      ripTrackBody cfg modes env track mediaUserToken
        (modes.dl_aac && (cfg.aacType == "aac-lc")) false [] := by
  unfold ripTrack
  rw [if_neg (by simp [h1]), if_neg h2]
  rcases h3 with h3 | h3
  · rw [if_neg (by simp [h3]), if_neg (by simp [h3]), if_neg (by simp [h3]), if_neg h4]
  · rw [if_neg (fun hc => h3.1 hc.2), if_neg (by simp [h3.2]),
      if_neg (by simp [h3.2]), if_neg h4]

/-- C4: when the track's save path already exists as a regular file, or the
post-transcode path does while conversion is configured to delete the
original, the pipeline skips the fetch entirely, counts the track as a
success, records its task number in the per-queue success map and still
emits the download history entry. -/
theorem ripTrack_skips_existing (cfg : RipConfig) (modes : RipModes) (env : RipEnv)
    (track : RipTrack) (mediaUserToken : String) (q : String)
    (h1 : env.stopRequested = false)
    (h2 : track.trackType ≠ "music-videos")
    (h3 : modes.dl_atmos = false ∨
      (track.webM3u8 ≠ "" ∧ env.hasAtmosVariantResult = some true))
    (h4 : ¬(track.webM3u8 = "" ∧ (modes.dl_aac && (cfg.aacType == "aac-lc")) = false))
    (hq : ripQuality cfg modes env (modes.dl_aac && (cfg.aacType == "aac-lc")) = some q)
    (hex : env.stat (goFilepathJoin track.saveDir
        (sanitizeForbidden env.songName ++ ".m4a")) = StatResult.file ∨
      (considerConverted cfg ∧
        env.stat (convertedPathFor cfg (goFilepathJoin track.saveDir
          (sanitizeForbidden env.songName ++ ".m4a"))) = StatResult.file)) :
    (ripTrack cfg modes env track mediaUserToken).ret = true ∧
    (ripTrack cfg modes env track mediaUserToken).total = 1 ∧
    (ripTrack cfg modes env track mediaUserToken).success = 1 ∧
    (ripTrack cfg modes env track mediaUserToken).errors = 0 ∧
    (ripTrack cfg modes env track mediaUserToken).unavailable = 0 ∧
    (ripTrack cfg modes env track mediaUserToken).okAppend = [track.taskNum] ∧
    (ripTrack cfg modes env track mediaUserToken).events =
      emitIf modes HistoryEvent.download ∧
    (ripTrack cfg modes env track mediaUserToken).fetched = false := by
  rw [ripTrack_routes_to_body cfg modes env track mediaUserToken h1 h2 h3 h4]
  have h := ripTrackBody_skip cfg modes env track mediaUserToken
    (modes.dl_aac && (cfg.aacType == "aac-lc")) [] q hq hex
  simpa using h

/-- C4 witness: a track whose save path `dir/song.m4a` already exists is
reported successful without fetching. -/
theorem ripTrack_skips_existing_witness :
    (ripTrack ⟨"none", false, "format", 2768, "", false, "", false, "alacdir", "aacdir"⟩
      ⟨false, false, false, false⟩
      ⟨false, true, true, none, true, "", none, "song",
        (fun p => if p = "dir/song.m4a" then StatResult.file else StatResult.notExist),
        none, none, none, "", none, true, true, true, false, none, true, true, []⟩
      ⟨"id1", 7, "pre", "songs", "http://x", "m", "", "ALAC", "dir", "", "", "", "", []⟩
      "tok").ret = true ∧
    (ripTrack ⟨"none", false, "format", 2768, "", false, "", false, "alacdir", "aacdir"⟩
      ⟨false, false, false, false⟩
      ⟨false, true, true, none, true, "", none, "song",
        (fun p => if p = "dir/song.m4a" then StatResult.file else StatResult.notExist),
        none, none, none, "", none, true, true, true, false, none, true, true, []⟩
      ⟨"id1", 7, "pre", "songs", "http://x", "m", "", "ALAC", "dir", "", "", "", "", []⟩
      "tok").total = 1 ∧
    (ripTrack ⟨"none", false, "format", 2768, "", false, "", false, "alacdir", "aacdir"⟩
      ⟨false, false, false, false⟩
      ⟨false, true, true, none, true, "", none, "song",
        (fun p => if p = "dir/song.m4a" then StatResult.file else StatResult.notExist),
        none, none, none, "", none, true, true, true, false, none, true, true, []⟩
      ⟨"id1", 7, "pre", "songs", "http://x", "m", "", "ALAC", "dir", "", "", "", "", []⟩
      "tok").success = 1 ∧
    (ripTrack ⟨"none", false, "format", 2768, "", false, "", false, "alacdir", "aacdir"⟩
      ⟨false, false, false, false⟩
      ⟨false, true, true, none, true, "", none, "song",
        (fun p => if p = "dir/song.m4a" then StatResult.file else StatResult.notExist),
        none, none, none, "", none, true, true, true, false, none, true, true, []⟩
      ⟨"id1", 7, "pre", "songs", "http://x", "m", "", "ALAC", "dir", "", "", "", "", []⟩
      "tok").errors = 0 ∧
    (ripTrack ⟨"none", false, "format", 2768, "", false, "", false, "alacdir", "aacdir"⟩
      ⟨false, false, false, false⟩
      ⟨false, true, true, none, true, "", none, "song",
        (fun p => if p = "dir/song.m4a" then StatResult.file else StatResult.notExist),
        none, none, none, "", none, true, true, true, false, none, true, true, []⟩
      ⟨"id1", 7, "pre", "songs", "http://x", "m", "", "ALAC", "dir", "", "", "", "", []⟩
      "tok").unavailable = 0 ∧
    (ripTrack ⟨"none", false, "format", 2768, "", false, "", false, "alacdir", "aacdir"⟩
      ⟨false, false, false, false⟩
      ⟨false, true, true, none, true, "", none, "song",
        (fun p => if p = "dir/song.m4a" then StatResult.file else StatResult.notExist),
        none, none, none, "", none, true, true, true, false, none, true, true, []⟩
      ⟨"id1", 7, "pre", "songs", "http://x", "m", "", "ALAC", "dir", "", "", "", "", []⟩
      "tok").okAppend = [7] ∧
    (ripTrack ⟨"none", false, "format", 2768, "", false, "", false, "alacdir", "aacdir"⟩
      ⟨false, false, false, false⟩
      ⟨false, true, true, none, true, "", none, "song",
        (fun p => if p = "dir/song.m4a" then StatResult.file else StatResult.notExist),
        none, none, none, "", none, true, true, true, false, none, true, true, []⟩
      ⟨"id1", 7, "pre", "songs", "http://x", "m", "", "ALAC", "dir", "", "", "", "", []⟩
      "tok").events = [HistoryEvent.download] ∧
    (ripTrack ⟨"none", false, "format", 2768, "", false, "", false, "alacdir", "aacdir"⟩
      ⟨false, false, false, false⟩
      ⟨false, true, true, none, true, "", none, "song",
        (fun p => if p = "dir/song.m4a" then StatResult.file else StatResult.notExist),
        none, none, none, "", none, true, true, true, false, none, true, true, []⟩
      ⟨"id1", 7, "pre", "songs", "http://x", "m", "", "ALAC", "dir", "", "", "", "", []⟩
      "tok").fetched = false := by
  have h := ripTrack_skips_existing
    ⟨"none", false, "format", 2768, "", false, "", false, "alacdir", "aacdir"⟩
    ⟨false, false, false, false⟩
    ⟨false, true, true, none, true, "", none, "song",
      (fun p => if p = "dir/song.m4a" then StatResult.file else StatResult.notExist),
      none, none, none, "", none, true, true, true, false, none, true, true, []⟩
    ⟨"id1", 7, "pre", "songs", "http://x", "m", "", "ALAC", "dir", "", "", "", "", []⟩
    "tok" ""
    rfl (by decide) (Or.inl rfl) (by decide) (by decide) (Or.inl (by decide))
  simpa using h

/-! ## C5: lossless-to-AAC fallback -/

theorem ripTrackBody_fallback_success (cfg : RipConfig) (modes : RipModes) (env : RipEnv)
    (track : RipTrack) (mediaUserToken : String)
    (events0 : List HistoryEvent) (q : String)
    (hmk : env.mkdirOk = true)
    (hq : ripQuality cfg modes env true = some q)
    (hstat : ∀ p, env.stat p ≠ StatResult.file)
    (htok : ¬mediaUserToken.utf8ByteSize ≤ 50)
    (hr3 : env.runv3Error = none)
    (hcov : env.embedCover = false)
    (hbox : env.mp4boxOk = true)
    (htag : env.writeTagsOk = true) :
    (ripTrackBody cfg modes env track mediaUserToken true true events0).ret = true ∧
    (ripTrackBody cfg modes env track mediaUserToken true true events0).total = 1 ∧
    (ripTrackBody cfg modes env track mediaUserToken true true events0).success = 1 ∧
    (ripTrackBody cfg modes env track mediaUserToken true true events0).errors = 0 ∧
    (ripTrackBody cfg modes env track mediaUserToken true true events0).unavailable = 0 ∧
    (ripTrackBody cfg modes env track mediaUserToken true true events0).okAppend =
      [track.taskNum] ∧
    (ripTrackBody cfg modes env track mediaUserToken true true events0).events =
      events0 ++ env.repairEvents ++ emitIf modes HistoryEvent.download ∧
    (ripTrackBody cfg modes env track mediaUserToken true true events0).fetched = true ∧
    (ripTrackBody cfg modes env track mediaUserToken true true events0).track.codec =
      "AAC" ∧
    (ripTrackBody cfg modes env track mediaUserToken true true events0).track.saveDir =
      fallbackAacSaveDir cfg track.saveDir ∧
    (ripTrackBody cfg modes env track mediaUserToken true true events0).track.coverPath =
      "" := by
  refine ⟨?_, ?_, ?_, ?_, ?_, ?_, ?_, ?_, ?_, ?_, ?_⟩ <;>
    · simp only [ripTrackBody, ripTrackPost, hq]
      simp [hmk, hstat, htok, hr3, hcov, hbox, htag,
        apply_ite RipTrack.saveDir, apply_ite RipTrack.taskNum,
        apply_ite RipTrack.codec, apply_ite RipTrack.coverPath]

theorem ripTrackBody_fallback_no_token (cfg : RipConfig) (modes : RipModes) (env : RipEnv)
    (track : RipTrack) (mediaUserToken : String)
    (events0 : List HistoryEvent) (q : String)
    (hmk : env.mkdirOk = true)
    (hq : ripQuality cfg modes env true = some q)
    (hstat : ∀ p, env.stat p ≠ StatResult.file)
    (htok : mediaUserToken.utf8ByteSize ≤ 50) :
    (ripTrackBody cfg modes env track mediaUserToken true true events0).ret = false ∧
    (ripTrackBody cfg modes env track mediaUserToken true true events0).total = 1 ∧
    (ripTrackBody cfg modes env track mediaUserToken true true events0).success = 0 ∧
    (ripTrackBody cfg modes env track mediaUserToken true true events0).errors = 0 ∧
    (ripTrackBody cfg modes env track mediaUserToken true true events0).unavailable = 1 ∧
    (ripTrackBody cfg modes env track mediaUserToken true true events0).okAppend = [] ∧
    (ripTrackBody cfg modes env track mediaUserToken true true events0).events = events0 ∧
    (ripTrackBody cfg modes env track mediaUserToken true true events0).fetched = false ∧
    (ripTrackBody cfg modes env track mediaUserToken true true events0).track.codec =
      "AAC" ∧
    (ripTrackBody cfg modes env track mediaUserToken true true events0).track.saveDir =
      fallbackAacSaveDir cfg track.saveDir ∧
    (ripTrackBody cfg modes env track mediaUserToken true true events0).track.coverPath =
      "" := by
  refine ⟨?_, ?_, ?_, ?_, ?_, ?_, ?_, ?_, ?_, ?_, ?_⟩ <;>
    · simp only [ripTrackBody, hq]
      simp [hmk, hstat, htok,
        apply_ite RipTrack.saveDir, apply_ite RipTrack.taskNum,
        apply_ite RipTrack.codec, apply_ite RipTrack.coverPath]

theorem ripTrack_routes_to_fallback (cfg : RipConfig) (modes : RipModes) (env : RipEnv)
    (track : RipTrack) (mediaUserToken : String)
    (h1 : env.stopRequested = false)
    (h2 : track.trackType ≠ "music-videos")
    (h3 : modes.dl_atmos = false)
    (h4 : track.webM3u8 = "")
    (h5 : (modes.dl_aac && (cfg.aacType == "aac-lc")) = false) :
    ripTrack cfg modes env track mediaUserToken =
      ripTrackBody cfg modes env track mediaUserToken true true
        (emitIf modes (HistoryEvent.unavailable "lossless_unavailable")) := by
  unfold ripTrack
  rw [if_neg (by simp [h1]), if_neg h2, if_neg (by simp [h3]), if_neg (by simp [h3]),
    if_neg (by simp [h3]), if_pos ⟨h4, h5⟩, if_neg (by simp [h3])]

/-- C5: with an empty web m3u8 URL outside Atmos and aac-lc modes, the
pipeline emits exactly one unavailable entry with reason
lossless_unavailable, switches the codec to AAC, relocates the save
directory under AacSaveFolder via `fallbackAacSaveDir`, clears the cover
path, and then succeeds via the AAC path when the media-user-token is valid
(and the environment cooperates); with an invalid media-user-token it
terminates counted Unavailable without fetching. -/
theorem ripTrack_lossless_fallback :
    (∀ (cfg : RipConfig) (modes : RipModes) (env : RipEnv) (track : RipTrack)
        (mediaUserToken q : String),
      env.stopRequested = false →
      track.trackType ≠ "music-videos" →
      modes.dl_atmos = false →
      track.webM3u8 = "" →
      (modes.dl_aac && (cfg.aacType == "aac-lc")) = false →
      env.mkdirOk = true →
      ripQuality cfg modes env true = some q →
      (∀ p, env.stat p ≠ StatResult.file) →
      ¬mediaUserToken.utf8ByteSize ≤ 50 →
      env.runv3Error = none →
      env.embedCover = false →
      env.mp4boxOk = true →
      env.writeTagsOk = true →
      (ripTrack cfg modes env track mediaUserToken).ret = true ∧
      (ripTrack cfg modes env track mediaUserToken).success = 1 ∧
      (ripTrack cfg modes env track mediaUserToken).errors = 0 ∧
      (ripTrack cfg modes env track mediaUserToken).unavailable = 0 ∧
      (ripTrack cfg modes env track mediaUserToken).okAppend = [track.taskNum] ∧
      (ripTrack cfg modes env track mediaUserToken).events =
        emitIf modes (HistoryEvent.unavailable "lossless_unavailable") ++
          env.repairEvents ++ emitIf modes HistoryEvent.download ∧
      (ripTrack cfg modes env track mediaUserToken).fetched = true ∧
      (ripTrack cfg modes env track mediaUserToken).track.codec = "AAC" ∧
      (ripTrack cfg modes env track mediaUserToken).track.saveDir =
        fallbackAacSaveDir cfg track.saveDir ∧
      (ripTrack cfg modes env track mediaUserToken).track.coverPath = "") ∧
    (∀ (cfg : RipConfig) (modes : RipModes) (env : RipEnv) (track : RipTrack)
        (mediaUserToken q : String),
      env.stopRequested = false →
      track.trackType ≠ "music-videos" →
      modes.dl_atmos = false →
      track.webM3u8 = "" →
      (modes.dl_aac && (cfg.aacType == "aac-lc")) = false →
      env.mkdirOk = true →
      ripQuality cfg modes env true = some q →
      (∀ p, env.stat p ≠ StatResult.file) →
      mediaUserToken.utf8ByteSize ≤ 50 →
      (ripTrack cfg modes env track mediaUserToken).ret = false ∧
      (ripTrack cfg modes env track mediaUserToken).success = 0 ∧
      (ripTrack cfg modes env track mediaUserToken).errors = 0 ∧
      (ripTrack cfg modes env track mediaUserToken).unavailable = 1 ∧
      (ripTrack cfg modes env track mediaUserToken).okAppend = [] ∧
      (ripTrack cfg modes env track mediaUserToken).events =
        emitIf modes (HistoryEvent.unavailable "lossless_unavailable") ∧
      (ripTrack cfg modes env track mediaUserToken).fetched = false ∧
      (ripTrack cfg modes env track mediaUserToken).track.codec = "AAC" ∧
      (ripTrack cfg modes env track mediaUserToken).track.saveDir =
        fallbackAacSaveDir cfg track.saveDir ∧
      (ripTrack cfg modes env track mediaUserToken).track.coverPath = "") := by
  constructor
  · intro cfg modes env track mediaUserToken q h1 h2 h3 h4 h5 hmk hq hstat htok hr3
      hcov hbox htag
    rw [ripTrack_routes_to_fallback cfg modes env track mediaUserToken h1 h2 h3 h4 h5]
    have h := ripTrackBody_fallback_success cfg modes env track mediaUserToken
      (emitIf modes (HistoryEvent.unavailable "lossless_unavailable")) q
      hmk hq hstat htok hr3 hcov hbox htag
    exact ⟨h.1, h.2.2.1, h.2.2.2.1, h.2.2.2.2.1, h.2.2.2.2.2.1, h.2.2.2.2.2.2.1,
      h.2.2.2.2.2.2.2.1, h.2.2.2.2.2.2.2.2.1, h.2.2.2.2.2.2.2.2.2.1,
      h.2.2.2.2.2.2.2.2.2.2⟩
  · intro cfg modes env track mediaUserToken q h1 h2 h3 h4 h5 hmk hq hstat htok
    rw [ripTrack_routes_to_fallback cfg modes env track mediaUserToken h1 h2 h3 h4 h5]
    have h := ripTrackBody_fallback_no_token cfg modes env track mediaUserToken
      (emitIf modes (HistoryEvent.unavailable "lossless_unavailable")) q
      hmk hq hstat htok
    exact ⟨h.1, h.2.2.1, h.2.2.2.1, h.2.2.2.2.1, h.2.2.2.2.2.1, h.2.2.2.2.2.2.1,
      h.2.2.2.2.2.2.2.1, h.2.2.2.2.2.2.2.2.1, h.2.2.2.2.2.2.2.2.2.1,
      h.2.2.2.2.2.2.2.2.2.2⟩

/-- C5 witness: a concrete lossless-unavailable track under
`alacdir/Artist/Album` relocates to `aacdir/Artist/Album` and succeeds with
a valid 52-byte token, and terminates Unavailable with a short token. -/
theorem ripTrack_lossless_fallback_witness :
    (ripTrack ⟨"none", false, "fmt", 2768, "", false, "", false, "alacdir", "aacdir"⟩
      ⟨false, false, false, false⟩
      ⟨false, true, true, none, true, "", none, "song", (fun _ => StatResult.notExist),
        none, none, none, "", none, true, true, true, false, none, true, true, []⟩
      ⟨"id1", 7, "pre", "songs", "", "m", "", "ALAC", "alacdir/Artist/Album", "", "",
        "cov.jpg", "", []⟩
      "0123456789012345678901234567890123456789012345678901").ret = true ∧
    (ripTrack ⟨"none", false, "fmt", 2768, "", false, "", false, "alacdir", "aacdir"⟩
      ⟨false, false, false, false⟩
      ⟨false, true, true, none, true, "", none, "song", (fun _ => StatResult.notExist),
        none, none, none, "", none, true, true, true, false, none, true, true, []⟩
      ⟨"id1", 7, "pre", "songs", "", "m", "", "ALAC", "alacdir/Artist/Album", "", "",
        "cov.jpg", "", []⟩
      "0123456789012345678901234567890123456789012345678901").events =
      [HistoryEvent.unavailable "lossless_unavailable", HistoryEvent.download] ∧
    (ripTrack ⟨"none", false, "fmt", 2768, "", false, "", false, "alacdir", "aacdir"⟩
      ⟨false, false, false, false⟩
      ⟨false, true, true, none, true, "", none, "song", (fun _ => StatResult.notExist),
        none, none, none, "", none, true, true, true, false, none, true, true, []⟩
      ⟨"id1", 7, "pre", "songs", "", "m", "", "ALAC", "alacdir/Artist/Album", "", "",
        "cov.jpg", "", []⟩
      "0123456789012345678901234567890123456789012345678901").track.saveDir =
      "aacdir/Artist/Album" ∧
    (ripTrack ⟨"none", false, "fmt", 2768, "", false, "", false, "alacdir", "aacdir"⟩
      ⟨false, false, false, false⟩
      ⟨false, true, true, none, true, "", none, "song", (fun _ => StatResult.notExist),
        none, none, none, "", none, true, true, true, false, none, true, true, []⟩
      ⟨"id1", 7, "pre", "songs", "", "m", "", "ALAC", "alacdir/Artist/Album", "", "",
        "cov.jpg", "", []⟩
      "0123456789012345678901234567890123456789012345678901").track.coverPath = "" ∧
    (ripTrack ⟨"none", false, "fmt", 2768, "", false, "", false, "alacdir", "aacdir"⟩
      ⟨false, false, false, false⟩
      ⟨false, true, true, none, true, "", none, "song", (fun _ => StatResult.notExist),
        none, none, none, "", none, true, true, true, false, none, true, true, []⟩
      ⟨"id1", 7, "pre", "songs", "", "m", "", "ALAC", "alacdir/Artist/Album", "", "",
        "cov.jpg", "", []⟩
      "short").unavailable = 1 ∧
    (ripTrack ⟨"none", false, "fmt", 2768, "", false, "", false, "alacdir", "aacdir"⟩
      ⟨false, false, false, false⟩
      ⟨false, true, true, none, true, "", none, "song", (fun _ => StatResult.notExist),
        none, none, none, "", none, true, true, true, false, none, true, true, []⟩
      ⟨"id1", 7, "pre", "songs", "", "m", "", "ALAC", "alacdir/Artist/Album", "", "",
        "cov.jpg", "", []⟩
      "short").fetched = false := by
  have hs := ripTrack_lossless_fallback.1
    ⟨"none", false, "fmt", 2768, "", false, "", false, "alacdir", "aacdir"⟩
    ⟨false, false, false, false⟩
    ⟨false, true, true, none, true, "", none, "song", (fun _ => StatResult.notExist),
      none, none, none, "", none, true, true, true, false, none, true, true, []⟩
    ⟨"id1", 7, "pre", "songs", "", "m", "", "ALAC", "alacdir/Artist/Album", "", "",
      "cov.jpg", "", []⟩
    "0123456789012345678901234567890123456789012345678901" ""
    rfl (by decide) rfl rfl (by decide) rfl (by decide) (fun p => by simp)
    (by decide) rfl rfl rfl rfl
  have hu := ripTrack_lossless_fallback.2
    ⟨"none", false, "fmt", 2768, "", false, "", false, "alacdir", "aacdir"⟩
    ⟨false, false, false, false⟩
    ⟨false, true, true, none, true, "", none, "song", (fun _ => StatResult.notExist),
      none, none, none, "", none, true, true, true, false, none, true, true, []⟩
    ⟨"id1", 7, "pre", "songs", "", "m", "", "ALAC", "alacdir/Artist/Album", "", "",
      "cov.jpg", "", []⟩
    "short" ""
    rfl (by decide) rfl rfl (by decide) rfl (by decide) (fun p => by simp)
    (by decide)
  refine ⟨hs.1, ?_, ?_, hs.2.2.2.2.2.2.2.2.2, hu.2.2.2.1, hu.2.2.2.2.2.2.1⟩
  · rw [hs.2.2.2.2.2.1]
    decide
  · rw [hs.2.2.2.2.2.2.2.2.1]
    decide
